import Mathlib

/-!
# DefraDB: Merkle CRDT wrapper, secondary indexes and schema names

A shallow embedding of

* `merkle/crdt/merklecrdt.go`   (`baseMerkleCRDT`: `Merge`, `Value`, `ID`, `Publish`),
* `db/index.go`                 (index validators, `NewCollectionIndex`, `Save`, `Update`,
  `deleteIndexKey`, `RemoveAll`),
* `request/graphql/schema/collection.go` (`IsValidIndexName`, `fieldIndexFromAST`,
  `indexFromAST`, `astTypeToKind`, `fieldsFromAST`, `getRelationshipName`,
  `fromAstDefinition`),

together with the collaborators these functions call.  Go interfaces
(`core.MerkleClock`, `core.ReplicatedData`, `corenet.Broadcaster`,
`datastore.Txn`) are records of functions over an explicit state; Go's
`(value, error)` results are pairs whose second component is `Option Error`
(`none` is Go's `nil` error).
-/

namespace DefraDB

/-! ## Basic data -/

/-- Go `[]byte`: a sequence of byte values. -/
abbrev Bytes := List Nat

/-- Content identifier (`cid.Cid`), kept in its string form. -/
abbrev Cid := String

/-- The undefined CID `cid.Undef` (the zero value of `cid.Cid`). -/
def cid.Undef : Cid := ""

/-- A Go value of static type `any`, as far as the type assertions in
`db/index.go` distinguish it.  A `float64` is kept as its bit pattern. -/
inductive GoAny where
  | nil
  | string (s : String)
  | int64 (n : Int)
  | float64 (bits : Nat)
  | bool (b : Bool)
  | other (typeName : String)
  deriving DecidableEq, Repr

/-- The field kinds of `client.FieldKind` that the sources refer to. -/
inductive FieldKind where
  | None
  | DocKey
  | BOOL
  | BOOL_ARRAY
  | INT
  | INT_ARRAY
  | FLOAT
  | FLOAT_ARRAY
  | DATETIME
  | STRING
  | STRING_ARRAY
  | BLOB
  | FOREIGN_OBJECT
  | FOREIGN_OBJECT_ARRAY
  | NILLABLE_BOOL_ARRAY
  | NILLABLE_INT_ARRAY
  | NILLABLE_FLOAT_ARRAY
  | NILLABLE_STRING_ARRAY
  deriving DecidableEq, Repr

/-- A document field value (`client.Value`): `val` is what `Value()` returns,
`bytes` is `some r` when the value also implements `client.WriteableValue` and
`Bytes()` returns `r` (`Sum.inl` the encoding, `Sum.inr` the message of the
encoding error). -/
structure Value where
  val : GoAny
  bytes : Option (Bytes ⊕ String)
  deriving DecidableEq, Repr

/-- Errors returned by the embedded functions.  `other` stands for an error
produced by a collaborator (datastore, clock, encoder); the remaining
constructors are the error constructors the sources call, and `panic` is a
run-time panic of the Go program (index out of range, call of a nil function),
which unwinds through the callers the way an unwrapped error does. -/
inductive Error where
  | other (msg : String)
  | panic (msg : String)
  | ErrFieldNotExist (name : String)
  | ErrInvalidFieldValue (kind : FieldKind) (val : Option Value)
  | ErrCorruptedIndex (indexName : String)
  | ErrCanNotIndexNonUniqueField (docKey : String) (fieldName : String) (val : GoAny)
  | ErrFailedToStoreIndexedField (key : String) (inner : Error)
  | CanNotDeleteIndexedField (inner : Error)
  | ErrUnsupportedIndexFieldType (kind : FieldKind)
  | ErrIndexDescHasNoFields
  | ErrIndexDescHasNonExistingField (name : String)
  | ErrIndexWithInvalidArg
  | ErrIndexWithInvalidName (name : String)
  | ErrIndexWithUnknownArg
  | ErrIndexMissingFields
  | ErrNonNullNotSupported
  | ErrNonNullForTypeNotSupported (typeName : String)
  | ErrTypeNotFound (typeName : String)
  | ErrUnexpectedType (expected : String) (property : String) (actual : GoAny)
  deriving DecidableEq, Repr

/-! ## `merkle/crdt/merklecrdt.go` -/

/-- Modelled from the spec: a delta (`core.Delta`, an interface whose
implementations are not among the sources), with the fields of the data model. -/
structure Delta where
  Priority : Nat
  Payload : Bytes
  SchemaVersionID : String
  FieldName : Option String
  deriving DecidableEq, Repr

/-- The log entry `core.Log` handed to the broadcaster. -/
structure Log where
  DocKey : String
  CID : Cid
  Delta : Delta
  deriving DecidableEq, Repr

/-- The interface `core.MerkleClock` over a clock state `κ`. -/
structure MerkleClock (κ : Type) where
  AddDAGNode : κ → Delta → (Cid × Option Error) × κ

/-- The interface `core.ReplicatedData` over a CRDT state `σ`
(the methods `baseMerkleCRDT` forwards to). -/
structure ReplicatedData (σ : Type) where
  Merge : σ → Delta → String → Option Error × σ
  Value : σ → (Bytes × Option Error) × σ
  ID : σ → String

/-- The interface `corenet.Broadcaster` over a network state `β`; whatever
`Broadcast` returns is dropped by the caller. -/
structure Broadcaster (β : Type) where
  Broadcast : β → Log → Option Error × β

/-- The struct `baseMerkleCRDT`: a clock, the wrapped CRDT and a broadcaster
that may be `nil`. -/
structure baseMerkleCRDT (κ σ β : Type) where
  clock : MerkleClock κ
  crdt : ReplicatedData σ
  broadcaster : Option (Broadcaster β)

/-- A call made on one of the collaborators of `baseMerkleCRDT`. -/
inductive Call where
  | AddDAGNode (delta : Delta)
  | Merge (delta : Delta) (id : String)
  | Value
  | ID
  | Broadcast (log : Log)
  deriving DecidableEq, Repr

/-- The closure of the `go func() { ... }()` statement in `Publish`: it
captured the CID `c` and the `delta`. -/
structure Goroutine where
  c : Cid
  delta : Delta
  deriving DecidableEq, Repr

/-- The state `baseMerkleCRDT` acts on: the states of its three collaborators,
the goroutines started and not yet run, and the calls made so far. -/
structure World (κ σ β : Type) where
  clock : κ
  crdt : σ
  net : β
  goroutines : List Goroutine
  trace : List Call

/-- `baseMerkleCRDT.Merge`: forwards to the wrapped CRDT. -/
def baseMerkleCRDT.Merge {κ σ β : Type} (base : baseMerkleCRDT κ σ β) (w : World κ σ β)
    (other : Delta) (id : String) : Option Error × World κ σ β :=
  let r := base.crdt.Merge w.crdt other id
  (r.1, { w with crdt := r.2, trace := w.trace ++ [Call.Merge other id] })

/-- `baseMerkleCRDT.Value`: forwards to the wrapped CRDT. -/
def baseMerkleCRDT.Value {κ σ β : Type} (base : baseMerkleCRDT κ σ β) (w : World κ σ β) :
    (Bytes × Option Error) × World κ σ β :=
  let r := base.crdt.Value w.crdt
  (r.1, { w with crdt := r.2, trace := w.trace ++ [Call.Value] })

/-- `baseMerkleCRDT.ID`: forwards to the wrapped CRDT. -/
def baseMerkleCRDT.ID {κ σ β : Type} (base : baseMerkleCRDT κ σ β) (w : World κ σ β) : String :=
  base.crdt.ID w.crdt

/-- `baseMerkleCRDT.Publish`: adds the delta to the clock; on success starts a
goroutine that will broadcast when a broadcaster is set and `broadcast` holds. -/
def baseMerkleCRDT.Publish {κ σ β : Type} (base : baseMerkleCRDT κ σ β) (w : World κ σ β)
    (delta : Delta) (broadcast : Bool) : (Cid × Option Error) × World κ σ β :=
  let r := base.clock.AddDAGNode w.clock delta
  let c := r.1.1
  let w1 : World κ σ β := { w with clock := r.2, trace := w.trace ++ [Call.AddDAGNode delta] }
  match r.1.2 with
  | some err => ((cid.Undef, some err), w1)
  | none =>
    if base.broadcaster.isSome && broadcast then
      ((c, none), { w1 with goroutines := w1.goroutines ++ [{ c := c, delta := delta }] })
    else
      ((c, none), w1)

/-- The body of the goroutine started by `Publish`: builds the log from the
wrapped CRDT's ID, the captured CID and delta, and calls `Broadcast`. -/
def baseMerkleCRDT.runGoroutine {κ σ β : Type} (base : baseMerkleCRDT κ σ β) (w : World κ σ β)
    (g : Goroutine) : World κ σ β :=
  match base.broadcaster with
  | none => w
  | some b =>
    let log : Log := { DocKey := base.crdt.ID w.crdt, CID := g.c, Delta := g.delta }
    let r := b.Broadcast w.net log
    { w with net := r.2, trace := w.trace ++ [Call.ID, Call.Broadcast log] }

/-! ## The Merkle clock and the LWW register, from the specification -/

/-- Modelled from the spec: the DAG node of the data model (a delta with its
causal parents); the Merkle clock implementation is not among the sources. -/
structure DAGNode where
  Delta : Delta
  Parents : List Cid
  deriving DecidableEq, Repr

/-- Modelled from the spec: the state of the Merkle clock of one replicated
object: its head set (Head Tracker entry), the persisted nodes (Node Store) and
whether persistence currently fails (`some e`: the storage error). -/
structure ClockState where
  heads : List Cid
  nodes : List (Cid × DAGNode)
  storageError : Option Error
  deriving DecidableEq, Repr

/-- Modelled from the spec: Head Tracker `Get`, the current head set. -/
def HeadTracker.Get (s : ClockState) : List Cid :=
  s.heads

/-- Modelled from the spec: Head Tracker `Replace(objectID, removed, added)`,
which removes exactly the given CIDs and inserts the new one. -/
def HeadTracker.Replace (s : ClockState) (removed : List Cid) (added : Cid) : ClockState :=
  { s with heads := (s.heads.filter (fun h => !removed.contains h)).insert added }

/-- Modelled from the spec: Merkle clock `AddDAGNode(delta)`: reads the current
head set, builds a node whose parents are the current heads, computes its
content hash, persists the node, then replaces the head set by the new CID; a
persistence failure is returned as it is and leaves the heads alone. -/
def MerkleClock.specAddDAGNode (hash : DAGNode → Cid) (s : ClockState) (delta : Delta) :
    (Cid × Option Error) × ClockState :=
  let heads := HeadTracker.Get s
  let node : DAGNode := { Delta := delta, Parents := heads }
  let c := hash node
  match s.storageError with
  | some e => ((cid.Undef, some e), s)
  | none => ((c, none), HeadTracker.Replace { s with nodes := s.nodes ++ [(c, node)] } heads c)

/-- Modelled from the spec: the Merkle clock as a `core.MerkleClock`. -/
def MerkleClock.spec (hash : DAGNode → Cid) : MerkleClock ClockState :=
  { AddDAGNode := MerkleClock.specAddDAGNode hash }

/-- Modelled from the spec: what an LWW register keeps of the winning delta:
its priority, its content hash and its payload. -/
structure LWWEntry where
  Priority : Nat
  CID : String
  Payload : Bytes
  deriving DecidableEq, Repr

/-- Modelled from the spec: the state of an LWW register: the object's
identifier and the winner among the deltas merged so far. -/
structure LWWRegister where
  id : String
  winner : Option LWWEntry
  deriving DecidableEq, Repr

/-- Modelled from the spec: the LWW comparison `(Priority, tie-break)`: `a`
beats `b` when its priority is higher, or the priorities are equal and its
content hash comes later (`larger = true`) or earlier (`larger = false`) in the
byte-wise order of the hashes; the direction is a protocol constant. -/
def LWWEntry.beats (larger : Bool) (a b : LWWEntry) : Bool :=
  decide (b.Priority < a.Priority) ||
    (decide (b.Priority = a.Priority) &&
      (if larger then decide (b.CID.toList < a.CID.toList)
       else decide (a.CID.toList < b.CID.toList)))

/-- Modelled from the spec: LWW register `Merge(ctx, delta, id)`, where `id`
is the content hash of the delta: the delta replaces the winner when it beats
it. -/
def LWWRegister.Merge (larger : Bool) (reg : LWWRegister) (delta : Delta) (id : String) :
    Option Error × LWWRegister :=
  let cand : LWWEntry := { Priority := delta.Priority, CID := id, Payload := delta.Payload }
  match reg.winner with
  | none => (none, { reg with winner := some cand })
  | some cur =>
    if cand.beats larger cur then (none, { reg with winner := some cand })
    else (none, reg)

/-- The delta `(delta, id)` is covered by the register: there is a winner and
the delta does not beat it. -/
def LWWRegister.Covers (larger : Bool) (reg : LWWRegister) (delta : Delta) (id : String) : Prop :=
  ∃ cur, reg.winner = some cur ∧
    LWWEntry.beats larger { Priority := delta.Priority, CID := id, Payload := delta.Payload } cur
      = false

/-- Modelled from the spec: LWW register `Value(ctx)`, the payload of the
winner; a register nothing was merged into has no value. -/
def LWWRegister.Value (reg : LWWRegister) : (Bytes × Option Error) × LWWRegister :=
  match reg.winner with
  | none => (([], some (Error.other "not found")), reg)
  | some cur => ((cur.Payload, none), reg)

/-- Modelled from the spec: the LWW register as a `core.ReplicatedData`. -/
def LWWRegister.spec (larger : Bool) : ReplicatedData LWWRegister :=
  { Merge := LWWRegister.Merge larger
    Value := LWWRegister.Value
    ID := fun reg => reg.id }

/-- A `baseMerkleCRDT` over the clock and the LWW register of the
specification. -/
def baseMerkleCRDT.ofSpec {β : Type} (hash : DAGNode → Cid) (larger : Bool)
    (broadcaster : Option (Broadcaster β)) : baseMerkleCRDT ClockState LWWRegister β :=
  { clock := MerkleClock.spec hash
    crdt := LWWRegister.spec larger
    broadcaster := broadcaster }

/-- Merges a sequence of deltas, each with its id, through
`baseMerkleCRDT.Merge`, in order. -/
def baseMerkleCRDT.MergeAll {κ σ β : Type} (base : baseMerkleCRDT κ σ β) (w : World κ σ β) :
    List (Delta × String) → World κ σ β
  | [] => w
  | (d, id) :: rest => base.MergeAll (base.Merge w d id).2 rest

/-! ### Concrete objects used to instantiate the statements -/

/-- A content hash for examples: the payload bytes and the parents, spelled
out. -/
def exampleHash (n : DAGNode) : Cid :=
  String.join (n.Parents.map (fun p => p ++ ";")) ++ "#" ++
    String.mk (n.Delta.Payload.map Char.ofNat)

/-- A broadcaster for examples that always reports a failure. -/
def failingBroadcaster : Broadcaster Unit :=
  { Broadcast := fun u _ => (some (Error.other "peer unreachable"), u) }

/-- A clock for examples whose `AddDAGNode` always fails. -/
def failingClock : MerkleClock Unit :=
  { AddDAGNode := fun u _ => (("bafy-partial", some (Error.other "disk full")), u) }

/-- Delta writing the payload `21` with priority 1. -/
def delta21 : Delta :=
  { Priority := 1, Payload := [21], SchemaVersionID := "v1", FieldName := some "age" }

/-- Delta writing the payload `22` with priority 1. -/
def delta22 : Delta :=
  { Priority := 1, Payload := [22], SchemaVersionID := "v1", FieldName := some "age" }

/-- A world over the specification's clock and register with one head. -/
def exampleWorld : World ClockState LWWRegister Unit :=
  { clock := { heads := ["h0"], nodes := [], storageError := none }
    crdt := { id := "doc1/age", winner := none }
    net := ()
    goroutines := []
    trace := [] }

/-- A world whose clock is `failingClock`. -/
def failingWorld : World Unit LWWRegister Unit :=
  { clock := (), crdt := { id := "doc1/age", winner := none }, net := (), goroutines := [],
    trace := [] }

/-! ## `db/index.go` -/

/-- The bytes of a Go string (`[]byte(s)`): its UTF-8 encoding. -/
def goBytes (s : String) : Bytes :=
  s.toList.flatMap (fun c => (String.utf8EncodeChar c).map UInt8.toNat)

/-- Go's `errors.Is(err, client.ErrFieldNotExist)`: follows the chain of wrapped
errors. -/
def Error.IsFieldNotExist : Error → Bool
  | Error.ErrFieldNotExist _ => true
  | Error.ErrFailedToStoreIndexedField _ inner => inner.IsFieldNotExist
  | Error.CanNotDeleteIndexedField inner => inner.IsFieldNotExist
  | _ => false

/-- The index direction `client.IndexDirection`. -/
inductive IndexDirection where
  | unset
  | Ascending
  | Descending
  deriving DecidableEq, Repr

/-- The struct `client.IndexedFieldDescription`. -/
structure IndexedFieldDescription where
  Name : String
  Direction : IndexDirection
  deriving DecidableEq, Repr

/-- The struct `client.IndexDescription`. -/
structure IndexDescription where
  Name : String
  ID : Nat
  Fields : List IndexedFieldDescription
  Unique : Bool
  deriving DecidableEq, Repr

/-- The struct `client.FieldDescription`. -/
structure FieldDescription where
  Name : String
  Kind : FieldKind
  Schema : String
  RelationName : String
  Typ : Nat
  RelationType : Nat
  deriving DecidableEq, Repr

/-- The struct `client.SchemaDescription`. -/
structure SchemaDescription where
  Name : String
  Fields : List FieldDescription
  deriving DecidableEq, Repr

/-- The method `client.SchemaDescription.GetField`: the first field of that
name, and whether there is one. -/
def SchemaDescription.GetField (sd : SchemaDescription) (name : String) :
    Option FieldDescription :=
  sd.Fields.find? (fun field => field.Name == name)

/-- What `db/index.go` uses of the interface `client.Collection`: `ID()` and
`Schema()`. -/
structure Collection where
  ID : Nat
  Schema : SchemaDescription
  deriving DecidableEq, Repr

/-- What `db/index.go` uses of `*client.Document`: `Key().String()` and
`GetValue(field)`. -/
structure Document where
  Key : String
  GetValue : String → Except Error Value

/-- A document holding the listed fields; `GetValue` of any other field fails
with `ErrFieldNotExist`. -/
def Document.ofFields (key : String) (fields : List (String × Value)) : Document :=
  { Key := key
    GetValue := fun name =>
      match fields.find? (fun f => f.1 == name) with
      | some f => Except.ok f.2
      | none => Except.error (Error.ErrFieldNotExist name) }

/-- The struct `core.IndexDataStoreKey`. -/
structure IndexDataStoreKey where
  CollectionID : Nat
  IndexID : Nat
  FieldValues : List Bytes
  deriving DecidableEq, Repr

/-- Library functions and encoders that `db/index.go` calls and that are defined
outside the sources: the datastore form of an index key (`ToDS().String()`),
whether `time.Parse(time.RFC3339, s)` succeeds, whether `types.BlobPattern`
matches, the result of `client.NewCBORValue(client.LWW_REGISTER, nil).Bytes()`,
the string form of an index key (`ToString()`), and whether a datastore query
for a key prefix (first argument) returns a key (second argument). -/
structure Env where
  ToDS : IndexDataStoreKey → String
  ParseRFC3339 : String → Bool
  BlobPattern : String → Bool
  NilCBOR : Bytes ⊕ String
  ToString : IndexDataStoreKey → String
  QueryMatches : String → String → Bool

/-- A call made on `txn.Datastore()`. -/
inductive DSCall where
  | Has (key : String)
  | Put (key : String) (value : Bytes)
  | Delete (key : String)
  | Query (keysUnder : String)
  deriving DecidableEq, Repr

/-- The transaction's datastore: its entries, the calls made on it so far, and
for each operation and key the error, if any, with which the datastore fails
that operation. -/
structure Txn where
  entries : List (String × Bytes)
  calls : List DSCall
  hasFails : String → Option Error
  putFails : String → Option Error
  deleteFails : String → Option Error
  queryFails : String → Option Error

/-- Whether the key has an entry. -/
def Txn.contains (txn : Txn) (key : String) : Bool :=
  txn.entries.any (fun e => e.1 == key)

/-- The datastore's `Has(ctx, key)`. -/
def Txn.Has (txn : Txn) (key : String) : (Bool × Option Error) × Txn :=
  let txn1 := { txn with calls := txn.calls ++ [DSCall.Has key] }
  match txn.hasFails key with
  | some err => ((false, some err), txn1)
  | none => ((txn.contains key, none), txn1)

/-- The datastore's `Put(ctx, key, value)`: replaces the entry of the key. -/
def Txn.Put (txn : Txn) (key : String) (value : Bytes) : Option Error × Txn :=
  let txn1 := { txn with calls := txn.calls ++ [DSCall.Put key value] }
  match txn.putFails key with
  | some err => (some err, txn1)
  | none =>
    (none, { txn1 with entries := txn.entries.filter (fun e => e.1 != key) ++ [(key, value)] })

/-- The datastore's `Delete(ctx, key)`: removes the entry of the key, if any. -/
def Txn.Delete (txn : Txn) (key : String) : Option Error × Txn :=
  let txn1 := { txn with calls := txn.calls ++ [DSCall.Delete key] }
  match txn.deleteFails key with
  | some err => (some err, txn1)
  | none => (none, { txn1 with entries := txn.entries.filter (fun e => e.1 != key) })

/-- The Go types that `canConvertIndexFieldValue` is instantiated with. -/
inductive GoType where
  | string
  | int64
  | float64
  | bool
  deriving DecidableEq, Repr

/-- `canConvertIndexFieldValue[T]`: whether the type assertion `val.(T)`
succeeds. -/
def canConvertIndexFieldValue (T : GoType) (val : GoAny) : Bool :=
  match T, val with
  | GoType.string, GoAny.string _ => true
  | GoType.int64, GoAny.int64 _ => true
  | GoType.float64, GoAny.float64 _ => true
  | GoType.bool, GoAny.bool _ => true
  | _, _ => false

/-- `getValidateIndexFieldFunc`: the validator of a field kind, `none` (Go's
nil function) for a kind without one. -/
def getValidateIndexFieldFunc (env : Env) (kind : FieldKind) : Option (GoAny → Bool) :=
  match kind with
  | FieldKind.STRING => some (canConvertIndexFieldValue GoType.string)
  | FieldKind.FOREIGN_OBJECT => some (canConvertIndexFieldValue GoType.string)
  | FieldKind.INT => some (canConvertIndexFieldValue GoType.int64)
  | FieldKind.FLOAT => some (canConvertIndexFieldValue GoType.float64)
  | FieldKind.BOOL => some (canConvertIndexFieldValue GoType.bool)
  | FieldKind.BLOB =>
    some (fun val =>
      match val with
      | GoAny.string blobStrVal => env.BlobPattern blobStrVal
      | _ => false)
  | FieldKind.DATETIME =>
    some (fun val =>
      match val with
      | GoAny.string timeStrVal => env.ParseRFC3339 timeStrVal
      | _ => false)
  | _ => none

/-- `getFieldValidateFunc`: the validator, or `ErrUnsupportedIndexFieldType`. -/
def getFieldValidateFunc (env : Env) (kind : FieldKind) : Except Error (GoAny → Bool) :=
  match getValidateIndexFieldFunc env kind with
  | none => Except.error (Error.ErrUnsupportedIndexFieldType kind)
  | some validateFunc => Except.ok validateFunc

/-- The struct `collectionBaseIndex`. -/
structure collectionBaseIndex where
  collection : Collection
  desc : IndexDescription
  validateFieldFunc : Option (GoAny → Bool)
  fieldDesc : FieldDescription

/-- The two implementations of the interface `CollectionIndex`:
`collectionSimpleIndex` and `collectionUniqueIndex`, each embedding a
`collectionBaseIndex`. -/
inductive CollectionIndex where
  | simple (base : collectionBaseIndex)
  | unique (base : collectionBaseIndex)

/-- The base index embedded in a collection index. -/
def CollectionIndex.base : CollectionIndex → collectionBaseIndex
  | CollectionIndex.simple b => b
  | CollectionIndex.unique b => b

/-- `NewCollectionIndex`. -/
def NewCollectionIndex (env : Env) (collection : Collection) (desc : IndexDescription) :
    Except Error CollectionIndex :=
  match desc.Fields with
  | [] => Except.error Error.ErrIndexDescHasNoFields
  | first :: _ =>
    match collection.Schema.GetField first.Name with
    | none => Except.error (Error.ErrIndexDescHasNonExistingField first.Name)
    | some field =>
      match getFieldValidateFunc env field.Kind with
      | Except.error err => Except.error err
      | Except.ok validateFunc =>
        let base : collectionBaseIndex :=
          { collection := collection, desc := desc, validateFieldFunc := some validateFunc,
            fieldDesc := field }
        if desc.Unique then Except.ok (CollectionIndex.unique base)
        else Except.ok (CollectionIndex.simple base)

/-- A `([]byte, error)` result of `Bytes()` as a result of this development. -/
def bytesResult (r : Bytes ⊕ String) : Except Error Bytes :=
  match r with
  | Sum.inl b => Except.ok b
  | Sum.inr msg => Except.error (Error.other msg)

/-- `collectionBaseIndex.getDocFieldValue`: the encoded value of the indexed
field of the document. -/
def collectionBaseIndex.getDocFieldValue (env : Env) (i : collectionBaseIndex)
    (doc : Document) : Except Error Bytes :=
  match i.desc.Fields with
  | [] => Except.error (Error.panic "index out of range [0] with length 0")
  | first :: _ =>
    let indexedFieldName := first.Name
    match doc.GetValue indexedFieldName with
    | Except.error err =>
      if err.IsFieldNotExist then bytesResult env.NilCBOR
      else Except.error err
    | Except.ok fieldVal =>
      match fieldVal.bytes with
      | none => Except.error (Error.ErrInvalidFieldValue i.fieldDesc.Kind none)
      | some writeableBytes =>
        match i.validateFieldFunc with
        | none => Except.error (Error.panic "nil pointer dereference")
        | some validate =>
          if !validate fieldVal.val then
            Except.error (Error.ErrInvalidFieldValue i.fieldDesc.Kind (some fieldVal))
          else bytesResult writeableBytes

/-- `collectionBaseIndex.getDocumentsIndexKey`. -/
def collectionBaseIndex.getDocumentsIndexKey (env : Env) (i : collectionBaseIndex)
    (doc : Document) : Except Error IndexDataStoreKey :=
  match i.getDocFieldValue env doc with
  | Except.error err => Except.error err
  | Except.ok fieldValue =>
    Except.ok { CollectionID := i.collection.ID, IndexID := i.desc.ID,
                FieldValues := [fieldValue] }

/-- `collectionBaseIndex.deleteIndexKey`. -/
def collectionBaseIndex.deleteIndexKey (env : Env) (i : collectionBaseIndex) (txn : Txn)
    (key : IndexDataStoreKey) : Option Error × Txn :=
  let r := txn.Has (env.ToDS key)
  match r.1.2 with
  | some err => (some err, r.2)
  | none =>
    if !r.1.1 then (some (Error.ErrCorruptedIndex i.desc.Name), r.2)
    else r.2.Delete (env.ToDS key)

/-- The function `datastore.FetchKeysForPrefix`, which is defined outside the
sources: it queries the datastore for the keys under a key prefix and returns
them, or the error of the query. -/
def FetchKeysForPrefix (env : Env) (keysUnder : String) (txn : Txn) :
    Except Error (List String) × Txn :=
  let txn1 := { txn with calls := txn.calls ++ [DSCall.Query keysUnder] }
  match txn.queryFails keysUnder with
  | some err => (Except.error err, txn1)
  | none => (Except.ok ((txn.entries.map (fun e => e.1)).filter (env.QueryMatches keysUnder)), txn1)

/-- The loop `for _, key := range keys` of `collectionBaseIndex.RemoveAll`. -/
def collectionBaseIndex.RemoveAll.loop (txn : Txn) : List String → Option Error × Txn
  | [] => (none, txn)
  | key :: rest =>
    let r := txn.Delete key
    match r.1 with
    | some err => (some (Error.CanNotDeleteIndexedField err), r.2)
    | none => collectionBaseIndex.RemoveAll.loop r.2 rest

/-- The key `prefixKey` of `collectionBaseIndex.RemoveAll`: the collection ID
and the index ID of the index, no field values. -/
def collectionBaseIndex.prefixKey (i : collectionBaseIndex) : IndexDataStoreKey :=
  { CollectionID := i.collection.ID, IndexID := i.desc.ID, FieldValues := [] }

/-- `collectionBaseIndex.RemoveAll`. -/
def collectionBaseIndex.RemoveAll (env : Env) (i : collectionBaseIndex) (txn : Txn) :
    Option Error × Txn :=
  let r := FetchKeysForPrefix env (env.ToString i.prefixKey) txn
  match r.1 with
  | Except.error err => (some err, r.2)
  | Except.ok keys => collectionBaseIndex.RemoveAll.loop r.2 keys

/-- `collectionSimpleIndex.getDocumentsIndexKey`: the base key with the
document key appended to its field values. -/
def collectionSimpleIndex.getDocumentsIndexKey (env : Env) (i : collectionBaseIndex)
    (doc : Document) : Except Error IndexDataStoreKey :=
  match i.getDocumentsIndexKey env doc with
  | Except.error err => Except.error err
  | Except.ok key => Except.ok { key with FieldValues := key.FieldValues ++ [goBytes doc.Key] }

/-- `collectionSimpleIndex.Save`. -/
def collectionSimpleIndex.Save (env : Env) (i : collectionBaseIndex) (txn : Txn)
    (doc : Document) : Option Error × Txn :=
  match collectionSimpleIndex.getDocumentsIndexKey env i doc with
  | Except.error err => (some err, txn)
  | Except.ok key =>
    let r := txn.Put (env.ToDS key) []
    match r.1 with
    | some err => (some (Error.ErrFailedToStoreIndexedField (env.ToDS key) err), r.2)
    | none => (none, r.2)

/-- `collectionSimpleIndex.deleteDocIndex`. -/
def collectionSimpleIndex.deleteDocIndex (env : Env) (i : collectionBaseIndex) (txn : Txn)
    (doc : Document) : Option Error × Txn :=
  match collectionSimpleIndex.getDocumentsIndexKey env i doc with
  | Except.error err => (some err, txn)
  | Except.ok key => i.deleteIndexKey env txn key

/-- `collectionSimpleIndex.Update`. -/
def collectionSimpleIndex.Update (env : Env) (i : collectionBaseIndex) (txn : Txn)
    (oldDoc newDoc : Document) : Option Error × Txn :=
  let r := collectionSimpleIndex.deleteDocIndex env i txn oldDoc
  match r.1 with
  | some err => (some err, r.2)
  | none => collectionSimpleIndex.Save env i r.2 newDoc

/-- `collectionUniqueIndex.newUniqueIndexError`. -/
def collectionUniqueIndex.newUniqueIndexError (i : collectionBaseIndex) (doc : Document) :
    Error :=
  match doc.GetValue i.fieldDesc.Name with
  | Except.error err => err
  | Except.ok fieldVal =>
    Error.ErrCanNotIndexNonUniqueField doc.Key i.fieldDesc.Name fieldVal.val

/-- `collectionUniqueIndex.Save`. -/
def collectionUniqueIndex.Save (env : Env) (i : collectionBaseIndex) (txn : Txn)
    (doc : Document) : Option Error × Txn :=
  match i.getDocumentsIndexKey env doc with
  | Except.error err => (some err, txn)
  | Except.ok key =>
    let r := txn.Has (env.ToDS key)
    match r.1.2 with
    | some err => (some err, r.2)
    | none =>
      if r.1.1 then (some (collectionUniqueIndex.newUniqueIndexError i doc), r.2)
      else
        let p := r.2.Put (env.ToDS key) (goBytes doc.Key)
        match p.1 with
        | some err => (some (Error.ErrFailedToStoreIndexedField (env.ToDS key) err), p.2)
        | none => (none, p.2)

/-- `collectionUniqueIndex.deleteDocIndex`. -/
def collectionUniqueIndex.deleteDocIndex (env : Env) (i : collectionBaseIndex) (txn : Txn)
    (doc : Document) : Option Error × Txn :=
  match i.getDocumentsIndexKey env doc with
  | Except.error err => (some err, txn)
  | Except.ok key => i.deleteIndexKey env txn key

/-- `collectionUniqueIndex.Update`. -/
def collectionUniqueIndex.Update (env : Env) (i : collectionBaseIndex) (txn : Txn)
    (oldDoc newDoc : Document) : Option Error × Txn :=
  match i.getDocumentsIndexKey env newDoc with
  | Except.error err => (some err, txn)
  | Except.ok newKey =>
    let r := txn.Has (env.ToDS newKey)
    match r.1.2 with
    | some err => (some err, r.2)
    | none =>
      if r.1.1 then (some (collectionUniqueIndex.newUniqueIndexError i newDoc), r.2)
      else
        let d := collectionUniqueIndex.deleteDocIndex env i r.2 oldDoc
        match d.1 with
        | some err => (some err, d.2)
        | none => collectionUniqueIndex.Save env i d.2 newDoc

/-- The method `Save` of the interface `CollectionIndex`. -/
def CollectionIndex.Save (env : Env) (index : CollectionIndex) (txn : Txn) (doc : Document) :
    Option Error × Txn :=
  match index with
  | CollectionIndex.simple b => collectionSimpleIndex.Save env b txn doc
  | CollectionIndex.unique b => collectionUniqueIndex.Save env b txn doc

/-- The method `Update` of the interface `CollectionIndex`. -/
def CollectionIndex.Update (env : Env) (index : CollectionIndex) (txn : Txn)
    (oldDoc newDoc : Document) : Option Error × Txn :=
  match index with
  | CollectionIndex.simple b => collectionSimpleIndex.Update env b txn oldDoc newDoc
  | CollectionIndex.unique b => collectionUniqueIndex.Update env b txn oldDoc newDoc

/-! ## `request/graphql/schema/collection.go` -/

/-- The test of the first byte in `IsValidIndexName`: true when the byte is
neither `_` nor in `a..z` nor in `A..Z`. -/
def IsValidIndexName.badFirst (c : Nat) : Bool :=
  c != 95 && (decide (c < 97) || decide (c > 122)) && (decide (c < 65) || decide (c > 90))

/-- The test of a later byte in `IsValidIndexName`: true when the byte is
neither in `a..z`, nor in `A..Z`, nor in `0..9`, nor `_`. -/
def IsValidIndexName.badRest (c : Nat) : Bool :=
  (decide (c < 97) || decide (c > 122)) && (decide (c < 65) || decide (c > 90)) &&
    (decide (c < 48) || decide (c > 57)) && c != 95

/-- The loop `for i := 1; i < len(name); i++` of `IsValidIndexName`, from index
`i` on; `fuel` bounds the number of iterations. -/
def IsValidIndexName.loop (name : Bytes) : Nat → Nat → Bool
  | 0, _ => true
  | fuel + 1, i =>
    if i < name.length then
      if IsValidIndexName.badRest (name.getD i 0) then false
      else IsValidIndexName.loop name fuel (i + 1)
    else true

/-- `IsValidIndexName` on the bytes of the name. -/
def IsValidIndexName (name : Bytes) : Bool :=
  if name.length == 0 then false
  else if IsValidIndexName.badFirst (name.getD 0 0) then false
  else IsValidIndexName.loop name name.length 1

/-! ### Concrete objects of the index examples -/

/-- A datastore key form for examples: collection, index and field values,
separated by slashes. -/
def exampleToDS (key : IndexDataStoreKey) : String :=
  "/" ++ String.mk (List.replicate key.CollectionID 'c') ++
  "/" ++ String.mk (List.replicate key.IndexID 'i') ++
  String.join (key.FieldValues.map (fun v => "/" ++ String.mk (v.map Char.ofNat)))

/-- A recogniser for examples of RFC 3339 date-times of the form
`2006-01-02T15:04:05Z`. -/
def exampleParseRFC3339 (s : String) : Bool :=
  s.length == 20 &&
    (s.toList.enum.all (fun p =>
      if p.1 == 4 || p.1 == 7 then p.2 == '-'
      else if p.1 == 10 then p.2 == 'T'
      else if p.1 == 13 || p.1 == 16 then p.2 == ':'
      else if p.1 == 19 then p.2 == 'Z'
      else p.2.isDigit))

/-- The library functions used in the examples; the CBOR encoding of nil is the
byte `0xf6`. -/
def exampleEnv : Env :=
  { ToDS := exampleToDS
    ParseRFC3339 := exampleParseRFC3339
    BlobPattern := fun s => s.toList.all (fun c => c.isDigit || ('a' ≤ c && c ≤ 'f'))
    NilCBOR := Sum.inl [246]
    ToString := exampleToDS
    QueryMatches := fun p key => (p ++ "/").toList.isPrefixOf key.toList }

/-- A datastore without entries that never fails. -/
def emptyTxn : Txn :=
  { entries := [], calls := [], hasFails := fun _ => none, putFails := fun _ => none,
    deleteFails := fun _ => none, queryFails := fun _ => none }

/-- A collection `User` with a string field `name` and a date-time field
`created`. -/
def usersCollection : Collection :=
  { ID := 1
    Schema :=
      { Name := "User"
        Fields :=
          [ { Name := "_key", Kind := FieldKind.DocKey, Schema := "", RelationName := "",
              Typ := 0, RelationType := 0 },
            { Name := "created", Kind := FieldKind.DATETIME, Schema := "", RelationName := "",
              Typ := 1, RelationType := 0 },
            { Name := "name", Kind := FieldKind.STRING, Schema := "", RelationName := "",
              Typ := 1, RelationType := 0 } ] } }

/-- A string value that is writeable, with the given encoding. -/
def stringValue (s : String) (encoding : Bytes) : Value :=
  { val := GoAny.string s, bytes := some (Sum.inl encoding) }

/-- An ASCII letter: a byte in `a..z` or in `A..Z`. -/
def isASCIILetter (c : Nat) : Prop :=
  (97 ≤ c ∧ c ≤ 122) ∨ (65 ≤ c ∧ c ≤ 90)

/-- An ASCII digit: a byte in `0..9`. -/
def isASCIIDigit (c : Nat) : Prop :=
  48 ≤ c ∧ c ≤ 57

/-- The underscore byte. -/
def isUnderscore (c : Nat) : Prop :=
  c = 95

/-- An index description for examples: a simple index on the date-time field
`created`. -/
def createdIndexDesc : IndexDescription :=
  { Name := "created_idx", ID := 1,
    Fields := [{ Name := "created", Direction := IndexDirection.Ascending }], Unique := false }

/-- An index description for examples: a unique index on the string field
`name`. -/
def uniqueNameIndexDesc : IndexDescription :=
  { Name := "name_idx", ID := 2,
    Fields := [{ Name := "name", Direction := IndexDirection.Ascending }], Unique := true }

/-- The base index that `NewCollectionIndex` builds for `createdIndexDesc`. -/
def createdIndexBase : collectionBaseIndex :=
  { collection := usersCollection
    desc := createdIndexDesc
    validateFieldFunc := getValidateIndexFieldFunc exampleEnv FieldKind.DATETIME
    fieldDesc := { Name := "created", Kind := FieldKind.DATETIME, Schema := "",
                   RelationName := "", Typ := 1, RelationType := 0 } }

/-- The base index that `NewCollectionIndex` builds for `uniqueNameIndexDesc`. -/
def uniqueNameIndexBase : collectionBaseIndex :=
  { collection := usersCollection
    desc := uniqueNameIndexDesc
    validateFieldFunc := getValidateIndexFieldFunc exampleEnv FieldKind.STRING
    fieldDesc := { Name := "name", Kind := FieldKind.STRING, Schema := "",
                   RelationName := "", Typ := 1, RelationType := 0 } }

/-- A document whose `created` field holds the string `not-a-date`. -/
def badDateDoc : Document :=
  Document.ofFields "bae-1" [("created", stringValue "not-a-date" [1])]

/-- A document with a `created` field only: it has no `name` field. -/
def namelessDoc : Document :=
  Document.ofFields "bae-2" [("created", stringValue "2023-01-02T15:04:05Z" [2])]

/-- A document whose `name` field holds the string `John`. -/
def johnDoc : Document :=
  Document.ofFields "bae-3" [("name", stringValue "John" [74, 111, 104, 110])]

/-- The unique-index key of `johnDoc`. -/
def johnKey : IndexDataStoreKey :=
  { CollectionID := 1, IndexID := 2, FieldValues := [[74, 111, 104, 110]] }

/-- The unique-index key of a document without a `name` field: the field value
is the encoding of nil. -/
def nilNameKey : IndexDataStoreKey :=
  { CollectionID := 1, IndexID := 2, FieldValues := [[246]] }

/-- A datastore that never fails and already holds the unique-index entry of
another document without a `name` field. -/
def nilNameTxn : Txn :=
  { emptyTxn with entries := [(exampleToDS nilNameKey, goBytes "bae-0")] }

/-- A second document whose `name` field holds the string `John`. -/
def otherJohnDoc : Document :=
  Document.ofFields "bae-4" [("name", stringValue "John" [74, 111, 104, 110])]

/-- A simple (non-unique) index on the string field `name`, as
`NewCollectionIndex` builds it. -/
def simpleNameIndexBase : collectionBaseIndex :=
  { uniqueNameIndexBase with
    desc := { Name := "name_idx", ID := 3,
              Fields := [{ Name := "name", Direction := IndexDirection.Ascending }],
              Unique := false } }

/-- An index on an integer field `age`, with the validator of the kind INT. -/
def ageIndexBase : collectionBaseIndex :=
  { collection := usersCollection
    desc := { Name := "age_idx", ID := 4,
              Fields := [{ Name := "age", Direction := IndexDirection.Ascending }],
              Unique := false }
    validateFieldFunc := getValidateIndexFieldFunc exampleEnv FieldKind.INT
    fieldDesc := { Name := "age", Kind := FieldKind.INT, Schema := "", RelationName := "",
                   Typ := 1, RelationType := 0 } }

/-- A document whose `age` field holds the string `abc`. -/
def badAgeDoc : Document :=
  Document.ofFields "bae-5" [("age", stringValue "abc" [97, 98, 99])]

/-- A datastore that never fails and holds two entries of index 3 of
collection 1 and one entry of index 2. -/
def threeEntriesTxn : Txn :=
  { emptyTxn with
    entries := [("/c/iii/John/bae-3", []), ("/c/ii/John", [1]), ("/c/iii/John/bae-4", [])] }

/-! ## `request/graphql/schema/collection.go`: schema definitions -/

/-- A value node of the GraphQL AST (`ast.Value`), by node kind. -/
inductive ast.Value where
  | IntValue (Value : String)
  | FloatValue (Value : String)
  | StringValue (Value : String)
  | BooleanValue (Value : Bool)
  | EnumValue (Value : String)
  | ListValue (Values : List ast.Value)
  | ObjectValue
  | Variable (Name : String)

/-- The method `GetValue()` of the value nodes: number, string and enum nodes
hold their text as a Go string, a boolean node holds a `bool`, the other nodes
return a value of another type. -/
def ast.Value.GetValue : ast.Value → GoAny
  | ast.Value.IntValue v => GoAny.string v
  | ast.Value.FloatValue v => GoAny.string v
  | ast.Value.StringValue v => GoAny.string v
  | ast.Value.BooleanValue b => GoAny.bool b
  | ast.Value.EnumValue v => GoAny.string v
  | ast.Value.ListValue _ => GoAny.other "[]ast.Value"
  | ast.Value.ObjectValue => GoAny.other "[]*ast.ObjectField"
  | ast.Value.Variable _ => GoAny.other "*ast.Name"

/-- An argument of a directive (`ast.Argument`): `Name.Value` and `Value`. -/
structure ast.Argument where
  Name : String
  Value : ast.Value

/-- A directive (`ast.Directive`): `Name.Value` and `Arguments`. -/
structure ast.Directive where
  Name : String
  Arguments : List ast.Argument

/-- A type of the GraphQL AST (`ast.Type`): a named type, a list or a non-null
type. -/
inductive ast.Type_ where
  | Named (Name : String)
  | List (inner : ast.Type_)
  | NonNull (inner : ast.Type_)
  deriving DecidableEq, Repr

/-- A field definition (`ast.FieldDefinition`): `Name.Value`, `Type` and
`Directives`. -/
structure ast.FieldDefinition where
  Name : String
  Type_ : ast.Type_
  Directives : List ast.Directive

/-- An object definition (`ast.ObjectDefinition`): `Name.Value`, `Fields` and
`Directives`. -/
structure ast.ObjectDefinition where
  Name : String
  Fields : List ast.FieldDefinition
  Directives : List ast.Directive

/-- The constant `request.KeyFieldName`. -/
def request.KeyFieldName : String := "_key"

/-- The constant `types.IndexDirectiveLabel`. -/
def types.IndexDirectiveLabel : String := "index"

/-- The constant `types.IndexDirectivePropName`. -/
def types.IndexDirectivePropName : String := "name"

/-- The constant `types.IndexDirectivePropUnique`. -/
def types.IndexDirectivePropUnique : String := "unique"

/-- The constant `types.IndexDirectivePropFields`. -/
def types.IndexDirectivePropFields : String := "fields"

/-- The constant `types.IndexDirectivePropDirections`. -/
def types.IndexDirectivePropDirections : String := "directions"

/-- The string `string(client.Ascending)`. -/
def client.AscendingString : String := "ASC"

/-- The string `string(client.Descending)`. -/
def client.DescendingString : String := "DESC"

/-- The constant `client.NONE_CRDT`. -/
def client.NONE_CRDT : Nat := 0

/-- The constant `client.Relation_Type_ONE`. -/
def client.Relation_Type_ONE : Nat := 1

/-- The constant `client.Relation_Type_MANY`. -/
def client.Relation_Type_MANY : Nat := 2

/-- The constant `client.Relation_Type_INTERNAL_ID`. -/
def client.Relation_Type_INTERNAL_ID : Nat := 64

/-- The constant `client.Relation_Type_Primary`. -/
def client.Relation_Type_Primary : Nat := 128

/-- The struct `client.CollectionDescription`, as far as `fromAstDefinition`
fills it. -/
structure CollectionDescription where
  Name : String
  Indexes : List IndexDescription
  deriving DecidableEq, Repr

/-- The struct `client.CollectionDefinition`. -/
structure CollectionDefinition where
  Description : CollectionDescription
  Schema : SchemaDescription
  deriving DecidableEq, Repr

/-- What `collection.go` calls and is defined outside the sources, over a state
`ρ` of the relation manager: `genRelationName`, the method `RegisterSingle` of
the relation manager, the table `defaultCRDTForFieldKind`, and Go's
`sort.Slice` on a slice of field descriptions with a given `less`. -/
structure SchemaLib (ρ : Type) where
  genRelationName : String → String → Except Error String
  RegisterSingle : ρ → String → String → String → Nat → (Bool × Option Error) × ρ
  defaultCRDTForFieldKind : FieldKind → Nat
  sortSlice : (FieldDescription → FieldDescription → Bool) → List FieldDescription →
    List FieldDescription

/-- The loop over the arguments in `fieldIndexFromAST`, with the description
built so far. -/
def fieldIndexFromAST.loop (desc : IndexDescription) :
    List ast.Argument → Except Error IndexDescription
  | [] => Except.ok desc
  | arg :: rest =>
    if arg.Name == types.IndexDirectivePropName then
      match arg.Value with
      | ast.Value.StringValue nameVal =>
        if !IsValidIndexName (goBytes nameVal) then
          Except.error (Error.ErrIndexWithInvalidName nameVal)
        else fieldIndexFromAST.loop { desc with Name := nameVal } rest
      | _ => Except.error Error.ErrIndexWithInvalidArg
    else if arg.Name == types.IndexDirectivePropUnique then
      match arg.Value with
      | ast.Value.BooleanValue boolVal =>
        fieldIndexFromAST.loop { desc with Unique := boolVal } rest
      | _ => Except.error Error.ErrIndexWithInvalidArg
    else Except.error Error.ErrIndexWithUnknownArg

/-- `fieldIndexFromAST`: the index description of an `@index` directive on a
field. -/
def fieldIndexFromAST (field : ast.FieldDefinition) (directive : ast.Directive) :
    Except Error IndexDescription :=
  fieldIndexFromAST.loop
    { Name := "", ID := 0,
      Fields := [{ Name := field.Name, Direction := IndexDirection.Ascending }],
      Unique := false }
    directive.Arguments

/-- The inner loop of `getRelationshipName` over the arguments of one
`@relation` directive: the result at the first argument called `name`, if
any. -/
def getRelationshipName.arguments : List ast.Argument → Option (Except Error String)
  | [] => none
  | argument :: rest =>
    if argument.Name == "name" then
      match argument.Value.GetValue with
      | GoAny.string name => some (Except.ok name)
      | other =>
        some (Except.error (Error.ErrUnexpectedType "string" "Relationship name" other))
    else getRelationshipName.arguments rest

/-- The outer loop of `getRelationshipName` over the directives of the field. -/
def getRelationshipName.directives : List ast.Directive → Option (Except Error String)
  | [] => none
  | directive :: rest =>
    if directive.Name == "relation" then
      match getRelationshipName.arguments directive.Arguments with
      | some r => some r
      | none => getRelationshipName.directives rest
    else getRelationshipName.directives rest

/-- `getRelationshipName`: the name given by a `@relation` directive, else the
generated name. -/
def getRelationshipName {ρ : Type} (lib : SchemaLib ρ) (field : ast.FieldDefinition)
    (hostName targetName : String) : Except Error String :=
  match getRelationshipName.directives field.Directives with
  | some r => r
  | none => lib.genRelationName hostName targetName

/-- The `switch` on a scalar type name inside a non-null list element in
`astTypeToKind`. -/
def astTypeToKind.nonNullElement (name : String) : Except Error FieldKind :=
  if name == "Boolean" then Except.ok FieldKind.BOOL_ARRAY
  else if name == "Int" then Except.ok FieldKind.INT_ARRAY
  else if name == "Float" then Except.ok FieldKind.FLOAT_ARRAY
  else if name == "String" then Except.ok FieldKind.STRING_ARRAY
  else Except.error (Error.ErrNonNullForTypeNotSupported name)

/-- The `switch` on the type name of a nullable list element in
`astTypeToKind`. -/
def astTypeToKind.element (name : String) : FieldKind :=
  if name == "Boolean" then FieldKind.NILLABLE_BOOL_ARRAY
  else if name == "Int" then FieldKind.NILLABLE_INT_ARRAY
  else if name == "Float" then FieldKind.NILLABLE_FLOAT_ARRAY
  else if name == "String" then FieldKind.NILLABLE_STRING_ARRAY
  else FieldKind.FOREIGN_OBJECT_ARRAY

/-- The `switch` on the name of a named type in `astTypeToKind`. -/
def astTypeToKind.named (name : String) : FieldKind :=
  if name == "ID" then FieldKind.DocKey
  else if name == "Boolean" then FieldKind.BOOL
  else if name == "Int" then FieldKind.INT
  else if name == "Float" then FieldKind.FLOAT
  else if name == "DateTime" then FieldKind.DATETIME
  else if name == "String" then FieldKind.STRING
  else if name == "Blob" then FieldKind.BLOB
  else FieldKind.FOREIGN_OBJECT

/-- `astTypeToKind`: the field kind of an AST type.  The type assertions
`.(*ast.Named)` on the element of a list panic when the element is not a named
type. -/
def astTypeToKind (t : ast.Type_) : Except Error FieldKind :=
  match t with
  | ast.Type_.List inner =>
    match inner with
    | ast.Type_.NonNull element =>
      match element with
      | ast.Type_.Named name => astTypeToKind.nonNullElement name
      | _ => Except.error (Error.panic "interface conversion: ast.Type is not *ast.Named")
    | ast.Type_.Named name => Except.ok (astTypeToKind.element name)
    | ast.Type_.List _ =>
      Except.error (Error.panic "interface conversion: ast.Type is not *ast.Named")
  | ast.Type_.Named name => Except.ok (astTypeToKind.named name)
  | ast.Type_.NonNull _ => Except.error Error.ErrNonNullNotSupported

/-- `findDirective`: whether the field has a directive of that name (the
directive itself is not used by the callers). -/
def findDirective (field : ast.FieldDefinition) (directiveName : String) : Bool :=
  field.Directives.any (fun directive => directive.Name == directiveName)

/-- The first part of the relation branch of `fieldsFromAST`, for a field of
kind FOREIGN_OBJECT or FOREIGN_OBJECT_ARRAY: the related schema, the relation
type, and the field descriptions added before the field's own (the `_id` field
of a single relation). -/
def fieldsFromAST.related {ρ : Type} (lib : SchemaLib ρ) (field : ast.FieldDefinition)
    (kind : FieldKind) : Except Error (String × Nat × List FieldDescription) :=
  if kind == FieldKind.FOREIGN_OBJECT then
    match field.Type_ with
    | ast.Type_.Named name =>
      Except.ok (name,
        if findDirective field "primary" then
          client.Relation_Type_ONE ||| client.Relation_Type_Primary
        else client.Relation_Type_ONE,
        [{ Name := field.Name ++ "_id", Kind := FieldKind.DocKey, Schema := "",
           RelationName := "", Typ := lib.defaultCRDTForFieldKind FieldKind.DocKey,
           RelationType := client.Relation_Type_INTERNAL_ID }])
    | _ => Except.error (Error.panic "interface conversion: ast.Type is not *ast.Named")
  else
    match field.Type_ with
    | ast.Type_.List (ast.Type_.Named name) =>
      Except.ok (name, client.Relation_Type_MANY, [])
    | _ => Except.error (Error.panic "interface conversion: ast.Type is not *ast.Named")

/-- `fieldsFromAST`: the field descriptions of one field definition. -/
def fieldsFromAST {ρ : Type} (lib : SchemaLib ρ) (rm : ρ) (field : ast.FieldDefinition)
    (def_ : ast.ObjectDefinition) : Except Error (List FieldDescription) × ρ :=
  match astTypeToKind field.Type_ with
  | Except.error err => (Except.error err, rm)
  | Except.ok kind =>
    if kind == FieldKind.FOREIGN_OBJECT || kind == FieldKind.FOREIGN_OBJECT_ARRAY then
      match fieldsFromAST.related lib field kind with
      | Except.error err => (Except.error err, rm)
      | Except.ok (schema, relationType, fieldDescriptions) =>
        match getRelationshipName lib field def_.Name schema with
        | Except.error err => (Except.error err, rm)
        | Except.ok relationName =>
          let r := lib.RegisterSingle rm relationName schema field.Name relationType
          match r.1.2 with
          | some err => (Except.error err, r.2)
          | none =>
            (Except.ok (fieldDescriptions ++
              [{ Name := field.Name, Kind := kind, Schema := schema,
                 RelationName := relationName, Typ := lib.defaultCRDTForFieldKind kind,
                 RelationType := relationType }]), r.2)
    else
      (Except.ok [{ Name := field.Name, Kind := kind, Schema := "", RelationName := "",
                    Typ := lib.defaultCRDTForFieldKind kind, RelationType := 0 }], rm)

/-- The loop over `fieldsVal.Values` in `indexFromAST`: appends one indexed
field per string value. -/
def indexFromAST.fields (acc : List IndexedFieldDescription) :
    List ast.Value → Except Error (List IndexedFieldDescription)
  | [] => Except.ok acc
  | field :: rest =>
    match field with
    | ast.Value.StringValue fieldVal =>
      indexFromAST.fields (acc ++ [{ Name := fieldVal, Direction := IndexDirection.unset }]) rest
    | _ => Except.error Error.ErrIndexWithInvalidArg

/-- The loop over the arguments in `indexFromAST`, with the description and the
`directions` list found so far. -/
def indexFromAST.loop (desc : IndexDescription) (directions : Option (List ast.Value)) :
    List ast.Argument → Except Error (IndexDescription × Option (List ast.Value))
  | [] => Except.ok (desc, directions)
  | arg :: rest =>
    if arg.Name == types.IndexDirectivePropName then
      match arg.Value with
      | ast.Value.StringValue nameVal =>
        if !IsValidIndexName (goBytes nameVal) then Except.error Error.ErrIndexWithInvalidArg
        else indexFromAST.loop { desc with Name := nameVal } directions rest
      | _ => Except.error Error.ErrIndexWithInvalidArg
    else if arg.Name == types.IndexDirectivePropFields then
      match arg.Value with
      | ast.Value.ListValue values =>
        match indexFromAST.fields desc.Fields values with
        | Except.error err => Except.error err
        | Except.ok fields => indexFromAST.loop { desc with Fields := fields } directions rest
      | _ => Except.error Error.ErrIndexWithInvalidArg
    else if arg.Name == types.IndexDirectivePropDirections then
      match arg.Value with
      | ast.Value.ListValue values => indexFromAST.loop desc (some values) rest
      | _ => Except.error Error.ErrIndexWithInvalidArg
    else if arg.Name == types.IndexDirectivePropUnique then
      match arg.Value with
      | ast.Value.BooleanValue boolVal =>
        indexFromAST.loop { desc with Unique := boolVal } directions rest
      | _ => Except.error Error.ErrIndexWithInvalidArg
    else Except.error Error.ErrIndexWithUnknownArg

/-- The loop `for i := range desc.Fields` of `indexFromAST` that reads the
direction of each field from `directions.Values[i]`. -/
def indexFromAST.directions :
    List IndexedFieldDescription → List ast.Value → Except Error (List IndexedFieldDescription)
  | [], _ => Except.ok []
  | _ :: _, [] => Except.error (Error.panic "index out of range")
  | field :: fields, dir :: dirs =>
    match dir with
    | ast.Value.EnumValue dirVal =>
      let field1 : IndexedFieldDescription :=
        if dirVal == client.AscendingString then
          { field with Direction := IndexDirection.Ascending }
        else if dirVal == client.DescendingString then
          { field with Direction := IndexDirection.Descending }
        else field
      match indexFromAST.directions fields dirs with
      | Except.error err => Except.error err
      | Except.ok rest => Except.ok (field1 :: rest)
    | _ => Except.error Error.ErrIndexWithInvalidArg

/-- `indexFromAST`: the index description of an `@index` directive on an
object. -/
def indexFromAST (directive : ast.Directive) : Except Error IndexDescription :=
  match indexFromAST.loop { Name := "", ID := 0, Fields := [], Unique := false } none
      directive.Arguments with
  | Except.error err => Except.error err
  | Except.ok (desc, directions) =>
    if desc.Fields.length == 0 then Except.error Error.ErrIndexMissingFields
    else
      match directions with
      | some values =>
        if values.length != desc.Fields.length then Except.error Error.ErrIndexWithInvalidArg
        else
          match indexFromAST.directions desc.Fields values with
          | Except.error err => Except.error err
          | Except.ok fields => Except.ok { desc with Fields := fields }
      | none =>
        Except.ok { desc with
          Fields := desc.Fields.map
            (fun f => { f with Direction := IndexDirection.Ascending }) }

/-- The loop over `field.Directives` in `fromAstDefinition`: appends the index
description of every `@index` directive of the field. -/
def fromAstDefinition.fieldIndexes (field : ast.FieldDefinition)
    (indexDescriptions : List IndexDescription) :
    List ast.Directive → Except Error (List IndexDescription)
  | [] => Except.ok indexDescriptions
  | directive :: rest =>
    if directive.Name == types.IndexDirectiveLabel then
      match fieldIndexFromAST field directive with
      | Except.error err => Except.error err
      | Except.ok index =>
        fromAstDefinition.fieldIndexes field (indexDescriptions ++ [index]) rest
    else fromAstDefinition.fieldIndexes field indexDescriptions rest

/-- The loop over `def.Fields` in `fromAstDefinition`, with the field and index
descriptions collected so far. -/
def fromAstDefinition.fields {ρ : Type} (lib : SchemaLib ρ) (def_ : ast.ObjectDefinition)
    (rm : ρ) (fieldDescriptions : List FieldDescription)
    (indexDescriptions : List IndexDescription) :
    List ast.FieldDefinition →
      Except Error (List FieldDescription × List IndexDescription) × ρ
  | [] => (Except.ok (fieldDescriptions, indexDescriptions), rm)
  | field :: rest =>
    let r := fieldsFromAST lib rm field def_
    match r.1 with
    | Except.error err => (Except.error err, r.2)
    | Except.ok tmpFieldsDescriptions =>
      match fromAstDefinition.fieldIndexes field indexDescriptions field.Directives with
      | Except.error err => (Except.error err, r.2)
      | Except.ok indexes =>
        fromAstDefinition.fields lib def_ r.2 (fieldDescriptions ++ tmpFieldsDescriptions)
          indexes rest

/-- The loop over `def.Directives` in `fromAstDefinition`: appends the index
description of every `@index` directive of the object. -/
def fromAstDefinition.objectIndexes (indexDescriptions : List IndexDescription) :
    List ast.Directive → Except Error (List IndexDescription)
  | [] => Except.ok indexDescriptions
  | directive :: rest =>
    if directive.Name == types.IndexDirectiveLabel then
      match indexFromAST directive with
      | Except.error err => Except.error err
      | Except.ok index => fromAstDefinition.objectIndexes (indexDescriptions ++ [index]) rest
    else fromAstDefinition.objectIndexes indexDescriptions rest

/-- The `_key` field description that `fromAstDefinition` starts from. -/
def fromAstDefinition.keyField : FieldDescription :=
  { Name := request.KeyFieldName, Kind := FieldKind.DocKey, Schema := "", RelationName := "",
    Typ := client.NONE_CRDT, RelationType := 0 }

/-- The `less` function that `fromAstDefinition` passes to `sort.Slice`, on the
two elements compared; Go compares strings byte by byte, which for UTF-8 is the
order of the character sequences. -/
def fromAstDefinition.less (a b : FieldDescription) : Bool :=
  if a.Name == request.KeyFieldName then true
  else if b.Name == request.KeyFieldName then false
  else decide (a.Name.toList < b.Name.toList)

/-- `fromAstDefinition`: the collection definition of an object definition. -/
def fromAstDefinition {ρ : Type} (lib : SchemaLib ρ) (rm : ρ) (def_ : ast.ObjectDefinition) :
    Except Error CollectionDefinition × ρ :=
  let r := fromAstDefinition.fields lib def_ rm [fromAstDefinition.keyField] [] def_.Fields
  match r.1 with
  | Except.error err => (Except.error err, r.2)
  | Except.ok (fieldDescriptions, indexDescriptions) =>
    let sorted := lib.sortSlice fromAstDefinition.less fieldDescriptions
    match fromAstDefinition.objectIndexes indexDescriptions def_.Directives with
    | Except.error err => (Except.error err, r.2)
    | Except.ok indexes =>
      (Except.ok
        { Description := { Name := def_.Name, Indexes := indexes }
          Schema := { Name := def_.Name, Fields := sorted } }, r.2)

/-- All descriptions that `fieldsFromAST` produces for the given fields of an
object definition, in order, the relation manager being passed along. -/
def fieldsFromAST.all {ρ : Type} (lib : SchemaLib ρ) (def_ : ast.ObjectDefinition) (rm : ρ) :
    List ast.FieldDefinition → Except Error (List FieldDescription) × ρ
  | [] => (Except.ok [], rm)
  | field :: rest =>
    let r := fieldsFromAST lib rm field def_
    match r.1 with
    | Except.error err => (Except.error err, r.2)
    | Except.ok produced =>
      let s := fieldsFromAST.all lib def_ r.2 rest
      match s.1 with
      | Except.error err => (Except.error err, s.2)
      | Except.ok more => (Except.ok (produced ++ more), s.2)

/-- The insertion step of Go's insertion sort (`insertionSort` of package
`sort`): the new element `x` is swapped towards the front while `less` says it
is less than its left neighbour.  The sorted part of the slice is held with its
last element first. -/
def sort.insertionSort.insert {α : Type} (less : α → α → Bool) (x : α) : List α → List α
  | [] => [x]
  | y :: ys => if less x y then y :: sort.insertionSort.insert less x ys else x :: y :: ys

/-- Go's insertion sort, which is what `sort.Slice` runs on a slice of at most
12 elements. -/
def sort.insertionSort {α : Type} (less : α → α → Bool) (l : List α) : List α :=
  (l.foldl (fun sortedPart x => sort.insertionSort.insert less x sortedPart) []).reverse

/-- The rank by which `fromAstDefinition.less` orders field descriptions that
stand at different places of the slice: `_key` before every other name, the
other names in the order of their strings. -/
def fromAstDefinition.rank (fd : FieldDescription) : Lex (Nat × List Char) :=
  toLex (if fd.Name = request.KeyFieldName then 0 else 1, fd.Name.toList)

/-- What the documentation of `sort.Slice` promises about a `sortSlice`: the
result is a permutation of the slice, and when `less`, on every two elements
that stand at different places of the slice, is the strict order of a rank, the
result is in ascending order of that rank. -/
def sort.SliceSorts
    (sortSlice : (FieldDescription → FieldDescription → Bool) → List FieldDescription →
      List FieldDescription) : Prop :=
  ∀ (less : FieldDescription → FieldDescription → Bool) (l : List FieldDescription),
    (sortSlice less l).Perm l ∧
    ∀ rank : FieldDescription → Lex (Nat × List Char),
      (∀ pre x post, l = pre ++ x :: post → ∀ y ∈ pre ++ post,
        less x y = decide (rank x < rank y)) →
      (sortSlice less l).Pairwise (fun a b => rank a ≤ rank b)

/-- The property of `fromAstDefinition` on an object definition: when it
returns a collection definition, the schema fields are a permutation of the
`_key` field plus all descriptions produced by `fieldsFromAST`, the first
field is called `_key`, and the remaining fields are in ascending order of
name. -/
def fromAstDefinition.FieldsSorted {ρ : Type} (lib : SchemaLib ρ) (rm : ρ)
    (def_ : ast.ObjectDefinition) : Prop :=
  ∀ cd rm1, fromAstDefinition lib rm def_ = (Except.ok cd, rm1) →
    ∃ produced rm2 first rest,
      fieldsFromAST.all lib def_ rm def_.Fields = (Except.ok produced, rm2) ∧
      cd.Schema.Fields.Perm (fromAstDefinition.keyField :: produced) ∧
      cd.Schema.Fields = first :: rest ∧
      first.Name = request.KeyFieldName ∧
      rest.Pairwise (fun a b => a.Name.toList ≤ b.Name.toList)

/-! ### Concrete objects of the schema examples -/

/-- The library functions used in the schema examples: the relation manager
accepts everything, every kind has CRDT type 1, and `sort.Slice` is Go's
insertion sort. -/
def exampleSchemaLib : SchemaLib Unit :=
  { genRelationName := fun host target => Except.ok (host ++ "_" ++ target)
    RegisterSingle := fun rm _ _ _ _ => ((true, none), rm)
    defaultCRDTForFieldKind := fun _ => 1
    sortSlice := sort.insertionSort }

/-- The object definition `type User { name: String @index(name: "name_idx", unique: true)
age: Int }`. -/
def userDefinition : ast.ObjectDefinition :=
  { Name := "User"
    Fields :=
      [ { Name := "name", Type_ := ast.Type_.Named "String",
          Directives :=
            [{ Name := "index",
               Arguments := [{ Name := "name", Value := ast.Value.StringValue "name_idx" },
                             { Name := "unique", Value := ast.Value.BooleanValue true }] }] },
        { Name := "age", Type_ := ast.Type_.Named "Int", Directives := [] } ]
    Directives := [] }

/-- The object definition `type Odd { Zed: Int  _key: String }`, which has a
field of its own called `_key`. -/
def oddDefinition : ast.ObjectDefinition :=
  { Name := "Odd"
    Fields :=
      [ { Name := "Zed", Type_ := ast.Type_.Named "Int", Directives := [] },
        { Name := "_key", Type_ := ast.Type_.Named "String", Directives := [] } ]
    Directives := [] }

/-- The directive `@index(name: "name_idx", unique: true)`. -/
def nameIndexDirective : ast.Directive :=
  { Name := "index",
    Arguments := [{ Name := "name", Value := ast.Value.StringValue "name_idx" },
                  { Name := "unique", Value := ast.Value.BooleanValue true }] }

/-- The field definition `name: String @index(name: "name_idx", unique: true)`. -/
def indexedNameField : ast.FieldDefinition :=
  { Name := "name", Type_ := ast.Type_.Named "String", Directives := [nameIndexDirective] }

/-! ## Values at a commit, from the specification -/

/-- Modelled from the spec: Node Store `get(CID)`, the node persisted under a
CID, if any. -/
def NodeStore.get (nodes : List (Cid × DAGNode)) (c : Cid) : Option DAGNode :=
  (nodes.find? (fun e => e.1 == c)).map (fun e => e.2)

/-- Modelled from the spec: the deltas reachable from the given CIDs, each with
the CID of its node, found by walking the parent links; a CID without a node
is an error, and `fuel` bounds the number of nodes visited. -/
def NodeStore.reachable (nodes : List (Cid × DAGNode)) :
    Nat → List Cid → Except Error (List (Delta × String))
  | _, [] => Except.ok []
  | 0, _ :: _ => Except.error (Error.other "out of fuel")
  | fuel + 1, c :: cs =>
    match NodeStore.get nodes c with
    | none => Except.error (Error.other "ipld: could not find")
    | some node =>
      match NodeStore.reachable nodes fuel (node.Parents ++ cs) with
      | Except.error err => Except.error err
      | Except.ok deltas => Except.ok ((node.Delta, c) :: deltas)

/-- Modelled from the spec: the value of a replicated object at a set of heads
is the merge of all deltas reachable from these heads; here the object is an
LWW register, and a query by document key and CID asks for the value at the
single head `cid`. -/
def valueAtHeads (larger : Bool) (id : String) (nodes : List (Cid × DAGNode)) (fuel : Nat)
    (heads : List Cid) : Bytes × Option Error :=
  match NodeStore.reachable nodes fuel heads with
  | Except.error err => ([], some err)
  | Except.ok deltas =>
    (LWWRegister.Value
      (deltas.foldl (fun reg d => (LWWRegister.Merge larger reg d.1 d.2).2)
        { id := id, winner := none })).1

/-- The clock state of an object nothing was written to. -/
def ClockState.empty : ClockState :=
  { heads := [], nodes := [], storageError := none }

/-- The commits of a sequence of deltas, one after the other, through
`AddDAGNode`: the CIDs returned and the final clock state. -/
def MerkleClock.publishAll (hash : DAGNode → Cid) (s : ClockState) :
    List Delta → List Cid × ClockState
  | [] => ([], s)
  | d :: ds =>
    let r := MerkleClock.specAddDAGNode hash s d
    let rest := MerkleClock.publishAll hash r.2 ds
    (r.1.1 :: rest.1, rest.2)

/-- The nodes that a sequence of commits appends to the Node Store when the
head set before the first commit is `parents`: each node has the CID of the
previous one as its only parent. -/
def MerkleClock.chain (hash : DAGNode → Cid) (parents : List Cid) :
    List Delta → List (Cid × DAGNode)
  | [] => []
  | d :: ds =>
    (hash { Delta := d, Parents := parents }, { Delta := d, Parents := parents }) ::
      MerkleClock.chain hash [hash { Delta := d, Parents := parents }] ds

/-- The head set after a sequence of commits when the head set before the
first commit is `parents`. -/
def MerkleClock.chainHeads (hash : DAGNode → Cid) (parents : List Cid) : List Delta → List Cid
  | [] => parents
  | d :: ds => MerkleClock.chainHeads hash [hash { Delta := d, Parents := parents }] ds

/-- The deltas of a sequence of commits on a new object with their CIDs, the
last commit first. -/
def MerkleClock.history (hash : DAGNode → Cid) (ds : List Delta) : List (Delta × String) :=
  ((MerkleClock.chain hash [] ds).map (fun e => (e.2.Delta, e.1))).reverse

/-- The delta of the commit that sets `Age` to the given byte, with the given
priority. -/
def ageDelta (age priority : Nat) : Delta :=
  { Priority := priority, Payload := [age], SchemaVersionID := "v1", FieldName := some "Age" }

/-- The names of the scalar types that `astTypeToKind` knows as named types. -/
def astTypeToKind.scalarNames : List String :=
  ["ID", "Boolean", "Int", "Float", "DateTime", "String", "Blob"]

/-- The names of the scalar types that `astTypeToKind` knows as list
elements. -/
def astTypeToKind.scalarElementNames : List String :=
  ["Boolean", "Int", "Float", "String"]

/-- A named non-scalar type: a named type whose name is none of the scalar
names. -/
def ast.Type_.IsNamedNonScalar (t : ast.Type_) : Prop :=
  ∃ name, t = ast.Type_.Named name ∧ name ∉ astTypeToKind.scalarNames

/-- A scalar type (a named type with a scalar name) or a scalar-array type (a
list whose element is a scalar element name, nullable or non-null). -/
def ast.Type_.IsScalarOrScalarArray (t : ast.Type_) : Prop :=
  (∃ name, t = ast.Type_.Named name ∧ name ∈ astTypeToKind.scalarNames) ∨
  (∃ name, (t = ast.Type_.List (ast.Type_.Named name) ∨
      t = ast.Type_.List (ast.Type_.NonNull (ast.Type_.Named name))) ∧
    name ∈ astTypeToKind.scalarElementNames)

/-- The field definition `author: Author @primary`. -/
def authorField : ast.FieldDefinition :=
  { Name := "author", Type_ := ast.Type_.Named "Author",
    Directives := [{ Name := "primary", Arguments := [] }] }

/-- The field definition `author: Author @relation(name: true)`, whose relation
name is not a string. -/
def badRelationField : ast.FieldDefinition :=
  { Name := "author", Type_ := ast.Type_.Named "Author",
    Directives :=
      [{ Name := "relation",
         Arguments := [{ Name := "name", Value := ast.Value.BooleanValue true }] }] }

/-- The field definition `ratings: [Float!]`. -/
def ratingsField : ast.FieldDefinition :=
  { Name := "ratings",
    Type_ := ast.Type_.List (ast.Type_.NonNull (ast.Type_.Named "Float")),
    Directives := [] }

/-- The AST type `[[Int]]`: a list whose element type is itself a list. -/
def listOfListType : ast.Type_ :=
  ast.Type_.List (ast.Type_.List (ast.Type_.Named "Int"))

/-- The AST type `[[Int]!]`: a list of non-null lists. -/
def listOfNonNullListType : ast.Type_ :=
  ast.Type_.List (ast.Type_.NonNull (ast.Type_.List (ast.Type_.Named "Int")))

/-! ## Theorems: the LWW comparison is a strict total order on (priority, hash) -/

theorem LWWEntry.beats_iff (larger : Bool) (a b : LWWEntry) :
    a.beats larger b = true ↔
      b.Priority < a.Priority ∨ (b.Priority = a.Priority ∧
        ((larger = true ∧ b.CID.toList < a.CID.toList) ∨
         (larger = false ∧ a.CID.toList < b.CID.toList))) := by
  cases larger <;> simp [LWWEntry.beats]

theorem LWWEntry.beats_irrefl (larger : Bool) (a : LWWEntry) : a.beats larger a = false := by
  rw [Bool.eq_false_iff]
  intro h
  rw [LWWEntry.beats_iff] at h
  rcases h with h | ⟨_, ⟨_, h⟩ | ⟨_, h⟩⟩
  · exact lt_irrefl _ h
  · exact lt_irrefl _ h
  · exact lt_irrefl _ h

theorem LWWEntry.beats_trans (larger : Bool) (a b c : LWWEntry)
    (hab : a.beats larger b = true) (hbc : b.beats larger c = true) :
    a.beats larger c = true := by
  rw [LWWEntry.beats_iff] at *
  rcases hab with h1 | ⟨e1, h1⟩
  · rcases hbc with h2 | ⟨e2, _⟩
    · exact Or.inl (lt_trans h2 h1)
    · exact Or.inl (by omega)
  · rcases hbc with h2 | ⟨e2, h2⟩
    · exact Or.inl (by omega)
    · refine Or.inr ⟨by omega, ?_⟩
      rcases h1 with ⟨l1, h1⟩ | ⟨l1, h1⟩ <;> rcases h2 with ⟨l2, h2⟩ | ⟨l2, h2⟩
      · exact Or.inl ⟨l1, lt_trans h2 h1⟩
      · rw [l1] at l2; cases l2
      · rw [l1] at l2; cases l2
      · exact Or.inr ⟨l1, lt_trans h1 h2⟩

theorem LWWEntry.beats_asymm (larger : Bool) (a b : LWWEntry)
    (hab : a.beats larger b = true) : b.beats larger a = false := by
  rw [Bool.eq_false_iff]
  intro hba
  have h := LWWEntry.beats_trans larger a b a hab hba
  rw [LWWEntry.beats_irrefl] at h
  cases h

theorem LWWEntry.beats_total (larger : Bool) (a b : LWWEntry) (hne : a.CID ≠ b.CID) :
    a.beats larger b = true ∨ b.beats larger a = true := by
  have hl : a.CID.toList ≠ b.CID.toList := fun h => hne (String.ext h)
  rw [LWWEntry.beats_iff, LWWEntry.beats_iff]
  rcases Nat.lt_trichotomy a.Priority b.Priority with hp | hp | hp
  · exact Or.inr (Or.inl hp)
  · rcases lt_trichotomy a.CID.toList b.CID.toList with hc | hc | hc
    · cases larger
      · exact Or.inl (Or.inr ⟨hp.symm, Or.inr ⟨rfl, hc⟩⟩)
      · exact Or.inr (Or.inr ⟨hp, Or.inl ⟨rfl, hc⟩⟩)
    · exact absurd hc hl
    · cases larger
      · exact Or.inr (Or.inr ⟨hp, Or.inr ⟨rfl, hc⟩⟩)
      · exact Or.inl (Or.inr ⟨hp.symm, Or.inl ⟨rfl, hc⟩⟩)
  · exact Or.inl (Or.inl hp)

/-! ## Theorems: the LWW register -/

theorem LWWRegister.Merge_covers (larger : Bool) (reg : LWWRegister) (delta : Delta)
    (id : String) : ((LWWRegister.Merge larger reg delta id).2).Covers larger delta id := by
  unfold LWWRegister.Merge LWWRegister.Covers
  cases hw : reg.winner with
  | none => exact ⟨_, rfl, LWWEntry.beats_irrefl _ _⟩
  | some cur =>
    by_cases hb : LWWEntry.beats larger
        { Priority := delta.Priority, CID := id, Payload := delta.Payload } cur = true
    · simp only [hb, if_true]
      exact ⟨_, rfl, LWWEntry.beats_irrefl _ _⟩
    · simp only [hb]
      exact ⟨cur, hw, by simpa using hb⟩

theorem LWWRegister.Merge_preserves_covers (larger : Bool) (reg : LWWRegister)
    (delta : Delta) (id : String) (other : Delta) (oid : String)
    (h : reg.Covers larger delta id) :
    ((LWWRegister.Merge larger reg other oid).2).Covers larger delta id := by
  obtain ⟨cur, hw, hcur⟩ := h
  unfold LWWRegister.Merge LWWRegister.Covers
  simp only [hw]
  by_cases hb : LWWEntry.beats larger
      { Priority := other.Priority, CID := oid, Payload := other.Payload } cur = true
  · simp only [hb, if_true]
    refine ⟨_, rfl, ?_⟩
    rw [Bool.eq_false_iff]
    intro hc
    have := LWWEntry.beats_trans larger _ _ _ hc hb
    rw [hcur] at this
    cases this
  · simp only [hb]
    exact ⟨cur, hw, hcur⟩

theorem LWWRegister.Merge_of_covers (larger : Bool) (reg : LWWRegister) (delta : Delta)
    (id : String) (h : reg.Covers larger delta id) :
    LWWRegister.Merge larger reg delta id = (none, reg) := by
  obtain ⟨cur, hw, hcur⟩ := h
  unfold LWWRegister.Merge
  simp only [hw, hcur]
  rfl

theorem LWWRegister.Merge_comm (larger : Bool) (reg : LWWRegister) (d1 : Delta) (id1 : String)
    (d2 : Delta) (id2 : String) (hne : id1 ≠ id2) :
    (LWWRegister.Merge larger (LWWRegister.Merge larger reg d1 id1).2 d2 id2).2 =
      (LWWRegister.Merge larger (LWWRegister.Merge larger reg d2 id2).2 d1 id1).2 := by
  have htot := LWWEntry.beats_total larger
    { Priority := d1.Priority, CID := id1, Payload := d1.Payload }
    { Priority := d2.Priority, CID := id2, Payload := d2.Payload } hne
  have hirr1 := LWWEntry.beats_irrefl larger
    { Priority := d1.Priority, CID := id1, Payload := d1.Payload }
  have hasym := LWWEntry.beats_asymm larger
    { Priority := d1.Priority, CID := id1, Payload := d1.Payload }
    { Priority := d2.Priority, CID := id2, Payload := d2.Payload }
  have hasym2 := LWWEntry.beats_asymm larger
    { Priority := d2.Priority, CID := id2, Payload := d2.Payload }
    { Priority := d1.Priority, CID := id1, Payload := d1.Payload }
  unfold LWWRegister.Merge
  cases hw : reg.winner with
  | none =>
    rcases htot with h | h
    · simp [h, hasym h]
    · simp [h, hasym2 h]
  | some cur =>
    have ht1 := LWWEntry.beats_trans larger
      { Priority := d1.Priority, CID := id1, Payload := d1.Payload }
      { Priority := d2.Priority, CID := id2, Payload := d2.Payload } cur
    have ht2 := LWWEntry.beats_trans larger
      { Priority := d2.Priority, CID := id2, Payload := d2.Payload }
      { Priority := d1.Priority, CID := id1, Payload := d1.Payload } cur
    by_cases h1 : LWWEntry.beats larger
        { Priority := d1.Priority, CID := id1, Payload := d1.Payload } cur = true <;>
    by_cases h2 : LWWEntry.beats larger
        { Priority := d2.Priority, CID := id2, Payload := d2.Payload } cur = true
    · rcases htot with h | h
      · simp [h1, h2, h, hasym h]
      · simp [h1, h2, h, hasym2 h]
    · have h21 : LWWEntry.beats larger
          { Priority := d2.Priority, CID := id2, Payload := d2.Payload }
          { Priority := d1.Priority, CID := id1, Payload := d1.Payload } = false := by
        rw [Bool.eq_false_iff]
        intro h
        exact h2 (ht2 h h1)
      simp [h1, h2, h21, hw]
    · have h12 : LWWEntry.beats larger
          { Priority := d1.Priority, CID := id1, Payload := d1.Payload }
          { Priority := d2.Priority, CID := id2, Payload := d2.Payload } = false := by
        rw [Bool.eq_false_iff]
        intro h
        exact h1 (ht1 h h2)
      simp [h1, h2, h12, hw]
    · simp [h1, h2, hw]

/-! ## Theorems: `baseMerkleCRDT` -/

theorem baseMerkleCRDT.MergeAll_clock {κ σ β : Type} (base : baseMerkleCRDT κ σ β)
    (hist : List (Delta × String)) (w : World κ σ β) :
    (base.MergeAll w hist).clock = w.clock := by
  induction hist generalizing w with
  | nil => rfl
  | cons p rest ih =>
    obtain ⟨d, id⟩ := p
    simp only [baseMerkleCRDT.MergeAll]
    rw [ih]
    rfl

theorem baseMerkleCRDT.MergeAll_covers {β : Type} (hash : DAGNode → Cid) (larger : Bool)
    (bc : Option (Broadcaster β)) (hist : List (Delta × String))
    (w : World ClockState LWWRegister β) (D : Delta) (id : String)
    (h : (D, id) ∈ hist ∨ w.crdt.Covers larger D id) :
    ((baseMerkleCRDT.ofSpec hash larger bc).MergeAll w hist).crdt.Covers larger D id := by
  induction hist generalizing w with
  | nil =>
    rcases h with h | h
    · cases h
    · exact h
  | cons p rest ih =>
    obtain ⟨d, i⟩ := p
    simp only [baseMerkleCRDT.MergeAll]
    apply ih
    rcases h with h | h
    · rcases List.mem_cons.mp h with h | h
      · right
        cases h
        exact LWWRegister.Merge_covers larger w.crdt D id
      · exact Or.inl h
    · right
      exact LWWRegister.Merge_preserves_covers larger w.crdt D id d i h

/-- C1 (idempotence of merge): for a `baseMerkleCRDT` over the clock and the
LWW register of the specification, once a delta `D` (with content hash `id`)
is among the deltas merged into the object, merging `D` again through
`baseMerkleCRDT.Merge` succeeds and leaves the resolved value returned by
`Value`, the head set, and the whole register and clock state unchanged. -/
theorem baseMerkleCRDT.Merge_idempotent {β : Type} (hash : DAGNode → Cid) (larger : Bool)
    (bc : Option (Broadcaster β)) (w : World ClockState LWWRegister β)
    (hist : List (Delta × String)) (D : Delta) (id : String) (hD : (D, id) ∈ hist) :
    ((baseMerkleCRDT.ofSpec hash larger bc).Merge
        ((baseMerkleCRDT.ofSpec hash larger bc).MergeAll w hist) D id).1 = none ∧
    ((baseMerkleCRDT.ofSpec hash larger bc).Value
        ((baseMerkleCRDT.ofSpec hash larger bc).Merge
          ((baseMerkleCRDT.ofSpec hash larger bc).MergeAll w hist) D id).2).1 =
      ((baseMerkleCRDT.ofSpec hash larger bc).Value
        ((baseMerkleCRDT.ofSpec hash larger bc).MergeAll w hist)).1 ∧
    HeadTracker.Get ((baseMerkleCRDT.ofSpec hash larger bc).Merge
        ((baseMerkleCRDT.ofSpec hash larger bc).MergeAll w hist) D id).2.clock =
      HeadTracker.Get ((baseMerkleCRDT.ofSpec hash larger bc).MergeAll w hist).clock ∧
    ((baseMerkleCRDT.ofSpec hash larger bc).Merge
        ((baseMerkleCRDT.ofSpec hash larger bc).MergeAll w hist) D id).2.crdt =
      ((baseMerkleCRDT.ofSpec hash larger bc).MergeAll w hist).crdt ∧
    ((baseMerkleCRDT.ofSpec hash larger bc).Merge
        ((baseMerkleCRDT.ofSpec hash larger bc).MergeAll w hist) D id).2.clock =
      ((baseMerkleCRDT.ofSpec hash larger bc).MergeAll w hist).clock := by
  have hc := baseMerkleCRDT.MergeAll_covers hash larger bc hist w D id (Or.inl hD)
  have hm := LWWRegister.Merge_of_covers larger _ D id hc
  simp only [baseMerkleCRDT.Merge, baseMerkleCRDT.Value, baseMerkleCRDT.ofSpec,
    LWWRegister.spec] at hm ⊢
  rw [hm]
  simp

/-- Witness of C1: the deltas 21 and 22 merged into the example object, the
delta 21 merged again. -/
theorem baseMerkleCRDT.Merge_idempotent_witness :
    (delta21, "cidA") ∈ [(delta21, "cidA"), (delta22, "cidB")] ∧
    ((baseMerkleCRDT.ofSpec exampleHash true (some failingBroadcaster)).Value
        ((baseMerkleCRDT.ofSpec exampleHash true (some failingBroadcaster)).Merge
          ((baseMerkleCRDT.ofSpec exampleHash true (some failingBroadcaster)).MergeAll
            exampleWorld [(delta21, "cidA"), (delta22, "cidB")]) delta21 "cidA").2).1 =
      ((baseMerkleCRDT.ofSpec exampleHash true (some failingBroadcaster)).Value
        ((baseMerkleCRDT.ofSpec exampleHash true (some failingBroadcaster)).MergeAll
          exampleWorld [(delta21, "cidA"), (delta22, "cidB")])).1 :=
  ⟨by decide,
   (baseMerkleCRDT.Merge_idempotent exampleHash true (some failingBroadcaster) exampleWorld
      [(delta21, "cidA"), (delta22, "cidB")] delta21 "cidA" (by decide)).2.1⟩

/-- C2 (commutativity of merge): for a `baseMerkleCRDT` over the clock and the
LWW register of the specification, every base state and every two deltas with
different content hashes (as two concurrent deltas have), merging them through
`baseMerkleCRDT.Merge` in either order yields the same resolved value, the
same head set and the same register state. -/
theorem baseMerkleCRDT.Merge_commutative {β : Type} (hash : DAGNode → Cid) (larger : Bool)
    (bc : Option (Broadcaster β)) (w : World ClockState LWWRegister β)
    (D1 : Delta) (id1 : String) (D2 : Delta) (id2 : String) (hne : id1 ≠ id2) :
    ((baseMerkleCRDT.ofSpec hash larger bc).Value
        ((baseMerkleCRDT.ofSpec hash larger bc).Merge
          ((baseMerkleCRDT.ofSpec hash larger bc).Merge w D1 id1).2 D2 id2).2).1 =
      ((baseMerkleCRDT.ofSpec hash larger bc).Value
        ((baseMerkleCRDT.ofSpec hash larger bc).Merge
          ((baseMerkleCRDT.ofSpec hash larger bc).Merge w D2 id2).2 D1 id1).2).1 ∧
    HeadTracker.Get ((baseMerkleCRDT.ofSpec hash larger bc).Merge
          ((baseMerkleCRDT.ofSpec hash larger bc).Merge w D1 id1).2 D2 id2).2.clock =
      HeadTracker.Get ((baseMerkleCRDT.ofSpec hash larger bc).Merge
          ((baseMerkleCRDT.ofSpec hash larger bc).Merge w D2 id2).2 D1 id1).2.clock ∧
    ((baseMerkleCRDT.ofSpec hash larger bc).Merge
          ((baseMerkleCRDT.ofSpec hash larger bc).Merge w D1 id1).2 D2 id2).2.crdt =
      ((baseMerkleCRDT.ofSpec hash larger bc).Merge
          ((baseMerkleCRDT.ofSpec hash larger bc).Merge w D2 id2).2 D1 id1).2.crdt := by
  have hm := LWWRegister.Merge_comm larger w.crdt D1 id1 D2 id2 hne
  simp only [baseMerkleCRDT.Merge, baseMerkleCRDT.Value, baseMerkleCRDT.ofSpec,
    LWWRegister.spec]
  rw [hm]
  simp

/-- Witness of C2: the concurrent deltas 21 and 22 of equal priority, merged
into the example object in both orders. -/
theorem baseMerkleCRDT.Merge_commutative_witness :
    ("cidA" : String) ≠ "cidB" ∧
    ((baseMerkleCRDT.ofSpec exampleHash true (some failingBroadcaster)).Value
        ((baseMerkleCRDT.ofSpec exampleHash true (some failingBroadcaster)).Merge
          ((baseMerkleCRDT.ofSpec exampleHash true (some failingBroadcaster)).Merge
            exampleWorld delta21 "cidA").2 delta22 "cidB").2).1 =
      ((baseMerkleCRDT.ofSpec exampleHash true (some failingBroadcaster)).Value
        ((baseMerkleCRDT.ofSpec exampleHash true (some failingBroadcaster)).Merge
          ((baseMerkleCRDT.ofSpec exampleHash true (some failingBroadcaster)).Merge
            exampleWorld delta22 "cidB").2 delta21 "cidA").2).1 :=
  ⟨by decide,
   (baseMerkleCRDT.Merge_commutative exampleHash true (some failingBroadcaster) exampleWorld
      delta21 "cidA" delta22 "cidB" (by decide)).1⟩

theorem HeadTracker.filter_removed_self (heads : List Cid) :
    heads.filter (fun h => !heads.contains h) = [] := by
  rw [List.filter_eq_nil_iff]
  intro a ha
  simp [ha]

/-- C3 (causal completeness): for a `baseMerkleCRDT` over the clock of the
specification, when `Publish` succeeds the CID it returns is the content hash
of the node whose parents are exactly the prior head set, that node is
persisted, and the head set afterwards is exactly that one CID: every prior
head is removed and the new CID is the only head. -/
theorem baseMerkleCRDT.Publish_heads {σ β : Type} (hash : DAGNode → Cid)
    (crdt : ReplicatedData σ) (bc : Option (Broadcaster β)) (w : World ClockState σ β)
    (delta : Delta) (broadcast : Bool)
    (hok : (baseMerkleCRDT.Publish
      { clock := MerkleClock.spec hash, crdt := crdt, broadcaster := bc }
      w delta broadcast).1.2 = none) :
    (baseMerkleCRDT.Publish { clock := MerkleClock.spec hash, crdt := crdt, broadcaster := bc }
        w delta broadcast).1.1 =
      hash { Delta := delta, Parents := HeadTracker.Get w.clock } ∧
    HeadTracker.Get (baseMerkleCRDT.Publish
        { clock := MerkleClock.spec hash, crdt := crdt, broadcaster := bc }
        w delta broadcast).2.clock =
      [hash { Delta := delta, Parents := HeadTracker.Get w.clock }] ∧
    (hash { Delta := delta, Parents := HeadTracker.Get w.clock },
      ({ Delta := delta, Parents := HeadTracker.Get w.clock } : DAGNode)) ∈
        (baseMerkleCRDT.Publish
          { clock := MerkleClock.spec hash, crdt := crdt, broadcaster := bc }
          w delta broadcast).2.clock.nodes := by
  revert hok
  simp only [baseMerkleCRDT.Publish, MerkleClock.spec, MerkleClock.specAddDAGNode]
  cases hs : w.clock.storageError with
  | some e => simp
  | none =>
    intro _
    by_cases hb : (bc.isSome && broadcast) = true
    · simp [hb, HeadTracker.Replace, HeadTracker.Get, HeadTracker.filter_removed_self]
    · simp [hb, HeadTracker.Replace, HeadTracker.Get, HeadTracker.filter_removed_self]

/-- Witness of C3: publishing the delta 21 on the example object, whose head
set was the single head `h0`. -/
theorem baseMerkleCRDT.Publish_heads_witness :
    (baseMerkleCRDT.Publish
      { clock := MerkleClock.spec exampleHash, crdt := LWWRegister.spec true,
        broadcaster := some failingBroadcaster }
      exampleWorld delta21 true).1.2 = none ∧
    HeadTracker.Get (baseMerkleCRDT.Publish
        { clock := MerkleClock.spec exampleHash, crdt := LWWRegister.spec true,
          broadcaster := some failingBroadcaster }
        exampleWorld delta21 true).2.clock =
      [exampleHash { Delta := delta21, Parents := HeadTracker.Get exampleWorld.clock }] :=
  ⟨by decide,
   (baseMerkleCRDT.Publish_heads exampleHash (LWWRegister.spec true) (some failingBroadcaster)
      exampleWorld delta21 true (by decide)).2.1⟩

/-- C4 (storage errors are propagated): for every clock, wrapped CRDT,
broadcaster, delta and broadcast flag, if the clock's `AddDAGNode` fails with
error `e` then `Publish` returns `(cid.Undef, e)`, whatever CID the clock
returned along with the error, and starts no broadcast goroutine. -/
theorem baseMerkleCRDT.Publish_error {κ σ β : Type} (base : baseMerkleCRDT κ σ β)
    (w : World κ σ β) (delta : Delta) (broadcast : Bool) (e : Error)
    (herr : (base.clock.AddDAGNode w.clock delta).1.2 = some e) :
    (base.Publish w delta broadcast).1 = (cid.Undef, some e) ∧
    (base.Publish w delta broadcast).2.goroutines = w.goroutines := by
  simp [baseMerkleCRDT.Publish, herr]

/-- Witness of C4: a clock whose `AddDAGNode` fails with "disk full". -/
theorem baseMerkleCRDT.Publish_error_witness :
    (failingClock.AddDAGNode failingWorld.clock delta21).1.2 = some (Error.other "disk full") ∧
    (baseMerkleCRDT.Publish
      { clock := failingClock, crdt := LWWRegister.spec true,
        broadcaster := some failingBroadcaster }
      failingWorld delta21 true).1 = (cid.Undef, some (Error.other "disk full")) :=
  ⟨by decide,
   (baseMerkleCRDT.Publish_error
      { clock := failingClock, crdt := LWWRegister.spec true,
        broadcaster := some failingBroadcaster }
      failingWorld delta21 true (Error.other "disk full") (by decide)).1⟩

/-- C5 (broadcast failures are not surfaced): for every clock, wrapped CRDT and
delta, if `AddDAGNode` succeeds with CID `c` then `Publish` returns `(c, nil)`
for every broadcaster (nil or not, whatever its `Broadcast` does) and every
broadcast flag, and running the goroutine it started changes neither the clock
nor the wrapped CRDT. -/
theorem baseMerkleCRDT.Publish_ok {κ σ β : Type} (base : baseMerkleCRDT κ σ β)
    (w : World κ σ β) (delta : Delta) (c : Cid)
    (hok : (base.clock.AddDAGNode w.clock delta).1 = (c, none))
    (bc : Option (Broadcaster β)) (broadcast : Bool) :
    (baseMerkleCRDT.Publish { base with broadcaster := bc } w delta broadcast).1 = (c, none) ∧
    ∀ g ∈ (baseMerkleCRDT.Publish { base with broadcaster := bc } w delta broadcast).2.goroutines,
      (baseMerkleCRDT.runGoroutine { base with broadcaster := bc }
          (baseMerkleCRDT.Publish { base with broadcaster := bc } w delta broadcast).2 g).clock =
        (baseMerkleCRDT.Publish { base with broadcaster := bc } w delta broadcast).2.clock ∧
      (baseMerkleCRDT.runGoroutine { base with broadcaster := bc }
          (baseMerkleCRDT.Publish { base with broadcaster := bc } w delta broadcast).2 g).crdt =
        (baseMerkleCRDT.Publish { base with broadcaster := bc } w delta broadcast).2.crdt := by
  have h1 : (base.clock.AddDAGNode w.clock delta).1.1 = c := by rw [hok]
  have h2 : (base.clock.AddDAGNode w.clock delta).1.2 = none := by rw [hok]
  constructor
  · simp only [baseMerkleCRDT.Publish, h1, h2]
    split <;> rfl
  · intro g _
    cases bc with
    | none => exact ⟨rfl, rfl⟩
    | some b => exact ⟨rfl, rfl⟩

/-- Witness of C5: the specification's clock succeeds and the broadcaster always
fails. -/
theorem baseMerkleCRDT.Publish_ok_witness :
    ((MerkleClock.spec exampleHash).AddDAGNode exampleWorld.clock delta21).1 =
      ("h0;#\x15", none) ∧
    (baseMerkleCRDT.Publish
      { (baseMerkleCRDT.ofSpec exampleHash true (none : Option (Broadcaster Unit))) with
        broadcaster := some failingBroadcaster }
      exampleWorld delta21 true).1 = ("h0;#\x15", none) :=
  ⟨by decide,
   (baseMerkleCRDT.Publish_ok (baseMerkleCRDT.ofSpec exampleHash true none) exampleWorld delta21
      "h0;#\x15" (by decide) (some failingBroadcaster) true).1⟩

/-- C6 (`Value` is a pure forward): `baseMerkleCRDT.Value` returns exactly the
`(bytes, error)` pair of the wrapped CRDT's `Value`, leaves the clock state,
the broadcaster state and the started goroutines untouched, and the only call
it makes is the wrapped CRDT's `Value` (no `AddDAGNode`, no `Broadcast`). -/
theorem baseMerkleCRDT.Value_forwards {κ σ β : Type} (base : baseMerkleCRDT κ σ β)
    (w : World κ σ β) :
    (base.Value w).1 = (base.crdt.Value w.crdt).1 ∧
    (base.Value w).2.clock = w.clock ∧
    (base.Value w).2.net = w.net ∧
    (base.Value w).2.goroutines = w.goroutines ∧
    (base.Value w).2.trace = w.trace ++ [Call.Value] ∧
    (∀ d, Call.AddDAGNode d ∈ (base.Value w).2.trace → Call.AddDAGNode d ∈ w.trace) ∧
    (∀ l, Call.Broadcast l ∈ (base.Value w).2.trace → Call.Broadcast l ∈ w.trace) := by
  refine ⟨rfl, rfl, rfl, rfl, rfl, ?_, ?_⟩
  · intro d hd
    simpa [baseMerkleCRDT.Value] using hd
  · intro l hl
    simpa [baseMerkleCRDT.Value] using hl

/-! ## Theorems: `IsValidIndexName` -/

theorem IsValidIndexName.badFirst_eq_false (c : Nat) :
    IsValidIndexName.badFirst c = false ↔ isASCIILetter c ∨ isUnderscore c := by
  simp only [IsValidIndexName.badFirst, isASCIILetter, isUnderscore, Bool.and_eq_false_iff,
    Bool.or_eq_false_iff, decide_eq_false_iff_not, bne_eq_false_iff_eq]
  omega

theorem IsValidIndexName.badRest_eq_false (c : Nat) :
    IsValidIndexName.badRest c = false ↔ isASCIILetter c ∨ isASCIIDigit c ∨ isUnderscore c := by
  simp only [IsValidIndexName.badRest, isASCIILetter, isASCIIDigit, isUnderscore,
    Bool.and_eq_false_iff, Bool.or_eq_false_iff, decide_eq_false_iff_not, bne_eq_false_iff_eq]
  omega

theorem IsValidIndexName.loop_iff (name : Bytes) (fuel i : Nat) (hfuel : name.length ≤ fuel + i) :
    IsValidIndexName.loop name fuel i = true ↔
      ∀ j, i ≤ j → j < name.length → IsValidIndexName.badRest (name.getD j 0) = false := by
  induction fuel generalizing i with
  | zero =>
    simp only [IsValidIndexName.loop, true_iff]
    intro j hij hj
    omega
  | succ fuel ih =>
    simp only [IsValidIndexName.loop]
    by_cases hi : i < name.length
    · simp only [hi, if_true]
      by_cases hb : IsValidIndexName.badRest (name.getD i 0) = true
      · simp only [hb, if_true]
        constructor
        · intro h
          cases h
        · intro h
          have := h i (le_refl i) hi
          rw [hb] at this
          cases this
      · have hb' : IsValidIndexName.badRest (name.getD i 0) = false := by simpa using hb
        simp only [hb', Bool.false_eq_true, if_false]
        rw [ih (i + 1) (by omega)]
        constructor
        · intro h j hij hj
          by_cases hji : j = i
          · rw [hji]
            exact hb'
          · exact h j (by omega) hj
        · intro h j hij hj
          exact h j (by omega) hj
    · simp only [hi]
      constructor
      · intro _ j hij hj
        omega
      · intro _
        rfl

/-- C8 (`IsValidIndexName`): the function returns true if and only if the name
is non-empty, its first byte is an ASCII letter or an underscore, and every
later byte is an ASCII letter, an ASCII digit or an underscore. -/
theorem IsValidIndexName_iff (name : Bytes) :
    IsValidIndexName name = true ↔
      ∃ c rest, name = c :: rest ∧ (isASCIILetter c ∨ isUnderscore c) ∧
        ∀ b ∈ rest, isASCIILetter b ∨ isASCIIDigit b ∨ isUnderscore b := by
  cases name with
  | nil => simp [IsValidIndexName]
  | cons c rest =>
    have hloop := IsValidIndexName.loop_iff (c :: rest) (c :: rest).length 1 (by omega)
    have hrest : (∀ j, 1 ≤ j → j < (c :: rest).length →
          IsValidIndexName.badRest ((c :: rest).getD j 0) = false) ↔
        ∀ b ∈ rest, isASCIILetter b ∨ isASCIIDigit b ∨ isUnderscore b := by
      constructor
      · intro h b hb
        obtain ⟨n, hn, rfl⟩ := List.mem_iff_getElem.mp hb
        have := h (n + 1) (by omega) (by simpa using hn)
        rw [List.getD_cons_succ, List.getD_eq_getElem _ _ hn] at this
        rw [← IsValidIndexName.badRest_eq_false]
        exact this
      · intro h j hj hlt
        obtain ⟨n, rfl⟩ : ∃ n, j = n + 1 := ⟨j - 1, by omega⟩
        have hn : n < rest.length := by simpa using hlt
        rw [List.getD_cons_succ, List.getD_eq_getElem _ _ hn, IsValidIndexName.badRest_eq_false]
        exact h _ (List.getElem_mem hn)
    by_cases hf : IsValidIndexName.badFirst c = true
    · have hnot : ¬ (isASCIILetter c ∨ isUnderscore c) := by
        rw [← IsValidIndexName.badFirst_eq_false, hf]
        simp
      simp only [IsValidIndexName, List.length_cons, List.getD_cons_zero, hf, if_true]
      constructor
      · intro h
        simp at h
      · rintro ⟨c', rest', heq, hc, _⟩
        cases heq
        exact absurd hc hnot
    · have hf' : IsValidIndexName.badFirst c = false := by simpa using hf
      have hlen : ((rest.length + 1 == 0) = false) := by simp
      simp only [IsValidIndexName, List.length_cons, List.getD_cons_zero, hf', hlen]
      simp only [List.length_cons] at hloop hrest
      simp only [Bool.false_eq_true, if_false]
      rw [hloop, hrest]
      constructor
      · intro h
        exact ⟨c, rest, rfl, (IsValidIndexName.badFirst_eq_false c).mp hf', h⟩
      · rintro ⟨c', rest', heq, _, h⟩
        cases heq
        exact h

/-! ## Theorems: `db/index.go` -/

theorem NewCollectionIndex_ok (env : Env) (collection : Collection) (desc : IndexDescription)
    (index : CollectionIndex) (h : NewCollectionIndex env collection desc = Except.ok index) :
    ∃ first rest field validate,
      desc.Fields = first :: rest ∧
      collection.Schema.GetField first.Name = some field ∧
      getValidateIndexFieldFunc env field.Kind = some validate ∧
      index.base = { collection := collection, desc := desc,
                     validateFieldFunc := some validate, fieldDesc := field } := by
  unfold NewCollectionIndex at h
  cases hf : desc.Fields with
  | nil => simp [hf] at h
  | cons first rest =>
    simp only [hf] at h
    cases hg : collection.Schema.GetField first.Name with
    | none => simp [hg] at h
    | some field =>
      simp only [hg, getFieldValidateFunc] at h
      cases hv : getValidateIndexFieldFunc env field.Kind with
      | none => simp [hv] at h
      | some validate =>
        simp only [hv] at h
        refine ⟨first, rest, field, validate, rfl, hg, hv, ?_⟩
        by_cases hu : desc.Unique = true
        · simp only [hu, if_true, Except.ok.injEq] at h
          rw [← h]
          rfl
        · simp only [hu, Bool.false_eq_true, if_false, Except.ok.injEq] at h
          rw [← h]
          rfl

theorem CollectionIndex.Save_of_getDocFieldValue_error (env : Env) (index : CollectionIndex)
    (txn : Txn) (doc : Document) (err : Error)
    (h : index.base.getDocFieldValue env doc = Except.error err) :
    index.Save env txn doc = (some err, txn) := by
  cases index with
  | simple b =>
    simp only [CollectionIndex.base] at h
    simp [CollectionIndex.Save, collectionSimpleIndex.Save,
      collectionSimpleIndex.getDocumentsIndexKey, collectionBaseIndex.getDocumentsIndexKey, h]
  | unique b =>
    simp only [CollectionIndex.base] at h
    simp [CollectionIndex.Save, collectionUniqueIndex.Save,
      collectionBaseIndex.getDocumentsIndexKey, h]

/-- C7 (invalid date-time values are rejected): for an index built by
`NewCollectionIndex` on a field of kind DATETIME, simple or unique, every
document whose value of the indexed field is not a string, or is a string that
`time.Parse(time.RFC3339, _)` rejects, makes `Save` return an
`ErrInvalidFieldValue` error for the kind DATETIME and leaves the datastore
exactly as it was (no `Put`, no call at all); the validator of the index
accepts exactly the strings that parse as RFC 3339. -/
theorem CollectionIndex.Save_rejects_invalid_datetime (env : Env) (collection : Collection)
    (desc : IndexDescription) (index : CollectionIndex) (txn : Txn) (doc : Document)
    (first : IndexedFieldDescription) (v : Value)
    (hnew : NewCollectionIndex env collection desc = Except.ok index)
    (hkind : index.base.fieldDesc.Kind = FieldKind.DATETIME)
    (hfirst : desc.Fields.head? = some first)
    (hval : doc.GetValue first.Name = Except.ok v)
    (hbad : ∀ s, v.val = GoAny.string s → env.ParseRFC3339 s = false) :
    index.Save env txn doc =
      (some (Error.ErrInvalidFieldValue FieldKind.DATETIME (if v.bytes.isSome then some v else none)),
        txn) ∧
    ∃ validate, index.base.validateFieldFunc = some validate ∧
      ∀ x, validate x = true ↔ ∃ s, x = GoAny.string s ∧ env.ParseRFC3339 s = true := by
  obtain ⟨first', rest, field, validate, hf, _, hv, hbase⟩ :=
    NewCollectionIndex_ok env collection desc index hnew
  have hfe : first' = first := by
    rw [hf] at hfirst
    simpa using hfirst
  subst hfe
  have hk : field.Kind = FieldKind.DATETIME := by
    rw [hbase] at hkind
    exact hkind
  rw [hk] at hv
  have hvalidate : validate = fun val =>
      match val with
      | GoAny.string timeStrVal => env.ParseRFC3339 timeStrVal
      | _ => false := by
    simp only [getValidateIndexFieldFunc, Option.some.injEq] at hv
    exact hv.symm
  have hrej : validate v.val = false := by
    rw [hvalidate]
    cases hx : v.val with
    | string s => exact hbad s hx
    | _ => rfl
  constructor
  · apply CollectionIndex.Save_of_getDocFieldValue_error
    rw [hbase]
    simp only [collectionBaseIndex.getDocFieldValue, hf, hval, hk]
    cases hb : v.bytes with
    | none => simp
    | some b => simp [hrej]
  · refine ⟨validate, by rw [hbase], ?_⟩
    intro x
    rw [hvalidate]
    cases x <;> simp

/-- Witness of C7: the simple index on the date-time field `created` and a
document whose `created` is the string `not-a-date`. -/
theorem CollectionIndex.Save_rejects_invalid_datetime_witness :
    NewCollectionIndex exampleEnv usersCollection createdIndexDesc =
      Except.ok (CollectionIndex.simple createdIndexBase) ∧
    badDateDoc.GetValue "created" = Except.ok (stringValue "not-a-date" [1]) ∧
    exampleEnv.ParseRFC3339 "not-a-date" = false ∧
    (CollectionIndex.simple createdIndexBase).Save exampleEnv emptyTxn badDateDoc =
      (some (Error.ErrInvalidFieldValue FieldKind.DATETIME
        (some (stringValue "not-a-date" [1]))), emptyTxn) :=
  ⟨rfl, rfl, by decide,
   (CollectionIndex.Save_rejects_invalid_datetime exampleEnv usersCollection createdIndexDesc
      (CollectionIndex.simple createdIndexBase) emptyTxn badDateDoc
      { Name := "created", Direction := IndexDirection.Ascending }
      (stringValue "not-a-date" [1]) rfl rfl rfl rfl
      (by
        intro s hs
        have : s = "not-a-date" := by
          simp only [stringValue, GoAny.string.injEq] at hs
          exact hs.symm
        subst this
        decide)).1⟩

theorem Txn.contains_filter_ne (entries : List (String × Bytes)) (key : String) :
    (entries.filter (fun e => e.1 != key)).any (fun e => e.1 == key) = false := by
  rw [Bool.eq_false_iff]
  intro h
  rw [List.any_eq_true] at h
  obtain ⟨e, he, hk⟩ := h
  have := (List.mem_filter.mp he).2
  simp only [bne_iff_ne, ne_eq] at this
  exact this (by simpa using hk)

theorem Txn.contains_filter_other (entries : List (String × Bytes)) (key other : String)
    (hne : other ≠ key) :
    (entries.filter (fun e => e.1 != key)).any (fun e => e.1 == other) =
      entries.any (fun e => e.1 == other) := by
  induction entries with
  | nil => rfl
  | cons e rest ih =>
    by_cases hk : e.1 = key
    · have hf : (e.1 != key) = false := by simp [hk]
      have ho : (e.1 == other) = false := by
        simp only [beq_eq_false_iff_ne, ne_eq, hk]
        exact fun h => hne h.symm
      simp only [List.filter_cons, hf, Bool.false_eq_true, if_false, List.any_cons, ho,
        Bool.false_or]
      exact ih
    · have hf : (e.1 != key) = true := by simp [hk]
      simp only [List.filter_cons, hf, if_true, List.any_cons, ih]

/-- C9 (corruption policy of index deletion): when the datastore answers `Has`
for an index key, `deleteIndexKey` on a key that is not present returns
`ErrCorruptedIndex` for the index name and makes no call but that `Has` (no
`Delete`, entries unchanged), and `Update` of a simple index whose old
document has that key does the same (no `Delete` and no `Put` of the new
document's entry); on a key that is present `deleteIndexKey` calls `Delete`
on it and returns its result, and when `Delete` succeeds the key is gone and
every other key is as present as before. -/
theorem collectionBaseIndex.deleteIndexKey_policy (env : Env) (i : collectionBaseIndex)
    (txn : Txn) (key : IndexDataStoreKey) (oldDoc newDoc : Document)
    (hhas : txn.hasFails (env.ToDS key) = none) :
    (txn.contains (env.ToDS key) = false →
      i.deleteIndexKey env txn key =
        (some (Error.ErrCorruptedIndex i.desc.Name),
          { txn with calls := txn.calls ++ [DSCall.Has (env.ToDS key)] }) ∧
      (collectionSimpleIndex.getDocumentsIndexKey env i oldDoc = Except.ok key →
        collectionSimpleIndex.Update env i txn oldDoc newDoc =
          (some (Error.ErrCorruptedIndex i.desc.Name),
            { txn with calls := txn.calls ++ [DSCall.Has (env.ToDS key)] }))) ∧
    (txn.contains (env.ToDS key) = true →
      i.deleteIndexKey env txn key =
        Txn.Delete { txn with calls := txn.calls ++ [DSCall.Has (env.ToDS key)] } (env.ToDS key) ∧
      (i.deleteIndexKey env txn key).2.calls =
        txn.calls ++ [DSCall.Has (env.ToDS key), DSCall.Delete (env.ToDS key)] ∧
      (txn.deleteFails (env.ToDS key) = none →
        (i.deleteIndexKey env txn key).1 = none ∧
        (i.deleteIndexKey env txn key).2.contains (env.ToDS key) = false ∧
        ∀ other, other ≠ env.ToDS key →
          (i.deleteIndexKey env txn key).2.contains other = txn.contains other)) := by
  constructor
  · intro habs
    have h1 : i.deleteIndexKey env txn key =
        (some (Error.ErrCorruptedIndex i.desc.Name),
          { txn with calls := txn.calls ++ [DSCall.Has (env.ToDS key)] }) := by
      simp [collectionBaseIndex.deleteIndexKey, Txn.Has, hhas, habs]
    refine ⟨h1, ?_⟩
    intro hkey
    simp [collectionSimpleIndex.Update, collectionSimpleIndex.deleteDocIndex, hkey, h1]
  · intro hpres
    have h1 : i.deleteIndexKey env txn key =
        Txn.Delete { txn with calls := txn.calls ++ [DSCall.Has (env.ToDS key)] }
          (env.ToDS key) := by
      simp [collectionBaseIndex.deleteIndexKey, Txn.Has, hhas, hpres]
    refine ⟨h1, ?_, ?_⟩
    · rw [h1]
      simp only [Txn.Delete]
      cases txn.deleteFails (env.ToDS key) <;> simp
    · intro hdel
      rw [h1]
      simp only [Txn.Delete, hdel, Txn.contains]
      refine ⟨trivial, Txn.contains_filter_ne _ _, ?_⟩
      intro other hne
      exact Txn.contains_filter_other _ _ _ hne

/-- Witness of C9: deleting the entry of `John` from a datastore that has no
entries. -/
theorem collectionBaseIndex.deleteIndexKey_policy_witness :
    emptyTxn.hasFails (exampleEnv.ToDS johnKey) = none ∧
    emptyTxn.contains (exampleEnv.ToDS johnKey) = false ∧
    (uniqueNameIndexBase.deleteIndexKey exampleEnv emptyTxn johnKey).1 =
      some (Error.ErrCorruptedIndex "name_idx") :=
  ⟨rfl, rfl,
   congrArg Prod.fst
     ((collectionBaseIndex.deleteIndexKey_policy exampleEnv uniqueNameIndexBase emptyTxn
        johnKey johnDoc johnDoc rfl).1 rfl).1⟩

/-- `collectionUniqueIndex.Save` when the datastore answers `Has` and the
document has the indexed field: a key that is present gives
`ErrCanNotIndexNonUniqueField` and no call but that `Has`; a key that is absent
is put with the bytes of the document key as value. -/
theorem collectionUniqueIndex.Save_of_field (env : Env) (i : collectionBaseIndex) (txn : Txn)
    (doc : Document) (key : IndexDataStoreKey) (fieldVal : Value)
    (hkey : i.getDocumentsIndexKey env doc = Except.ok key)
    (hhas : txn.hasFails (env.ToDS key) = none)
    (hval : doc.GetValue i.fieldDesc.Name = Except.ok fieldVal) :
    (txn.contains (env.ToDS key) = true →
      collectionUniqueIndex.Save env i txn doc =
        (some (Error.ErrCanNotIndexNonUniqueField doc.Key i.fieldDesc.Name fieldVal.val),
          { txn with calls := txn.calls ++ [DSCall.Has (env.ToDS key)] })) ∧
    (txn.contains (env.ToDS key) = false → txn.putFails (env.ToDS key) = none →
      collectionUniqueIndex.Save env i txn doc =
        (none,
          { txn with
            calls := txn.calls ++ [DSCall.Has (env.ToDS key)] ++
              [DSCall.Put (env.ToDS key) (goBytes doc.Key)]
            entries := txn.entries.filter (fun e => e.1 != env.ToDS key) ++
              [(env.ToDS key, goBytes doc.Key)] })) := by
  constructor
  · intro hpres
    simp [collectionUniqueIndex.Save, hkey, Txn.Has, hhas, hpres,
      collectionUniqueIndex.newUniqueIndexError, hval]
  · intro habs hput
    simp [collectionUniqueIndex.Save, hkey, Txn.Has, hhas, habs, Txn.Put, hput]

/-- C10 (unique-constraint rejection), at the failing input: a unique index on
`name`, a datastore that already holds the index entry of a document without
`name`, and a second document without `name`.  The key of the document is
present, `Save` leaves the entries unchanged, but the error it returns is
`ErrFieldNotExist` for `name`, not `ErrCanNotIndexNonUniqueField`. -/
theorem collectionUniqueIndex.Save_missing_field_error :
    NewCollectionIndex exampleEnv usersCollection uniqueNameIndexDesc =
      Except.ok (CollectionIndex.unique uniqueNameIndexBase) ∧
    uniqueNameIndexBase.getDocumentsIndexKey exampleEnv namelessDoc = Except.ok nilNameKey ∧
    nilNameTxn.contains (exampleEnv.ToDS nilNameKey) = true ∧
    (collectionUniqueIndex.Save exampleEnv uniqueNameIndexBase nilNameTxn namelessDoc).1 =
      some (Error.ErrFieldNotExist "name") ∧
    (∀ val, (collectionUniqueIndex.Save exampleEnv uniqueNameIndexBase nilNameTxn namelessDoc).1 ≠
      some (Error.ErrCanNotIndexNonUniqueField "bae-2" "name" val)) ∧
    (collectionUniqueIndex.Save exampleEnv uniqueNameIndexBase nilNameTxn namelessDoc).2.entries =
      nilNameTxn.entries := by
  refine ⟨rfl, rfl, by decide, by decide, ?_, by decide⟩
  intro val h
  have h2 : (collectionUniqueIndex.Save exampleEnv uniqueNameIndexBase nilNameTxn namelessDoc).1 =
      some (Error.ErrFieldNotExist "name") := by decide
  rw [h2] at h
  cases h

/-! ### `[]byte(s)`: the UTF-8 bytes determine the string -/

theorem UInt8_toNat_lor (a b : UInt8) : (a ||| b).toNat = a.toNat ||| b.toNat :=
  BitVec.toNat_or ..

theorem UInt32_toUInt8_toNat (v : UInt32) : v.toUInt8.toNat = v.toNat % 256 := by
  simp [UInt32.toUInt8, Nat.toUInt8, UInt8.ofNat, UInt8.toNat]

theorem UInt32_shiftRight_6 (v : UInt32) : (v >>> 6).toNat = v.toNat / 64 := by
  show (UInt32.shiftRight v 6).toNat = _
  simp only [UInt32.shiftRight, UInt32.toNat]
  have h : ((6 : UInt32).mod 32).toBitVec = BitVec.ofNat 32 6 := by decide
  rw [h, BitVec.ushiftRight_eq', BitVec.toNat_ushiftRight, Nat.shiftRight_eq_div_pow]
  rfl

theorem UInt32_shiftRight_12 (v : UInt32) : (v >>> 12).toNat = v.toNat / 4096 := by
  show (UInt32.shiftRight v 12).toNat = _
  simp only [UInt32.shiftRight, UInt32.toNat]
  have h : ((12 : UInt32).mod 32).toBitVec = BitVec.ofNat 32 12 := by decide
  rw [h, BitVec.ushiftRight_eq', BitVec.toNat_ushiftRight, Nat.shiftRight_eq_div_pow]
  rfl

theorem UInt32_shiftRight_18 (v : UInt32) : (v >>> 18).toNat = v.toNat / 262144 := by
  show (UInt32.shiftRight v 18).toNat = _
  simp only [UInt32.shiftRight, UInt32.toNat]
  have h : ((18 : UInt32).mod 32).toBitVec = BitVec.ofNat 32 18 := by decide
  rw [h, BitVec.ushiftRight_eq', BitVec.toNat_ushiftRight, Nat.shiftRight_eq_div_pow]
  rfl

theorem Nat_land_lor (x k a : Nat) :
    (x &&& (2 ^ k - 1)) ||| (2 ^ k * a) = 2 ^ k * a + x % 2 ^ k := by
  rw [Nat.and_pow_two_sub_one_eq_mod, Nat.lor_comm]
  exact (Nat.mul_add_lt_is_or (Nat.mod_lt _ (Nat.two_pow_pos k)) a).symm

/-- A continuation byte `x & 0x3f | 0x80`. -/
theorem utf8_continuation_byte (x : UInt8) :
    (x &&& 0x3f ||| 0x80).toNat = 128 + x.toNat % 64 := by
  rw [UInt8_toNat_lor, UInt8.and_toNat]
  exact Nat_land_lor x.toNat 6 2

/-- The leading byte of a two-byte sequence. -/
theorem utf8_lead_byte_2 (x : UInt8) : (x &&& 0x1f ||| 0xc0).toNat = 192 + x.toNat % 32 := by
  rw [UInt8_toNat_lor, UInt8.and_toNat]
  exact Nat_land_lor x.toNat 5 6

/-- The leading byte of a three-byte sequence. -/
theorem utf8_lead_byte_3 (x : UInt8) : (x &&& 0x0f ||| 0xe0).toNat = 224 + x.toNat % 16 := by
  rw [UInt8_toNat_lor, UInt8.and_toNat]
  exact Nat_land_lor x.toNat 4 14

/-- The leading byte of a four-byte sequence. -/
theorem utf8_lead_byte_4 (x : UInt8) : (x &&& 0x07 ||| 0xf0).toNat = 240 + x.toNat % 8 := by
  rw [UInt8_toNat_lor, UInt8.and_toNat]
  exact Nat_land_lor x.toNat 3 30

/-- The UTF-8 bytes of one character, as numbers, in the four length classes. -/
theorem utf8EncodeChar_toNat (c : Char) :
    (c.toNat ≤ 127 ∧ (String.utf8EncodeChar c).map UInt8.toNat = [c.toNat]) ∨
    (128 ≤ c.toNat ∧ c.toNat ≤ 2047 ∧
      (String.utf8EncodeChar c).map UInt8.toNat =
        [192 + c.toNat / 64 % 256 % 32, 128 + c.toNat % 256 % 64]) ∨
    (2048 ≤ c.toNat ∧ c.toNat ≤ 65535 ∧
      (String.utf8EncodeChar c).map UInt8.toNat =
        [224 + c.toNat / 4096 % 256 % 16, 128 + c.toNat / 64 % 256 % 64,
         128 + c.toNat % 256 % 64]) ∨
    (65536 ≤ c.toNat ∧
      (String.utf8EncodeChar c).map UInt8.toNat =
        [240 + c.toNat / 262144 % 256 % 8, 128 + c.toNat / 4096 % 256 % 64,
         128 + c.toNat / 64 % 256 % 64, 128 + c.toNat % 256 % 64]) := by
  have h1 : c.val ≤ 127 ↔ c.toNat ≤ 127 := by
    rw [UInt32.le_def, BitVec.le_def]; exact Iff.rfl
  have h2 : c.val ≤ 2047 ↔ c.toNat ≤ 2047 := by
    rw [UInt32.le_def, BitVec.le_def]; exact Iff.rfl
  have h3 : c.val ≤ 65535 ↔ c.toNat ≤ 65535 := by
    rw [UInt32.le_def, BitVec.le_def]; exact Iff.rfl
  unfold String.utf8EncodeChar
  simp only []
  by_cases c1 : c.toNat ≤ 127
  · left
    refine ⟨c1, ?_⟩
    rw [if_pos (h1.2 c1)]
    simp only [List.map, UInt32_toUInt8_toNat]
    show [c.toNat % 256] = _
    congr 1
    omega
  · right
    rw [if_neg (fun h => c1 (h1.1 h))]
    by_cases c2 : c.toNat ≤ 2047
    · left
      refine ⟨by omega, c2, ?_⟩
      rw [if_pos (h2.2 c2)]
      simp only [List.map, utf8_lead_byte_2, utf8_continuation_byte, UInt32_toUInt8_toNat,
        UInt32_shiftRight_6]
      rfl
    · right
      rw [if_neg (fun h => c2 (h2.1 h))]
      by_cases c3 : c.toNat ≤ 65535
      · left
        refine ⟨by omega, c3, ?_⟩
        rw [if_pos (h3.2 c3)]
        simp only [List.map, utf8_lead_byte_3, utf8_continuation_byte, UInt32_toUInt8_toNat,
          UInt32_shiftRight_6, UInt32_shiftRight_12]
        rfl
      · right
        refine ⟨by omega, ?_⟩
        rw [if_neg (fun h => c3 (h3.1 h))]
        simp only [List.map, utf8_lead_byte_4, utf8_continuation_byte, UInt32_toUInt8_toNat,
          UInt32_shiftRight_6, UInt32_shiftRight_12, UInt32_shiftRight_18]
        rfl

/-- No UTF-8 sequence of a character starts another one: from the bytes of a
character followed by further bytes, the character and the rest are determined. -/
theorem utf8EncodeChar_append_inj (c d : Char) (r s : List Nat)
    (h : (String.utf8EncodeChar c).map UInt8.toNat ++ r =
         (String.utf8EncodeChar d).map UInt8.toNat ++ s) : c = d ∧ r = s := by
  have hc : c.toNat < 1114112 := by
    rcases c.valid with h | h
    · have : c.toNat < 55296 := h
      omega
    · exact h.2
  have hd : d.toNat < 1114112 := by
    rcases d.valid with h | h
    · have : d.toNat < 55296 := h
      omega
    · exact h.2
  have key : c.toNat = d.toNat ∧ r = s := by
    rcases utf8EncodeChar_toNat c with ⟨a1, e1⟩ | ⟨a1, a2, e1⟩ | ⟨a1, a2, e1⟩ | ⟨a1, e1⟩ <;>
    rcases utf8EncodeChar_toNat d with ⟨b1, e2⟩ | ⟨b1, b2, e2⟩ | ⟨b1, b2, e2⟩ | ⟨b1, e2⟩ <;>
    rw [e1, e2] at h <;>
    simp only [List.cons_append, List.nil_append, List.cons.injEq] at h <;>
    first
      | (exfalso; omega)
      | exact ⟨by omega, h.2.2.2.2⟩
      | exact ⟨by omega, h.2.2.2⟩
      | exact ⟨by omega, h.2.2⟩
      | exact ⟨by omega, h.2⟩
  refine ⟨?_, key.2⟩
  apply Char.ext
  apply UInt32.toNat.inj
  exact key.1

theorem utf8EncodeChar_ne_nil (c : Char) :
    (String.utf8EncodeChar c).map UInt8.toNat ≠ [] := by
  rcases utf8EncodeChar_toNat c with ⟨_, e⟩ | ⟨_, _, e⟩ | ⟨_, _, e⟩ | ⟨_, e⟩ <;>
  rw [e] <;> exact List.cons_ne_nil _ _

theorem goBytes_chars_injective (l1 l2 : List Char)
    (h : l1.flatMap (fun c => (String.utf8EncodeChar c).map UInt8.toNat) =
         l2.flatMap (fun c => (String.utf8EncodeChar c).map UInt8.toNat)) : l1 = l2 := by
  induction l1 generalizing l2 with
  | nil =>
    cases l2 with
    | nil => rfl
    | cons d l2 =>
      exfalso
      simp only [List.flatMap_nil, List.flatMap_cons] at h
      exact utf8EncodeChar_ne_nil d (List.append_eq_nil.mp h.symm).1
  | cons c l1 ih =>
    cases l2 with
    | nil =>
      exfalso
      simp only [List.flatMap_nil, List.flatMap_cons] at h
      exact utf8EncodeChar_ne_nil c (List.append_eq_nil.mp h).1
    | cons d l2 =>
      simp only [List.flatMap_cons] at h
      obtain ⟨hcd, hrest⟩ := utf8EncodeChar_append_inj c d _ _ h
      rw [hcd, ih l2 hrest]

/-- Two Go strings with the same bytes are the same string: `goBytes` is
injective. -/
theorem goBytes_injective (s t : String) (h : goBytes s = goBytes t) : s = t :=
  String.ext (goBytes_chars_injective s.toList t.toList h)

/-- C14 (a simple index is non-unique): when the indexed field value of a
document encodes to `fv`, the key `collectionSimpleIndex.Save` writes has the
field values `[fv, document key]`; `Save` makes exactly one datastore call, the
`Put` of that key with the empty value (it never asks `Has`), so its result
depends only on whether that `Put` fails and not on what is already indexed;
and two documents with the same encoded value and different document keys get
different keys. -/
theorem collectionSimpleIndex.Save_non_unique (env : Env) (i : collectionBaseIndex)
    (txn : Txn) (doc : Document) (fv : Bytes)
    (hfv : i.getDocFieldValue env doc = Except.ok fv) :
    collectionSimpleIndex.getDocumentsIndexKey env i doc =
      Except.ok { CollectionID := i.collection.ID, IndexID := i.desc.ID,
                  FieldValues := [fv, goBytes doc.Key] } ∧
    (collectionSimpleIndex.Save env i txn doc).2.calls =
      txn.calls ++ [DSCall.Put (env.ToDS { CollectionID := i.collection.ID, IndexID := i.desc.ID,
                                           FieldValues := [fv, goBytes doc.Key] }) []] ∧
    (txn.putFails (env.ToDS { CollectionID := i.collection.ID, IndexID := i.desc.ID,
                              FieldValues := [fv, goBytes doc.Key] }) = none →
      (collectionSimpleIndex.Save env i txn doc).1 = none ∧
      (env.ToDS { CollectionID := i.collection.ID, IndexID := i.desc.ID,
                  FieldValues := [fv, goBytes doc.Key] }, ([] : Bytes)) ∈
        (collectionSimpleIndex.Save env i txn doc).2.entries) ∧
    (∀ e, txn.putFails (env.ToDS { CollectionID := i.collection.ID, IndexID := i.desc.ID,
                                   FieldValues := [fv, goBytes doc.Key] }) = some e →
      (collectionSimpleIndex.Save env i txn doc).1 =
        some (Error.ErrFailedToStoreIndexedField
          (env.ToDS { CollectionID := i.collection.ID, IndexID := i.desc.ID,
                      FieldValues := [fv, goBytes doc.Key] }) e)) ∧
    (∀ other : Document, i.getDocFieldValue env other = Except.ok fv →
      other.Key ≠ doc.Key →
      collectionSimpleIndex.getDocumentsIndexKey env i other ≠
        collectionSimpleIndex.getDocumentsIndexKey env i doc) := by
  have hkey : collectionSimpleIndex.getDocumentsIndexKey env i doc =
      Except.ok { CollectionID := i.collection.ID, IndexID := i.desc.ID,
                  FieldValues := [fv, goBytes doc.Key] } := by
    simp [collectionSimpleIndex.getDocumentsIndexKey, collectionBaseIndex.getDocumentsIndexKey,
      hfv]
  refine ⟨hkey, ?_, ?_, ?_, ?_⟩
  · simp only [collectionSimpleIndex.Save, hkey, Txn.Put]
    cases txn.putFails (env.ToDS { CollectionID := i.collection.ID, IndexID := i.desc.ID,
                                   FieldValues := [fv, goBytes doc.Key] }) <;> rfl
  · intro hput
    simp [collectionSimpleIndex.Save, hkey, Txn.Put, hput]
  · intro e hput
    simp [collectionSimpleIndex.Save, hkey, Txn.Put, hput]
  · intro other hother hne heq
    have hkey2 : collectionSimpleIndex.getDocumentsIndexKey env i other =
        Except.ok { CollectionID := i.collection.ID, IndexID := i.desc.ID,
                    FieldValues := [fv, goBytes other.Key] } := by
      simp [collectionSimpleIndex.getDocumentsIndexKey,
        collectionBaseIndex.getDocumentsIndexKey, hother]
    rw [hkey, hkey2] at heq
    simp only [Except.ok.injEq, IndexDataStoreKey.mk.injEq, true_and, List.cons.injEq,
      and_true] at heq
    exact hne (goBytes_injective _ _ heq)

/-- Witness of C14: two documents named `John` saved in the simple index on
`name`; the entry of the first is already there when the second is saved, the
second `Save` makes its one `Put` and returns no error, and the two documents,
whose document keys `bae-3` and `bae-4` differ, get different index keys. -/
theorem collectionSimpleIndex.Save_non_unique_witness :
    simpleNameIndexBase.getDocFieldValue exampleEnv otherJohnDoc =
      Except.ok [74, 111, 104, 110] ∧
    simpleNameIndexBase.getDocFieldValue exampleEnv johnDoc =
      Except.ok [74, 111, 104, 110] ∧
    johnDoc.Key ≠ otherJohnDoc.Key ∧
    (collectionSimpleIndex.Save exampleEnv simpleNameIndexBase
      (collectionSimpleIndex.Save exampleEnv simpleNameIndexBase emptyTxn johnDoc).2
      otherJohnDoc).2.calls =
      (collectionSimpleIndex.Save exampleEnv simpleNameIndexBase emptyTxn johnDoc).2.calls ++
        [DSCall.Put (exampleEnv.ToDS { CollectionID := simpleNameIndexBase.collection.ID,
                                       IndexID := simpleNameIndexBase.desc.ID,
                                       FieldValues := [[74, 111, 104, 110],
                                                       goBytes otherJohnDoc.Key] }) []] ∧
    (collectionSimpleIndex.Save exampleEnv simpleNameIndexBase
      (collectionSimpleIndex.Save exampleEnv simpleNameIndexBase emptyTxn johnDoc).2
      otherJohnDoc).1 = none ∧
    collectionSimpleIndex.getDocumentsIndexKey exampleEnv simpleNameIndexBase johnDoc ≠
      collectionSimpleIndex.getDocumentsIndexKey exampleEnv simpleNameIndexBase otherJohnDoc :=
  ⟨rfl, rfl, by decide,
   (collectionSimpleIndex.Save_non_unique exampleEnv simpleNameIndexBase
      (collectionSimpleIndex.Save exampleEnv simpleNameIndexBase emptyTxn johnDoc).2
      otherJohnDoc [74, 111, 104, 110] rfl).2.1,
   ((collectionSimpleIndex.Save_non_unique exampleEnv simpleNameIndexBase
      (collectionSimpleIndex.Save exampleEnv simpleNameIndexBase emptyTxn johnDoc).2
      otherJohnDoc [74, 111, 104, 110] rfl).2.2.1 rfl).1,
   (collectionSimpleIndex.Save_non_unique exampleEnv simpleNameIndexBase
      (collectionSimpleIndex.Save exampleEnv simpleNameIndexBase emptyTxn johnDoc).2
      otherJohnDoc [74, 111, 104, 110] rfl).2.2.2.2 johnDoc rfl (by decide)⟩

/-- C15 (what `Publish` hands to the broadcaster): `Publish` itself calls only
`AddDAGNode`.  When `AddDAGNode` succeeds, the broadcaster is not nil and the
broadcast flag is true, it starts one goroutine, and that goroutine calls
`Broadcast` once, with the log whose `DocKey` is the wrapped CRDT's `ID`, whose
`CID` is the CID `AddDAGNode` returned and whose `Delta` is the given delta; in
every other case no goroutine is started, so `Broadcast` is not called. -/
theorem baseMerkleCRDT.Publish_broadcast {κ σ β : Type} (base : baseMerkleCRDT κ σ β)
    (w : World κ σ β) (delta : Delta) (broadcast : Bool) :
    (base.Publish w delta broadcast).2.trace = w.trace ++ [Call.AddDAGNode delta] ∧
    (∀ b, (base.clock.AddDAGNode w.clock delta).1.2 = none → base.broadcaster = some b →
        broadcast = true →
      (base.Publish w delta broadcast).2.goroutines =
        w.goroutines ++ [{ c := (base.clock.AddDAGNode w.clock delta).1.1, delta := delta }] ∧
      (base.runGoroutine (base.Publish w delta broadcast).2
          { c := (base.clock.AddDAGNode w.clock delta).1.1, delta := delta }).trace =
        (base.Publish w delta broadcast).2.trace ++
          [Call.ID,
           Call.Broadcast
            { DocKey := base.crdt.ID (base.Publish w delta broadcast).2.crdt,
              CID := (base.clock.AddDAGNode w.clock delta).1.1,
              Delta := delta }] ∧
      (base.runGoroutine (base.Publish w delta broadcast).2
          { c := (base.clock.AddDAGNode w.clock delta).1.1, delta := delta }).net =
        (b.Broadcast (base.Publish w delta broadcast).2.net
            { DocKey := base.crdt.ID (base.Publish w delta broadcast).2.crdt,
              CID := (base.clock.AddDAGNode w.clock delta).1.1,
              Delta := delta }).2) ∧
    ((base.clock.AddDAGNode w.clock delta).1.2 ≠ none ∨ base.broadcaster.isSome = false ∨
        broadcast = false →
      (base.Publish w delta broadcast).2.goroutines = w.goroutines) := by
  refine ⟨?_, ?_, ?_⟩
  · simp only [baseMerkleCRDT.Publish]
    cases (base.clock.AddDAGNode w.clock delta).1.2 with
    | some e => rfl
    | none =>
      by_cases hb : (base.broadcaster.isSome && broadcast) = true
      · simp [hb]
      · simp [hb]
  · intro b hok hbc hflag
    subst hflag
    simp [baseMerkleCRDT.Publish, baseMerkleCRDT.runGoroutine, hok, hbc]
  · intro h
    simp only [baseMerkleCRDT.Publish]
    cases hr : (base.clock.AddDAGNode w.clock delta).1.2 with
    | some e => rfl
    | none =>
      rcases h with h | h | h
      · exact absurd hr h
      · simp [h]
      · simp [h]

theorem canConvertIndexFieldValue_string (x : GoAny) :
    canConvertIndexFieldValue GoType.string x = true ↔ ∃ s, x = GoAny.string s := by
  cases x <;> simp [canConvertIndexFieldValue]

theorem canConvertIndexFieldValue_int64 (x : GoAny) :
    canConvertIndexFieldValue GoType.int64 x = true ↔ ∃ n, x = GoAny.int64 n := by
  cases x <;> simp [canConvertIndexFieldValue]

theorem canConvertIndexFieldValue_float64 (x : GoAny) :
    canConvertIndexFieldValue GoType.float64 x = true ↔ ∃ bits, x = GoAny.float64 bits := by
  cases x <;> simp [canConvertIndexFieldValue]

theorem canConvertIndexFieldValue_bool (x : GoAny) :
    canConvertIndexFieldValue GoType.bool x = true ↔ ∃ b, x = GoAny.bool b := by
  cases x <;> simp [canConvertIndexFieldValue]

/-- C18 (validators of the scalar kinds): the validator of STRING and of
FOREIGN_OBJECT accepts exactly the Go strings, that of INT exactly the `int64`
values, that of FLOAT exactly the `float64` values, that of BOOL exactly the
`bool` values; and for an index on an INT or FLOAT field with the validator of
its kind, a document whose value of the indexed field is neither an `int64` nor
a `float64` makes `getDocFieldValue` fail with `ErrInvalidFieldValue`. -/
theorem getValidateIndexFieldFunc_scalars (env : Env) (i : collectionBaseIndex)
    (doc : Document) (first : IndexedFieldDescription) (v : Value)
    (hkind : i.fieldDesc.Kind = FieldKind.INT ∨ i.fieldDesc.Kind = FieldKind.FLOAT)
    (hvalidate : i.validateFieldFunc = getValidateIndexFieldFunc env i.fieldDesc.Kind)
    (hfirst : i.desc.Fields.head? = some first)
    (hval : doc.GetValue first.Name = Except.ok v)
    (hnum : (∀ n, v.val ≠ GoAny.int64 n) ∧ (∀ bits, v.val ≠ GoAny.float64 bits)) :
    (∃ f, getValidateIndexFieldFunc env FieldKind.STRING = some f ∧
      ∀ x, f x = true ↔ ∃ s, x = GoAny.string s) ∧
    (∃ f, getValidateIndexFieldFunc env FieldKind.FOREIGN_OBJECT = some f ∧
      ∀ x, f x = true ↔ ∃ s, x = GoAny.string s) ∧
    (∃ f, getValidateIndexFieldFunc env FieldKind.INT = some f ∧
      ∀ x, f x = true ↔ ∃ n, x = GoAny.int64 n) ∧
    (∃ f, getValidateIndexFieldFunc env FieldKind.FLOAT = some f ∧
      ∀ x, f x = true ↔ ∃ bits, x = GoAny.float64 bits) ∧
    (∃ f, getValidateIndexFieldFunc env FieldKind.BOOL = some f ∧
      ∀ x, f x = true ↔ ∃ b, x = GoAny.bool b) ∧
    i.getDocFieldValue env doc =
      Except.error (Error.ErrInvalidFieldValue i.fieldDesc.Kind
        (if v.bytes.isSome then some v else none)) := by
  refine ⟨⟨_, rfl, canConvertIndexFieldValue_string⟩, ⟨_, rfl, canConvertIndexFieldValue_string⟩,
    ⟨_, rfl, canConvertIndexFieldValue_int64⟩, ⟨_, rfl, canConvertIndexFieldValue_float64⟩,
    ⟨_, rfl, canConvertIndexFieldValue_bool⟩, ?_⟩
  obtain ⟨rest, hf⟩ : ∃ rest, i.desc.Fields = first :: rest := by
    cases hl : i.desc.Fields with
    | nil => rw [hl] at hfirst; cases hfirst
    | cons a rest =>
      rw [hl] at hfirst
      simp only [List.head?_cons, Option.some.injEq] at hfirst
      exact ⟨rest, by rw [hfirst]⟩
  have hrej : ∀ f, i.validateFieldFunc = some f → f v.val = false := by
    intro f hfv
    rw [hvalidate] at hfv
    rcases hkind with hk | hk
    · rw [hk] at hfv
      simp only [getValidateIndexFieldFunc, Option.some.injEq] at hfv
      rw [← hfv, Bool.eq_false_iff]
      intro hc
      obtain ⟨n, hn⟩ := (canConvertIndexFieldValue_int64 _).mp hc
      exact hnum.1 n hn
    · rw [hk] at hfv
      simp only [getValidateIndexFieldFunc, Option.some.injEq] at hfv
      rw [← hfv, Bool.eq_false_iff]
      intro hc
      obtain ⟨b, hb⟩ := (canConvertIndexFieldValue_float64 _).mp hc
      exact hnum.2 b hb
  have hsome : ∃ f, i.validateFieldFunc = some f := by
    rw [hvalidate]
    rcases hkind with hk | hk <;> rw [hk] <;> exact ⟨_, rfl⟩
  obtain ⟨f, hfv⟩ := hsome
  simp only [collectionBaseIndex.getDocFieldValue, hf, hval, hfv]
  cases hb : v.bytes with
  | none => simp
  | some b => simp [hrej f hfv]

/-- Witness of C18: the index on the INT field `age` and a document whose `age`
is the string `abc`. -/
theorem getValidateIndexFieldFunc_scalars_witness :
    ageIndexBase.fieldDesc.Kind = FieldKind.INT ∧
    badAgeDoc.GetValue "age" = Except.ok (stringValue "abc" [97, 98, 99]) ∧
    ageIndexBase.getDocFieldValue exampleEnv badAgeDoc =
      Except.error (Error.ErrInvalidFieldValue FieldKind.INT
        (some (stringValue "abc" [97, 98, 99]))) :=
  ⟨rfl, rfl,
   (getValidateIndexFieldFunc_scalars exampleEnv ageIndexBase badAgeDoc
      { Name := "age", Direction := IndexDirection.Ascending } (stringValue "abc" [97, 98, 99])
      (Or.inl rfl) rfl rfl rfl
      ⟨fun n h => by simp [stringValue] at h, fun b h => by simp [stringValue] at h⟩).2.2.2.2.2⟩

/-- C19 (validator of BLOB): the validator of the kind BLOB accepts a value if
and only if it is a Go string that `types.BlobPattern` matches; it rejects
every value that is not a string and every string the pattern does not
match. -/
theorem getValidateIndexFieldFunc_blob (env : Env) :
    ∃ f, getValidateIndexFieldFunc env FieldKind.BLOB = some f ∧
      (∀ x, f x = true ↔ ∃ s, x = GoAny.string s ∧ env.BlobPattern s = true) ∧
      (∀ x, (∀ s, x ≠ GoAny.string s) → f x = false) ∧
      (∀ s, env.BlobPattern s = false → f (GoAny.string s) = false) := by
  refine ⟨_, rfl, ?_, ?_, ?_⟩
  · intro x
    cases x <;> simp
  · intro x hx
    cases x with
    | string s => exact absurd rfl (hx s)
    | _ => rfl
  · intro s hs
    exact hs

/-- C20 (no panic in `getDocFieldValue`): every index that `NewCollectionIndex`
returns without error keeps the given description, which has at least one
field, and has a validator that is not nil; so `getDocFieldValue` on it never
panics by itself: a panic can only be one that `doc.GetValue` of the first
indexed field raised. -/
theorem NewCollectionIndex_safe (env : Env) (collection : Collection)
    (desc : IndexDescription) (index : CollectionIndex) (doc : Document)
    (hnew : NewCollectionIndex env collection desc = Except.ok index) :
    index.base.desc = desc ∧
    index.base.desc.Fields ≠ [] ∧
    index.base.validateFieldFunc.isSome = true ∧
    ∀ msg, index.base.getDocFieldValue env doc = Except.error (Error.panic msg) →
      ∃ first, index.base.desc.Fields.head? = some first ∧
        doc.GetValue first.Name = Except.error (Error.panic msg) := by
  obtain ⟨first, rest, field, validate, hf, _, _, hbase⟩ :=
    NewCollectionIndex_ok env collection desc index hnew
  rw [hbase]
  refine ⟨rfl, ?_, rfl, ?_⟩
  · simp [hf]
  · intro msg hp
    refine ⟨first, by simp [hf], ?_⟩
    simp only [collectionBaseIndex.getDocFieldValue, hf] at hp
    cases hv : doc.GetValue first.Name with
    | error err =>
      rw [hv] at hp
      by_cases hn : err.IsFieldNotExist = true
      · simp only [hn, if_true] at hp
        cases hc : env.NilCBOR with
        | inl b => simp [hc, bytesResult] at hp
        | inr m => simp [hc, bytesResult] at hp
      · simp only [hn] at hp
        simpa using hp
    | ok fieldVal =>
      rw [hv] at hp
      cases hb : fieldVal.bytes with
      | none => simp [hb] at hp
      | some wb =>
        simp only [hb] at hp
        by_cases hval : validate fieldVal.val = true
        · cases wb with
          | inl b => simp [hval, bytesResult] at hp
          | inr m => simp [hval, bytesResult] at hp
        · simp [hval] at hp

/-- Witness of C20: the simple index on `created` and a document without that
field. -/
theorem NewCollectionIndex_safe_witness :
    NewCollectionIndex exampleEnv usersCollection createdIndexDesc =
      Except.ok (CollectionIndex.simple createdIndexBase) ∧
    (CollectionIndex.simple createdIndexBase).base.desc.Fields ≠ [] ∧
    (CollectionIndex.simple createdIndexBase).base.validateFieldFunc.isSome = true :=
  ⟨rfl,
   (NewCollectionIndex_safe exampleEnv usersCollection createdIndexDesc
      (CollectionIndex.simple createdIndexBase) johnDoc rfl).2.1,
   (NewCollectionIndex_safe exampleEnv usersCollection createdIndexDesc
      (CollectionIndex.simple createdIndexBase) johnDoc rfl).2.2.1⟩

theorem Txn.Delete_deleteFails (txn : Txn) (key : String) :
    (txn.Delete key).2.deleteFails = txn.deleteFails := by
  simp only [Txn.Delete]
  cases txn.deleteFails key <;> rfl

theorem collectionBaseIndex.RemoveAll.loop_entries (keys : List String) (txn : Txn)
    (hok : (collectionBaseIndex.RemoveAll.loop txn keys).1 = none) :
    (collectionBaseIndex.RemoveAll.loop txn keys).2.entries =
      txn.entries.filter (fun e => !keys.contains e.1) := by
  induction keys generalizing txn with
  | nil => simp [collectionBaseIndex.RemoveAll.loop]
  | cons key rest ih =>
    simp only [collectionBaseIndex.RemoveAll.loop] at hok ⊢
    cases hd : txn.deleteFails key with
    | some err => simp [Txn.Delete, hd] at hok
    | none =>
      have hD : txn.Delete key =
          (none, { txn with calls := txn.calls ++ [DSCall.Delete key],
                            entries := txn.entries.filter (fun e => e.1 != key) }) := by
        simp [Txn.Delete, hd]
      rw [hD] at hok ⊢
      simp only at hok ⊢
      rw [ih _ hok]
      simp only [List.filter_filter]
      apply List.filter_congr
      intro e _
      by_cases hk : e.1 = key
      · simp [hk]
      · have hk2 : (e.1 == key) = false := by simpa using hk
        simp [hk, hk2, List.contains_cons]

theorem collectionBaseIndex.RemoveAll.loop_fails (keys : List String) (txn : Txn)
    (hfail : ∃ k ∈ keys, txn.deleteFails k ≠ none) :
    ∃ k ∈ keys, ∃ err, txn.deleteFails k = some err ∧
      (collectionBaseIndex.RemoveAll.loop txn keys).1 =
        some (Error.CanNotDeleteIndexedField err) := by
  induction keys generalizing txn with
  | nil =>
    obtain ⟨k, hk, _⟩ := hfail
    cases hk
  | cons key rest ih =>
    simp only [collectionBaseIndex.RemoveAll.loop]
    cases hd : txn.deleteFails key with
    | some err =>
      refine ⟨key, List.mem_cons_self _ _, err, hd, ?_⟩
      simp [Txn.Delete, hd]
    | none =>
      have hrest : ∃ k ∈ rest, (txn.Delete key).2.deleteFails k ≠ none := by
        obtain ⟨k, hk, hne⟩ := hfail
        rcases List.mem_cons.mp hk with h | h
        · rw [h, hd] at hne
          exact absurd rfl hne
        · exact ⟨k, h, by rw [Txn.Delete_deleteFails]; exact hne⟩
      obtain ⟨k, hk, err, herr, hres⟩ := ih (txn.Delete key).2 hrest
      rw [Txn.Delete_deleteFails] at herr
      refine ⟨k, List.mem_cons_of_mem _ hk, err, herr, ?_⟩
      have h1 : (txn.Delete key).1 = none := by simp [Txn.Delete, hd]
      simp only [h1]
      exact hres

theorem collectionBaseIndex.RemoveAll.loop_ok (keys : List String) (txn : Txn)
    (hok : ∀ k ∈ keys, txn.deleteFails k = none) :
    (collectionBaseIndex.RemoveAll.loop txn keys).1 = none ∧
    (collectionBaseIndex.RemoveAll.loop txn keys).2.calls =
      txn.calls ++ keys.map DSCall.Delete := by
  induction keys generalizing txn with
  | nil => simp [collectionBaseIndex.RemoveAll.loop]
  | cons key rest ih =>
    have hd : txn.deleteFails key = none := hok key (List.mem_cons_self _ _)
    have hD : txn.Delete key =
        (none, { txn with calls := txn.calls ++ [DSCall.Delete key],
                          entries := txn.entries.filter (fun e => e.1 != key) }) := by
      simp [Txn.Delete, hd]
    have hrest := ih { txn with calls := txn.calls ++ [DSCall.Delete key],
                                entries := txn.entries.filter (fun e => e.1 != key) }
      (fun k hk => hok k (List.mem_cons_of_mem _ hk))
    simp only [collectionBaseIndex.RemoveAll.loop]
    rw [hD]
    simp only
    refine ⟨hrest.1, ?_⟩
    rw [hrest.2]
    simp

/-- C12 (`RemoveAll` removes all artifacts of the index): when the query for
the index's key prefix (collection ID and index ID) succeeds and no `Delete` of
a key it returns fails, `RemoveAll` returns no error, it has made the query and
then one `Delete` for each key returned, and the entries of the datastore are
exactly the former entries whose key the query does not return; after any
`RemoveAll` that returns no error the entries are those: no key under the
prefix remains, and every entry outside it is unchanged; if the query succeeds
and deleting one of the keys it returned fails, `RemoveAll` returns
`CanNotDeleteIndexedField` wrapping the error of such a `Delete`. -/
theorem collectionBaseIndex.RemoveAll_removes (env : Env) (i : collectionBaseIndex)
    (txn : Txn) :
    (txn.queryFails (env.ToString i.prefixKey) = none →
      (∀ e ∈ txn.entries, env.QueryMatches (env.ToString i.prefixKey) e.1 = true →
        txn.deleteFails e.1 = none) →
      (i.RemoveAll env txn).1 = none ∧
      (i.RemoveAll env txn).2.entries =
        txn.entries.filter (fun e => !env.QueryMatches (env.ToString i.prefixKey) e.1) ∧
      (i.RemoveAll env txn).2.calls =
        txn.calls ++ [DSCall.Query (env.ToString i.prefixKey)] ++
          ((txn.entries.map (fun e => e.1)).filter
            (env.QueryMatches (env.ToString i.prefixKey))).map DSCall.Delete) ∧
    ((i.RemoveAll env txn).1 = none →
      (i.RemoveAll env txn).2.entries =
        txn.entries.filter (fun e => !env.QueryMatches (env.ToString i.prefixKey) e.1) ∧
      (∀ e ∈ (i.RemoveAll env txn).2.entries,
        env.QueryMatches (env.ToString i.prefixKey) e.1 = false) ∧
      (∀ e, env.QueryMatches (env.ToString i.prefixKey) e.1 = false →
        (e ∈ (i.RemoveAll env txn).2.entries ↔ e ∈ txn.entries))) ∧
    (txn.queryFails (env.ToString i.prefixKey) = none →
      (∃ e ∈ txn.entries, env.QueryMatches (env.ToString i.prefixKey) e.1 = true ∧
        txn.deleteFails e.1 ≠ none) →
      ∃ e ∈ txn.entries, ∃ err,
        env.QueryMatches (env.ToString i.prefixKey) e.1 = true ∧
        txn.deleteFails e.1 = some err ∧
        (i.RemoveAll env txn).1 = some (Error.CanNotDeleteIndexedField err)) := by
  have hentries : (i.RemoveAll env txn).1 = none →
      (i.RemoveAll env txn).2.entries =
        txn.entries.filter (fun e => !env.QueryMatches (env.ToString i.prefixKey) e.1) := by
    intro hok
    simp only [collectionBaseIndex.RemoveAll, FetchKeysForPrefix] at hok ⊢
    cases hq : txn.queryFails (env.ToString i.prefixKey) with
    | some err => simp [hq] at hok
    | none =>
      simp only [hq] at hok ⊢
      rw [collectionBaseIndex.RemoveAll.loop_entries _ _ hok]
      apply List.filter_congr
      intro e he
      by_cases hm : env.QueryMatches (env.ToString i.prefixKey) e.1 = true
      · have : e.1 ∈ (txn.entries.map (fun e => e.1)).filter
            (env.QueryMatches (env.ToString i.prefixKey)) :=
          List.mem_filter.mpr ⟨List.mem_map_of_mem _ he, hm⟩
        simp [hm, this]
      · have : e.1 ∉ (txn.entries.map (fun e => e.1)).filter
            (env.QueryMatches (env.ToString i.prefixKey)) :=
          fun h => hm (List.mem_filter.mp h).2
        simp [hm, this]
  refine ⟨?_, ?_, ?_⟩
  · intro hq hdel
    have hkeys : ∀ k ∈ (txn.entries.map (fun e => e.1)).filter
          (env.QueryMatches (env.ToString i.prefixKey)),
        ({ txn with calls := txn.calls ++ [DSCall.Query (env.ToString i.prefixKey)] } :
          Txn).deleteFails k = none := by
      intro k hk
      obtain ⟨hk1, hk2⟩ := List.mem_filter.mp hk
      obtain ⟨e, he, rfl⟩ := List.mem_map.mp hk1
      exact hdel e he hk2
    have hloop := collectionBaseIndex.RemoveAll.loop_ok _ _ hkeys
    have hres : (i.RemoveAll env txn).1 = none := by
      simp only [collectionBaseIndex.RemoveAll, FetchKeysForPrefix, hq]
      exact hloop.1
    refine ⟨hres, hentries hres, ?_⟩
    simp only [collectionBaseIndex.RemoveAll, FetchKeysForPrefix, hq]
    exact hloop.2
  · intro hok
    refine ⟨hentries hok, ?_, ?_⟩
    · intro e he
      rw [hentries hok] at he
      simpa using (List.mem_filter.mp he).2
    · intro e hm
      rw [hentries hok, List.mem_filter]
      simp [hm]
  · intro hq hfail
    obtain ⟨e, he, hm, hd⟩ := hfail
    have hkeys : ∃ k ∈ (txn.entries.map (fun e => e.1)).filter
          (env.QueryMatches (env.ToString i.prefixKey)),
        ({ txn with calls := txn.calls ++ [DSCall.Query (env.ToString i.prefixKey)] } :
          Txn).deleteFails k ≠ none :=
      ⟨e.1, List.mem_filter.mpr ⟨List.mem_map_of_mem _ he, hm⟩, hd⟩
    obtain ⟨k, hk, err, herr, hres⟩ := collectionBaseIndex.RemoveAll.loop_fails _ _ hkeys
    obtain ⟨hk1, hk2⟩ := List.mem_filter.mp hk
    obtain ⟨e', he', rfl⟩ := List.mem_map.mp hk1
    refine ⟨e', he', err, hk2, herr, ?_⟩
    simp only [collectionBaseIndex.RemoveAll, FetchKeysForPrefix, hq]
    exact hres

/-- Witness of C12: index 3 of collection 1 is removed from a datastore that
never fails and holds two entries of that index and one entry of index 2; the
query succeeds, no `Delete` fails, `RemoveAll` returns no error, it queries the
prefix `/c/iii` and deletes the two keys under it, and only the entry of
index 2 is left, unchanged. -/
theorem collectionBaseIndex.RemoveAll_removes_witness :
    threeEntriesTxn.queryFails (exampleEnv.ToString simpleNameIndexBase.prefixKey) = none ∧
    (∀ e ∈ threeEntriesTxn.entries,
      exampleEnv.QueryMatches (exampleEnv.ToString simpleNameIndexBase.prefixKey) e.1 = true →
      threeEntriesTxn.deleteFails e.1 = none) ∧
    (simpleNameIndexBase.RemoveAll exampleEnv threeEntriesTxn).1 = none ∧
    (simpleNameIndexBase.RemoveAll exampleEnv threeEntriesTxn).2.entries =
      [("/c/ii/John", [1])] ∧
    (simpleNameIndexBase.RemoveAll exampleEnv threeEntriesTxn).2.calls =
      [DSCall.Query "/c/iii", DSCall.Delete "/c/iii/John/bae-3",
       DSCall.Delete "/c/iii/John/bae-4"] :=
  ⟨rfl, fun _ _ _ => rfl,
   ((collectionBaseIndex.RemoveAll_removes exampleEnv simpleNameIndexBase threeEntriesTxn).1
      rfl (fun _ _ _ => rfl)).1,
   ((collectionBaseIndex.RemoveAll_removes exampleEnv simpleNameIndexBase threeEntriesTxn).1
      rfl (fun _ _ _ => rfl)).2.1.trans (by decide),
   ((collectionBaseIndex.RemoveAll_removes exampleEnv simpleNameIndexBase threeEntriesTxn).1
      rfl (fun _ _ _ => rfl)).2.2.trans (by decide)⟩

/-! ## Theorems: `request/graphql/schema/collection.go` -/

theorem fieldIndexFromAST.loop_fields (args : List ast.Argument) (desc out : IndexDescription)
    (h : fieldIndexFromAST.loop desc args = Except.ok out) : out.Fields = desc.Fields := by
  induction args generalizing desc with
  | nil =>
    simp only [fieldIndexFromAST.loop, Except.ok.injEq] at h
    rw [h]
  | cons arg rest ih =>
    simp only [fieldIndexFromAST.loop] at h
    split at h
    · split at h
      · split at h
        · cases h
        · have h2 := ih _ h
          exact h2
      · cases h
    · split at h
      · split at h
        · have h2 := ih _ h
          exact h2
        · cases h
      · cases h

/-- C16 (single-field indexes are ascending only): every index description that
`fieldIndexFromAST` returns without error has exactly one indexed field, named
after the field that carries the directive, with the direction Ascending,
whatever the arguments of the directive are. -/
theorem fieldIndexFromAST_fields (field : ast.FieldDefinition) (directive : ast.Directive)
    (desc : IndexDescription) (h : fieldIndexFromAST field directive = Except.ok desc) :
    desc.Fields = [{ Name := field.Name, Direction := IndexDirection.Ascending }] := by
  unfold fieldIndexFromAST at h
  exact fieldIndexFromAST.loop_fields _ _ _ h

theorem getRelationshipName.arguments_none (args : List ast.Argument)
    (h : ∀ a ∈ args, a.Name ≠ "name") : getRelationshipName.arguments args = none := by
  induction args with
  | nil => rfl
  | cons a rest ih =>
    have ha : (a.Name == "name") = false := by
      simpa using h a (List.mem_cons_self _ _)
    simp only [getRelationshipName.arguments, ha, Bool.false_eq_true, if_false]
    exact ih (fun a' ha' => h a' (List.mem_cons_of_mem _ ha'))

theorem getRelationshipName.arguments_found (apre apost : List ast.Argument) (a : ast.Argument)
    (hpre : ∀ a' ∈ apre, a'.Name ≠ "name") (ha : a.Name = "name") :
    getRelationshipName.arguments (apre ++ a :: apost) =
      some (match a.Value.GetValue with
        | GoAny.string name => Except.ok name
        | other => Except.error (Error.ErrUnexpectedType "string" "Relationship name" other)) := by
  induction apre with
  | nil =>
    simp only [List.nil_append, getRelationshipName.arguments, ha, beq_self_eq_true, if_true]
    cases a.Value.GetValue <;> rfl
  | cons b rest ih =>
    have hb : (b.Name == "name") = false := by
      simpa using hpre b (List.mem_cons_self _ _)
    simp only [List.cons_append, getRelationshipName.arguments, hb, Bool.false_eq_true, if_false]
    exact ih (fun a' ha' => hpre a' (List.mem_cons_of_mem _ ha'))

theorem getRelationshipName.directives_none (ds : List ast.Directive)
    (h : ∀ d ∈ ds, d.Name = "relation" → ∀ a ∈ d.Arguments, a.Name ≠ "name") :
    getRelationshipName.directives ds = none := by
  induction ds with
  | nil => rfl
  | cons d rest ih =>
    have hrest := ih (fun d' hd' => h d' (List.mem_cons_of_mem _ hd'))
    simp only [getRelationshipName.directives]
    by_cases hd : d.Name = "relation"
    · simp only [hd, beq_self_eq_true, if_true]
      rw [getRelationshipName.arguments_none _ (h d (List.mem_cons_self _ _) hd)]
      exact hrest
    · have hd' : (d.Name == "relation") = false := by simpa using hd
      simp only [hd', Bool.false_eq_true, if_false]
      exact hrest

theorem getRelationshipName.directives_found (pre post : List ast.Directive) (d : ast.Directive)
    (r : Except Error String)
    (hpre : ∀ d' ∈ pre, d'.Name = "relation" → ∀ a ∈ d'.Arguments, a.Name ≠ "name")
    (hd : d.Name = "relation") (hr : getRelationshipName.arguments d.Arguments = some r) :
    getRelationshipName.directives (pre ++ d :: post) = some r := by
  induction pre with
  | nil =>
    simp only [List.nil_append, getRelationshipName.directives, hd, beq_self_eq_true, if_true,
      hr]
  | cons e rest ih =>
    have hrest := ih (fun d' hd' => hpre d' (List.mem_cons_of_mem _ hd'))
    simp only [List.cons_append, getRelationshipName.directives]
    by_cases he : e.Name = "relation"
    · simp only [he, beq_self_eq_true, if_true]
      rw [getRelationshipName.arguments_none _ (hpre e (List.mem_cons_self _ _) he)]
      exact hrest
    · have he' : (e.Name == "relation") = false := by simpa using he
      simp only [he', Bool.false_eq_true, if_false]
      exact hrest

/-- C17 (`getRelationshipName`): let `d` be the first `@relation` directive of
the field that has an argument called `name`, and `a` its first such argument.
If `a.Value.GetValue()` is a Go string, that string is returned; if it is not,
the call fails with the unexpected-type error for `Relationship name`.  If no
`@relation` directive of the field has an argument called `name`, the result is
that of `genRelationName(hostName, targetName)`. -/
theorem getRelationshipName_spec {ρ : Type} (lib : SchemaLib ρ) (field : ast.FieldDefinition)
    (hostName targetName : String) :
    (∀ pre d post apre a apost,
      field.Directives = pre ++ d :: post → d.Name = "relation" →
      (∀ d' ∈ pre, d'.Name = "relation" → ∀ a' ∈ d'.Arguments, a'.Name ≠ "name") →
      d.Arguments = apre ++ a :: apost → a.Name = "name" →
      (∀ a' ∈ apre, a'.Name ≠ "name") →
      (∀ s, a.Value.GetValue = GoAny.string s →
        getRelationshipName lib field hostName targetName = Except.ok s) ∧
      ((∀ s, a.Value.GetValue ≠ GoAny.string s) →
        getRelationshipName lib field hostName targetName =
          Except.error
            (Error.ErrUnexpectedType "string" "Relationship name" a.Value.GetValue))) ∧
    ((∀ d ∈ field.Directives, d.Name = "relation" → ∀ a ∈ d.Arguments, a.Name ≠ "name") →
      getRelationshipName lib field hostName targetName =
        lib.genRelationName hostName targetName) := by
  constructor
  · intro pre d post apre a apost hds hd hpre hargs ha hapre
    have hfound := getRelationshipName.arguments_found apre apost a hapre ha
    rw [← hargs] at hfound
    have hdir := getRelationshipName.directives_found pre post d _ hpre hd hfound
    rw [← hds] at hdir
    constructor
    · intro s hs
      simp only [getRelationshipName, hdir, hs]
    · intro hns
      cases hv : a.Value.GetValue with
      | string s => exact absurd hv (hns s)
      | _ => simp only [getRelationshipName, hdir, hv]
  · intro hnone
    simp only [getRelationshipName, getRelationshipName.directives_none _ hnone]

/-! ## Theorems: Go's insertion sort keeps the promise of `sort.Slice` -/

theorem sort.insertionSort.insert_perm {α : Type} (less : α → α → Bool) (x : α)
    (acc : List α) : (sort.insertionSort.insert less x acc).Perm (x :: acc) := by
  induction acc with
  | nil => exact List.Perm.refl _
  | cons y ys ih =>
    simp only [sort.insertionSort.insert]
    split
    · exact ((List.Perm.cons y ih).trans (List.Perm.swap x y ys))
    · exact List.Perm.refl _

theorem sort.insertionSort.insert_sorted {α : Type} (less : α → α → Bool)
    (rank : α → Lex (Nat × List Char)) (x : α) (acc : List α)
    (hless : ∀ y ∈ acc, less x y = decide (rank x < rank y))
    (hs : acc.Pairwise (fun a b => rank b ≤ rank a)) :
    (sort.insertionSort.insert less x acc).Pairwise (fun a b => rank b ≤ rank a) := by
  induction acc with
  | nil => simp [sort.insertionSort.insert]
  | cons y ys ih =>
    have hy := hless y (List.mem_cons_self _ _)
    obtain ⟨hyall, hys⟩ := List.pairwise_cons.mp hs
    simp only [sort.insertionSort.insert]
    by_cases hlt : rank x < rank y
    · have h1 : less x y = true := by rw [hy]; exact decide_eq_true hlt
      simp only [h1, if_true]
      refine List.pairwise_cons.mpr ⟨?_, ih (fun z hz => hless z (List.mem_cons_of_mem _ hz)) hys⟩
      intro z hz
      have hz' := (sort.insertionSort.insert_perm less x ys).subset hz
      rcases List.mem_cons.mp hz' with h | h
      · rw [h]
        exact le_of_lt hlt
      · exact hyall z h
    · have h1 : less x y = false := by rw [hy]; exact decide_eq_false hlt
      simp only [h1, Bool.false_eq_true, if_false]
      have hyx : rank y ≤ rank x := not_lt.mp hlt
      refine List.pairwise_cons.mpr ⟨?_, hs⟩
      intro z hz
      rcases List.mem_cons.mp hz with h | h
      · rw [h]
        exact hyx
      · exact le_trans (hyall z h) hyx

theorem sort.insertionSort.foldl_perm {α : Type} (less : α → α → Bool) (rest acc : List α) :
    (rest.foldl (fun sortedPart x => sort.insertionSort.insert less x sortedPart) acc).Perm
      (acc ++ rest) := by
  induction rest generalizing acc with
  | nil => simp
  | cons x rest ih =>
    simp only [List.foldl_cons]
    refine (ih _).trans ?_
    refine (List.Perm.append_right rest (sort.insertionSort.insert_perm less x acc)).trans ?_
    simp only [List.cons_append]
    exact (List.perm_middle).symm

theorem sort.insertionSort.foldl_sorted {α : Type} (less : α → α → Bool)
    (rank : α → Lex (Nat × List Char)) (l : List α)
    (hless : ∀ pre x post, l = pre ++ x :: post → ∀ y ∈ pre ++ post,
      less x y = decide (rank x < rank y))
    (rest pre acc : List α) (hl : l = pre ++ rest) (hperm : acc.Perm pre)
    (hs : acc.Pairwise (fun a b => rank b ≤ rank a)) :
    (rest.foldl (fun sortedPart x => sort.insertionSort.insert less x sortedPart) acc).Pairwise
      (fun a b => rank b ≤ rank a) := by
  induction rest generalizing pre acc with
  | nil => exact hs
  | cons x rest ih =>
    simp only [List.foldl_cons]
    apply ih (pre ++ [x])
    · rw [hl]
      simp
    · exact ((sort.insertionSort.insert_perm less x acc).trans
        (List.Perm.cons x hperm)).trans (List.perm_append_singleton x pre).symm
    · apply sort.insertionSort.insert_sorted less rank x acc _ hs
      intro y hy
      exact hless pre x rest hl y (List.mem_append_left _ (hperm.subset hy))

theorem sort.insertionSort_sorts :
    sort.SliceSorts (fun less l => sort.insertionSort less l) := by
  intro less l
  constructor
  · simp only [sort.insertionSort]
    refine (List.reverse_perm _).trans ?_
    simpa using sort.insertionSort.foldl_perm less l []
  · intro rank hless
    simp only [sort.insertionSort]
    rw [List.pairwise_reverse]
    exact sort.insertionSort.foldl_sorted less rank l hless l [] [] (by simp)
      (List.Perm.refl _) List.Pairwise.nil

/-! ## Theorems: `fromAstDefinition` -/

theorem fromAstDefinition.fields_eq {ρ : Type} (lib : SchemaLib ρ) (def_ : ast.ObjectDefinition)
    (fs : List ast.FieldDefinition) (rm : ρ) (acc : List FieldDescription)
    (idx : List IndexDescription) (fds : List FieldDescription) (idx1 : List IndexDescription)
    (rm1 : ρ)
    (h : fromAstDefinition.fields lib def_ rm acc idx fs = (Except.ok (fds, idx1), rm1)) :
    ∃ produced, fieldsFromAST.all lib def_ rm fs = (Except.ok produced, rm1) ∧
      fds = acc ++ produced := by
  induction fs generalizing rm acc idx with
  | nil =>
    simp only [fromAstDefinition.fields, Prod.mk.injEq, Except.ok.injEq] at h
    exact ⟨[], by simp [fieldsFromAST.all, h.2], by simp [h.1.1]⟩
  | cons field rest ih =>
    simp only [fromAstDefinition.fields] at h
    cases hr : (fieldsFromAST lib rm field def_).1 with
    | error err => simp [hr] at h
    | ok tmp =>
      simp only [hr] at h
      cases hi : fromAstDefinition.fieldIndexes field idx field.Directives with
      | error err => simp [hi] at h
      | ok indexes =>
        simp only [hi] at h
        obtain ⟨produced, hall, hfds⟩ := ih _ _ _ h
        refine ⟨tmp ++ produced, ?_, by rw [hfds, List.append_assoc]⟩
        simp only [fieldsFromAST.all, hr, hall]

theorem fieldsFromAST.related_names {ρ : Type} (lib : SchemaLib ρ)
    (field : ast.FieldDefinition) (kind : FieldKind) (schema : String) (relationType : Nat)
    (fds : List FieldDescription)
    (h : fieldsFromAST.related lib field kind = Except.ok (schema, relationType, fds)) :
    ∀ fd ∈ fds, fd.Name = field.Name ++ "_id" := by
  unfold fieldsFromAST.related at h
  split at h
  · split at h
    · simp only [Except.ok.injEq, Prod.mk.injEq] at h
      obtain ⟨_, _, hl⟩ := h
      subst hl
      intro fd hfd
      simp only [List.mem_singleton] at hfd
      rw [hfd]
    · cases h
  · split at h
    · simp only [Except.ok.injEq, Prod.mk.injEq] at h
      obtain ⟨_, _, hl⟩ := h
      subst hl
      intro fd hfd
      cases hfd
    · cases h

theorem fieldsFromAST_names {ρ : Type} (lib : SchemaLib ρ) (rm : ρ)
    (field : ast.FieldDefinition) (def_ : ast.ObjectDefinition) (tmp : List FieldDescription)
    (h : (fieldsFromAST lib rm field def_).1 = Except.ok tmp) :
    ∀ fd ∈ tmp, fd.Name = field.Name ∨ fd.Name = field.Name ++ "_id" := by
  unfold fieldsFromAST at h
  cases hk : astTypeToKind field.Type_ with
  | error err => simp [hk] at h
  | ok kind =>
    simp only [hk] at h
    by_cases hfo : (kind == FieldKind.FOREIGN_OBJECT || kind == FieldKind.FOREIGN_OBJECT_ARRAY)
        = true
    · simp only [hfo, if_true] at h
      cases hrel : fieldsFromAST.related lib field kind with
      | error err => simp [hrel] at h
      | ok triple =>
        obtain ⟨schema, relationType, fds⟩ := triple
        simp only [hrel] at h
        cases hn : getRelationshipName lib field def_.Name schema with
        | error err => simp [hn] at h
        | ok relationName =>
          simp only [hn] at h
          cases hreg : (lib.RegisterSingle rm relationName schema field.Name relationType).1.2 with
          | some err => simp [hreg] at h
          | none =>
            simp only [hreg, Except.ok.injEq] at h
            subst h
            intro fd hfd
            rcases List.mem_append.mp hfd with hm | hm
            · exact Or.inr (fieldsFromAST.related_names lib field kind schema relationType fds
                hrel fd hm)
            · simp only [List.mem_singleton] at hm
              exact Or.inl (by rw [hm])
    · simp only [hfo, Bool.false_eq_true, if_false, Except.ok.injEq] at h
      subst h
      intro fd hfd
      simp only [List.mem_singleton] at hfd
      exact Or.inl (by rw [hfd])

theorem fieldsFromAST.all_names {ρ : Type} (lib : SchemaLib ρ) (def_ : ast.ObjectDefinition)
    (fs : List ast.FieldDefinition) (rm : ρ) (produced : List FieldDescription)
    (h : (fieldsFromAST.all lib def_ rm fs).1 = Except.ok produced) :
    ∀ fd ∈ produced, ∃ field ∈ fs, fd.Name = field.Name ∨ fd.Name = field.Name ++ "_id" := by
  induction fs generalizing rm produced with
  | nil =>
    simp only [fieldsFromAST.all, Except.ok.injEq] at h
    subst h
    intro fd hfd
    cases hfd
  | cons field rest ih =>
    simp only [fieldsFromAST.all] at h
    cases hr : (fieldsFromAST lib rm field def_).1 with
    | error err => simp [hr] at h
    | ok tmp =>
      simp only [hr] at h
      cases hs : (fieldsFromAST.all lib def_ (fieldsFromAST lib rm field def_).2 rest).1 with
      | error err => simp [hs] at h
      | ok more =>
        simp only [hs, Except.ok.injEq] at h
        subst h
        intro fd hfd
        rcases List.mem_append.mp hfd with hm | hm
        · exact ⟨field, List.mem_cons_self _ _,
            fieldsFromAST_names lib rm field def_ tmp hr fd hm⟩
        · obtain ⟨f, hf, hn⟩ := ih _ _ hs fd hm
          exact ⟨f, List.mem_cons_of_mem _ hf, hn⟩

theorem request.id_name_ne_key (name : String) : name ++ "_id" ≠ request.KeyFieldName := by
  intro h
  have h1 := congrArg (fun s => s.data.getLast?) h
  simp [request.KeyFieldName] at h1

theorem fromAstDefinition.rank_key : fromAstDefinition.rank fromAstDefinition.keyField =
    toLex (0, request.KeyFieldName.toList) := by
  simp [fromAstDefinition.rank, fromAstDefinition.keyField]

theorem fromAstDefinition.rank_other (fd : FieldDescription)
    (h : fd.Name ≠ request.KeyFieldName) :
    fromAstDefinition.rank fd = toLex (1, fd.Name.toList) := by
  simp [fromAstDefinition.rank, h]

theorem fromAstDefinition.less_eq_rank (produced pre post : List FieldDescription)
    (x : FieldDescription)
    (hprod : ∀ fd ∈ produced, fd.Name ≠ request.KeyFieldName)
    (hl : fromAstDefinition.keyField :: produced = pre ++ x :: post) :
    ∀ y ∈ pre ++ post,
      fromAstDefinition.less x y =
        decide (fromAstDefinition.rank x < fromAstDefinition.rank y) := by
  intro y hy
  have hkey : fromAstDefinition.keyField.Name = request.KeyFieldName := rfl
  cases pre with
  | nil =>
    simp only [List.nil_append, List.cons.injEq] at hl hy
    obtain ⟨hx, hpost⟩ := hl
    subst hx
    have hyn : y.Name ≠ request.KeyFieldName := hprod y (by rw [hpost]; exact hy)
    rw [fromAstDefinition.rank_key, fromAstDefinition.rank_other y hyn]
    have hlt : toLex ((0 : Nat), request.KeyFieldName.toList) < toLex ((1 : Nat), y.Name.toList) := by
      rw [Prod.Lex.lt_iff]
      exact Or.inl Nat.zero_lt_one
    simp only [fromAstDefinition.less, hkey, beq_self_eq_true, if_true]
    exact (decide_eq_true hlt).symm
  | cons p pre1 =>
    simp only [List.cons_append, List.cons.injEq] at hl
    obtain ⟨hp, hprod2⟩ := hl
    subst hp
    have hxn : x.Name ≠ request.KeyFieldName :=
      hprod x (by rw [hprod2]; exact List.mem_append_right _ (List.mem_cons_self _ _))
    have hxb : (x.Name == request.KeyFieldName) = false := by simpa using hxn
    rw [fromAstDefinition.rank_other x hxn]
    rcases List.mem_append.mp hy with hy1 | hy1
    · rcases List.mem_cons.mp hy1 with hy2 | hy2
      · subst hy2
        rw [fromAstDefinition.rank_key]
        have hnlt : ¬ toLex ((1 : Nat), x.Name.toList) <
            toLex ((0 : Nat), request.KeyFieldName.toList) := by
          rw [Prod.Lex.lt_iff]
          simp
        simp only [fromAstDefinition.less, hxb, hkey, beq_self_eq_true, if_true,
          Bool.false_eq_true, if_false]
        exact (decide_eq_false hnlt).symm
      · have hyn : y.Name ≠ request.KeyFieldName :=
          hprod y (by rw [hprod2]; exact List.mem_append_left _ hy2)
        have hyb : (y.Name == request.KeyFieldName) = false := by simpa using hyn
        rw [fromAstDefinition.rank_other y hyn]
        simp only [fromAstDefinition.less, hxb, hyb, Bool.false_eq_true, if_false,
          Prod.Lex.lt_iff, lt_self_iff_false, true_and, false_or]
    · have hyn : y.Name ≠ request.KeyFieldName :=
        hprod y (by rw [hprod2]; exact List.mem_append_right _ (List.mem_cons_of_mem _ hy1))
      have hyb : (y.Name == request.KeyFieldName) = false := by simpa using hyn
      rw [fromAstDefinition.rank_other y hyn]
      simp only [fromAstDefinition.less, hxb, hyb, Bool.false_eq_true, if_false,
        Prod.Lex.lt_iff, lt_self_iff_false, true_and, false_or]

theorem fromAstDefinition.sorted_shape (produced out : List FieldDescription)
    (hprod : ∀ fd ∈ produced, fd.Name ≠ request.KeyFieldName)
    (hperm : out.Perm (fromAstDefinition.keyField :: produced))
    (hsorted : out.Pairwise
      (fun a b => fromAstDefinition.rank a ≤ fromAstDefinition.rank b)) :
    ∃ rest, out = fromAstDefinition.keyField :: rest ∧ rest.Perm produced ∧
      rest.Pairwise (fun a b => a.Name.toList ≤ b.Name.toList) := by
  cases out with
  | nil =>
    have := hperm.length_eq
    simp at this
  | cons first rest =>
    obtain ⟨hfirst, hrest⟩ := List.pairwise_cons.mp hsorted
    have hfk : first = fromAstDefinition.keyField := by
      by_contra hne
      have hmem : fromAstDefinition.keyField ∈ rest := by
        have h1 : fromAstDefinition.keyField ∈ first :: rest :=
          hperm.symm.subset (List.mem_cons_self _ _)
        rcases List.mem_cons.mp h1 with h | h
        · exact absurd h.symm hne
        · exact h
      have hle := hfirst _ hmem
      have hfp : first ∈ produced := by
        rcases List.mem_cons.mp (hperm.subset (List.mem_cons_self _ _)) with h | h
        · exact absurd h hne
        · exact h
      rw [fromAstDefinition.rank_key, fromAstDefinition.rank_other first (hprod first hfp),
        Prod.Lex.le_iff] at hle
      simp at hle
    subst hfk
    have hrp : rest.Perm produced := (List.perm_cons _).mp hperm
    refine ⟨rest, rfl, hrp, ?_⟩
    refine hrest.imp_of_mem ?_
    intro a b ha hb hab
    rw [fromAstDefinition.rank_other a (hprod a (hrp.subset ha)),
      fromAstDefinition.rank_other b (hprod b (hrp.subset hb)), Prod.Lex.le_iff] at hab
    simpa using hab

/-- C13 as amended (`fromAstDefinition` sorts the fields): for every object
definition none of whose fields is called `_key`, and a `sort.Slice` that keeps
its documented promise, the schema fields that `fromAstDefinition` returns are
a permutation of the `_key` field plus all descriptions produced by
`fieldsFromAST`, the `_key` field is first, and all remaining fields are in
ascending order of name. -/
theorem fromAstDefinition_fields_sorted {ρ : Type} (lib : SchemaLib ρ) (rm : ρ)
    (def_ : ast.ObjectDefinition)
    (hsort : sort.SliceSorts lib.sortSlice)
    (hnokey : ∀ field ∈ def_.Fields, field.Name ≠ request.KeyFieldName) :
    fromAstDefinition.FieldsSorted lib rm def_ ∧
    ∀ cd rm1, fromAstDefinition lib rm def_ = (Except.ok cd, rm1) →
      cd.Schema.Fields.head? = some fromAstDefinition.keyField := by
  have core : ∀ cd rm1, fromAstDefinition lib rm def_ = (Except.ok cd, rm1) →
      ∃ produced rm2 rest,
        fieldsFromAST.all lib def_ rm def_.Fields = (Except.ok produced, rm2) ∧
        cd.Schema.Fields = fromAstDefinition.keyField :: rest ∧ rest.Perm produced ∧
        rest.Pairwise (fun a b => a.Name.toList ≤ b.Name.toList) := by
    intro cd rm1 h
    unfold fromAstDefinition at h
    cases hr : fromAstDefinition.fields lib def_ rm [fromAstDefinition.keyField] []
        def_.Fields with
    | mk res rm2 =>
      rw [hr] at h
      cases res with
      | error err => simp at h
      | ok pair =>
        obtain ⟨fds, idx⟩ := pair
        simp only at h
        obtain ⟨produced, hall, hfds⟩ := fromAstDefinition.fields_eq lib def_ _ _ _ _ _ _ _ hr
        have hprod : ∀ fd ∈ produced, fd.Name ≠ request.KeyFieldName := by
          intro fd hfd
          obtain ⟨field, hfield, hname⟩ :=
            fieldsFromAST.all_names lib def_ def_.Fields rm produced (by rw [hall]) fd hfd
          rcases hname with hn | hn
          · rw [hn]
            exact hnokey field hfield
          · rw [hn]
            exact request.id_name_ne_key field.Name
        cases hidx : fromAstDefinition.objectIndexes idx def_.Directives with
        | error err => simp [hidx] at h
        | ok indexes =>
          simp only [hidx, Prod.mk.injEq, Except.ok.injEq] at h
          obtain ⟨hcd, _⟩ := h
          subst hcd
          simp only [List.singleton_append] at hfds
          subst hfds
          obtain ⟨hperm, hsorted⟩ :=
            hsort fromAstDefinition.less (fromAstDefinition.keyField :: produced)
          have hs := hsorted fromAstDefinition.rank
            (fun pre x post hl => fromAstDefinition.less_eq_rank produced pre post x hprod hl)
          obtain ⟨rest, hout, hrp, hrs⟩ :=
            fromAstDefinition.sorted_shape produced _ hprod hperm hs
          exact ⟨produced, rm2, rest, hall, hout, hrp, hrs⟩
  constructor
  · intro cd rm1 h
    obtain ⟨produced, rm2, rest, hall, hout, hrp, hrs⟩ := core cd rm1 h
    refine ⟨produced, rm2, fromAstDefinition.keyField, rest, hall, ?_, hout, rfl, hrs⟩
    rw [hout]
    exact List.Perm.cons _ hrp
  · intro cd rm1 h
    obtain ⟨produced, rm2, rest, _, hout, _, _⟩ := core cd rm1 h
    rw [hout]
    rfl

/-- Witness of C13 as amended: the definition `User` with the fields `name` and
`age`, sorted by Go's insertion sort. -/
theorem fromAstDefinition_fields_sorted_witness :
    sort.SliceSorts exampleSchemaLib.sortSlice ∧
    (∀ field ∈ userDefinition.Fields, field.Name ≠ request.KeyFieldName) ∧
    fromAstDefinition.FieldsSorted exampleSchemaLib () userDefinition :=
  ⟨sort.insertionSort_sorts,
   by decide,
   (fromAstDefinition_fields_sorted exampleSchemaLib () userDefinition
      sort.insertionSort_sorts (by decide)).1⟩

/-- C13 as stated fails: for the definition `Odd` with the fields `Zed` and
`_key`, sorted by Go's insertion sort, `fromAstDefinition` returns the fields
`_key` (the field of the definition), `_key` (the built-in one), `Zed`; the
fields after the first are not in ascending order of name. -/
theorem fromAstDefinition_fields_not_sorted :
    ¬ fromAstDefinition.FieldsSorted exampleSchemaLib () oddDefinition := by
  intro h
  obtain ⟨produced, rm2, first, rest, _, _, hfields, _, hsorted⟩ :=
    h { Description := { Name := "Odd", Indexes := [] }
        Schema :=
          { Name := "Odd"
            Fields :=
              [ { Name := "_key", Kind := FieldKind.STRING, Schema := "", RelationName := "",
                  Typ := 1, RelationType := 0 },
                fromAstDefinition.keyField,
                { Name := "Zed", Kind := FieldKind.INT, Schema := "", RelationName := "",
                  Typ := 1, RelationType := 0 } ] } } () rfl
  simp only [List.cons.injEq] at hfields
  obtain ⟨_, hrest⟩ := hfields
  subst hrest
  revert hsorted
  decide

/-- Witness of C16: the directive `@index(name: "name_idx", unique: true)` on
the field `name`. -/
theorem fieldIndexFromAST_fields_witness :
    fieldIndexFromAST indexedNameField nameIndexDirective =
      Except.ok { Name := "name_idx", ID := 0,
                  Fields := [{ Name := "name", Direction := IndexDirection.Ascending }],
                  Unique := true } ∧
    ({ Name := "name_idx", ID := 0,
       Fields := [{ Name := "name", Direction := IndexDirection.Ascending }],
       Unique := true } : IndexDescription).Fields =
      [{ Name := indexedNameField.Name, Direction := IndexDirection.Ascending }] :=
  ⟨rfl, fieldIndexFromAST_fields indexedNameField nameIndexDirective _ rfl⟩

/-! ## Theorems: values at a commit -/

theorem MerkleClock.chain_append (hash : DAGNode → Cid) (a b : List Delta)
    (parents : List Cid) :
    MerkleClock.chain hash parents (a ++ b) =
      MerkleClock.chain hash parents a ++
        MerkleClock.chain hash (MerkleClock.chainHeads hash parents a) b := by
  induction a generalizing parents with
  | nil => rfl
  | cons d ds ih =>
    simp only [List.cons_append, MerkleClock.chain, MerkleClock.chainHeads]
    exact congrArg (List.cons _) (ih _)

theorem MerkleClock.chainHeads_append (hash : DAGNode → Cid) (a b : List Delta)
    (parents : List Cid) :
    MerkleClock.chainHeads hash parents (a ++ b) =
      MerkleClock.chainHeads hash (MerkleClock.chainHeads hash parents a) b := by
  induction a generalizing parents with
  | nil => rfl
  | cons d ds ih =>
    simp only [List.cons_append, MerkleClock.chainHeads]
    exact ih _

theorem MerkleClock.chain_mem (hash : DAGNode → Cid) (ds : List Delta) (parents : List Cid) :
    ∀ e ∈ MerkleClock.chain hash parents ds, e.2.Delta ∈ ds := by
  induction ds generalizing parents with
  | nil =>
    intro e he
    cases he
  | cons d ds ih =>
    intro e he
    simp only [MerkleClock.chain, List.mem_cons] at he
    rcases he with h | h
    · rw [h]
      exact List.mem_cons_self _ _
    · exact List.mem_cons_of_mem _ (ih _ e h)

theorem MerkleClock.publishAll_eq (hash : DAGNode → Cid) (ds : List Delta) (s : ClockState)
    (hs : s.storageError = none) :
    (MerkleClock.publishAll hash s ds).1 = (MerkleClock.chain hash s.heads ds).map Prod.fst ∧
    (MerkleClock.publishAll hash s ds).2.nodes = s.nodes ++ MerkleClock.chain hash s.heads ds ∧
    (MerkleClock.publishAll hash s ds).2.heads = MerkleClock.chainHeads hash s.heads ds := by
  induction ds generalizing s with
  | nil => simp [MerkleClock.publishAll, MerkleClock.chain, MerkleClock.chainHeads]
  | cons d ds ih =>
    have hstep : MerkleClock.specAddDAGNode hash s d =
        ((hash { Delta := d, Parents := s.heads }, none),
          { heads := [hash { Delta := d, Parents := s.heads }],
            nodes := s.nodes ++
              [(hash { Delta := d, Parents := s.heads }, { Delta := d, Parents := s.heads })],
            storageError := none }) := by
      simp [MerkleClock.specAddDAGNode, hs, HeadTracker.Replace, HeadTracker.Get,
        HeadTracker.filter_removed_self]
    obtain ⟨h1, h2, h3⟩ := ih
      { heads := [hash { Delta := d, Parents := s.heads }],
        nodes := s.nodes ++
          [(hash { Delta := d, Parents := s.heads }, { Delta := d, Parents := s.heads })],
        storageError := none } rfl
    simp only [MerkleClock.publishAll, hstep, MerkleClock.chain, MerkleClock.chainHeads,
      List.map_cons]
    refine ⟨by rw [h1], ?_, h3⟩
    rw [h2]
    simp

theorem NodeStore.get_middle (front back : List (Cid × DAGNode)) (c : Cid) (node : DAGNode)
    (hc : c ∉ front.map Prod.fst) :
    NodeStore.get (front ++ (c, node) :: back) c = some node := by
  induction front with
  | nil => simp [NodeStore.get]
  | cons e rest ih =>
    have hne : e.1 ≠ c := by
      intro h
      exact hc (by simp [h])
    have hrest : c ∉ rest.map Prod.fst := by
      intro h
      exact hc (by simp only [List.map_cons, List.mem_cons]; exact Or.inr h)
    have hb : (e.1 == c) = false := by simpa using hne
    have := ih hrest
    simp only [NodeStore.get, List.cons_append, List.find?_cons, hb] at this ⊢
    exact this

theorem MerkleClock.history_append_singleton (hash : DAGNode → Cid) (pre : List Delta)
    (d : Delta) :
    MerkleClock.history hash (pre ++ [d]) =
      (d, hash { Delta := d, Parents := MerkleClock.chainHeads hash [] pre }) ::
        MerkleClock.history hash pre := by
  simp [MerkleClock.history, MerkleClock.chain_append, MerkleClock.chain]

theorem MerkleClock.history_mem (hash : DAGNode → Cid) (pre : List Delta) :
    ∀ e ∈ MerkleClock.history hash pre, e.1 ∈ pre := by
  intro e he
  simp only [MerkleClock.history, List.mem_reverse, List.mem_map] at he
  obtain ⟨x, hx, rfl⟩ := he
  exact MerkleClock.chain_mem hash pre [] x hx

theorem NodeStore.reachable_commit (hash : DAGNode → Cid) (pre : List Delta) :
    ∀ (d : Delta) (post : List Delta) (fuel : Nat),
      ((MerkleClock.chain hash [] (pre ++ d :: post)).map Prod.fst).Nodup →
      pre.length < fuel →
      NodeStore.reachable (MerkleClock.chain hash [] (pre ++ d :: post)) fuel
          [hash { Delta := d, Parents := MerkleClock.chainHeads hash [] pre }] =
        Except.ok ((d, hash { Delta := d, Parents := MerkleClock.chainHeads hash [] pre }) ::
          MerkleClock.history hash pre) := by
  induction pre using List.reverseRecOn with
  | nil =>
    intro d post fuel _ hfuel
    obtain ⟨f, rfl⟩ : ∃ f, fuel = f + 1 := ⟨fuel - 1, by simp at hfuel; omega⟩
    have hget : NodeStore.get (MerkleClock.chain hash [] ([] ++ d :: post))
        (hash { Delta := d, Parents := MerkleClock.chainHeads hash [] [] }) =
        some { Delta := d, Parents := [] } := by
      simp [NodeStore.get, MerkleClock.chain, MerkleClock.chainHeads]
    simp only [NodeStore.reachable, hget]
    cases f <;> simp [NodeStore.reachable, MerkleClock.history, MerkleClock.chain,
      MerkleClock.chainHeads]
  | append_singleton pre1 d1 ih =>
    intro d post fuel hnodup hfuel
    obtain ⟨f, rfl⟩ : ∃ f, fuel = f + 1 := ⟨fuel - 1, by omega⟩
    have hheads : MerkleClock.chainHeads hash [] (pre1 ++ [d1]) =
        [hash { Delta := d1, Parents := MerkleClock.chainHeads hash [] pre1 }] := by
      rw [MerkleClock.chainHeads_append]
      rfl
    have hsplit : MerkleClock.chain hash [] ((pre1 ++ [d1]) ++ d :: post) =
        MerkleClock.chain hash [] (pre1 ++ [d1]) ++
          (hash { Delta := d, Parents := MerkleClock.chainHeads hash [] (pre1 ++ [d1]) },
            { Delta := d, Parents := MerkleClock.chainHeads hash [] (pre1 ++ [d1]) }) ::
          MerkleClock.chain hash
            [hash { Delta := d, Parents := MerkleClock.chainHeads hash [] (pre1 ++ [d1]) }]
            post := by
      rw [MerkleClock.chain_append]
      rfl
    have hnot : hash { Delta := d, Parents := MerkleClock.chainHeads hash [] (pre1 ++ [d1]) } ∉
        (MerkleClock.chain hash [] (pre1 ++ [d1])).map Prod.fst := by
      rw [hsplit, List.map_append, List.map_cons] at hnodup
      intro hmem
      exact (List.nodup_append.mp hnodup).2.2 hmem (List.mem_cons_self _ _)
    have hget : NodeStore.get (MerkleClock.chain hash [] ((pre1 ++ [d1]) ++ d :: post))
        (hash { Delta := d, Parents := MerkleClock.chainHeads hash [] (pre1 ++ [d1]) }) =
        some { Delta := d, Parents := MerkleClock.chainHeads hash [] (pre1 ++ [d1]) } := by
      rw [hsplit]
      exact NodeStore.get_middle _ _ _ _ hnot
    have hassoc : (pre1 ++ [d1]) ++ d :: post = pre1 ++ d1 :: (d :: post) := by simp
    have hrec := ih d1 (d :: post) f (by rw [← hassoc]; exact hnodup)
      (by simp only [List.length_append, List.length_singleton] at hfuel; omega)
    rw [← hassoc] at hrec
    simp only [NodeStore.reachable, hget]
    rw [hheads]
    simp only [List.singleton_append, hrec]
    rw [MerkleClock.history_append_singleton]

theorem LWWRegister.foldl_lower (larger : Bool) (deltas : List (Delta × String))
    (reg : LWWRegister) (cur : LWWEntry) (hw : reg.winner = some cur)
    (hlow : ∀ e ∈ deltas, e.1.Priority < cur.Priority) :
    deltas.foldl (fun reg d => (LWWRegister.Merge larger reg d.1 d.2).2) reg = reg := by
  induction deltas with
  | nil => rfl
  | cons e rest ih =>
    have hlt := hlow e (List.mem_cons_self _ _)
    have hstep : (LWWRegister.Merge larger reg e.1 e.2).2 = reg := by
      have hb : LWWEntry.beats larger
          { Priority := e.1.Priority, CID := e.2, Payload := e.1.Payload } cur = false := by
        rw [Bool.eq_false_iff]
        intro hbeat
        rw [LWWEntry.beats_iff] at hbeat
        rcases hbeat with h | ⟨h, _⟩
        · exact absurd h (by simp only [not_lt]; exact le_of_lt hlt)
        · simp only at h
          omega
      simp [LWWRegister.Merge, hw, hb]
    simp only [List.foldl_cons, hstep]
    exact ih (fun e' he' => hlow e' (List.mem_cons_of_mem _ he'))

theorem MerkleClock.chain_length (hash : DAGNode → Cid) (ds : List Delta) (parents : List Cid) :
    (MerkleClock.chain hash parents ds).length = ds.length := by
  induction ds generalizing parents with
  | nil => rfl
  | cons d ds ih => simp [MerkleClock.chain, ih]

theorem valueAtHeads_chain (hash : DAGNode → Cid) (larger : Bool) (id : String)
    (pre post : List Delta) (d : Delta) (fuel : Nat)
    (hnodup : ((MerkleClock.chain hash [] (pre ++ d :: post)).map Prod.fst).Nodup)
    (hprio : ∀ e ∈ pre, e.Priority < d.Priority)
    (hfuel : pre.length < fuel) :
    valueAtHeads larger id (MerkleClock.chain hash [] (pre ++ d :: post)) fuel
        [hash { Delta := d, Parents := MerkleClock.chainHeads hash [] pre }] =
      (d.Payload, none) := by
  have hreach := NodeStore.reachable_commit hash pre d post fuel hnodup hfuel
  simp only [valueAtHeads, hreach, List.foldl_cons]
  have hfirst : (LWWRegister.Merge larger { id := id, winner := none } d
      (hash { Delta := d, Parents := MerkleClock.chainHeads hash [] pre })).2 =
      { id := id,
        winner := some { Priority := d.Priority,
                         CID := hash { Delta := d, Parents := MerkleClock.chainHeads hash [] pre },
                         Payload := d.Payload } } := rfl
  rw [hfirst, LWWRegister.foldl_lower larger _ _ _ rfl
    (fun e he => hprio e.1 (MerkleClock.history_mem hash pre e he))]
  rfl

/-- C11 (values at a commit): with the clock and the LWW register of the
specification, let the deltas `pre`, then `d`, then `post` be committed one
after the other on a new object, the commits having pairwise different CIDs
and every delta of `pre` a lower priority than `d`.  Then the CID `c` of the
commit of `d` is the head right after that commit, and the value at `c`, the
merge of all deltas reachable from `c`, is the payload of `d`, both in the
store right after that commit and in the store after all later commits, for
every fuel above the number of earlier commits. -/
theorem valueAtHeads_commit (hash : DAGNode → Cid) (larger : Bool) (id : String)
    (pre post : List Delta) (d : Delta) (fuel : Nat)
    (hnodup : (MerkleClock.publishAll hash ClockState.empty (pre ++ d :: post)).1.Nodup)
    (hprio : ∀ e ∈ pre, e.Priority < d.Priority)
    (hfuel : pre.length < fuel) :
    ∃ c,
      (MerkleClock.publishAll hash ClockState.empty (pre ++ d :: post)).1[pre.length]? = some c ∧
      (MerkleClock.publishAll hash ClockState.empty (pre ++ [d])).2.heads = [c] ∧
      valueAtHeads larger id
        (MerkleClock.publishAll hash ClockState.empty (pre ++ d :: post)).2.nodes fuel [c] =
          (d.Payload, none) ∧
      valueAtHeads larger id
        (MerkleClock.publishAll hash ClockState.empty (pre ++ [d])).2.nodes fuel [c] =
          (d.Payload, none) := by
  have hc1 : (MerkleClock.publishAll hash ClockState.empty (pre ++ d :: post)).1 =
      (MerkleClock.chain hash [] (pre ++ d :: post)).map Prod.fst :=
    (MerkleClock.publishAll_eq hash (pre ++ d :: post) ClockState.empty rfl).1
  have hn1 : (MerkleClock.publishAll hash ClockState.empty (pre ++ d :: post)).2.nodes =
      MerkleClock.chain hash [] (pre ++ d :: post) := by
    rw [(MerkleClock.publishAll_eq hash (pre ++ d :: post) ClockState.empty rfl).2.1]
    rfl
  have hn2 : (MerkleClock.publishAll hash ClockState.empty (pre ++ [d])).2.nodes =
      MerkleClock.chain hash [] (pre ++ [d]) := by
    rw [(MerkleClock.publishAll_eq hash (pre ++ [d]) ClockState.empty rfl).2.1]
    rfl
  have hh2 : (MerkleClock.publishAll hash ClockState.empty (pre ++ [d])).2.heads =
      MerkleClock.chainHeads hash [] (pre ++ [d]) :=
    (MerkleClock.publishAll_eq hash (pre ++ [d]) ClockState.empty rfl).2.2
  rw [hc1] at hnodup
  have hsplit : MerkleClock.chain hash [] (pre ++ d :: post) =
      MerkleClock.chain hash [] (pre ++ [d]) ++
        MerkleClock.chain hash (MerkleClock.chainHeads hash [] (pre ++ [d])) post := by
    rw [← MerkleClock.chain_append]
    simp
  have hnodup2 : ((MerkleClock.chain hash [] (pre ++ [d])).map Prod.fst).Nodup := by
    rw [hsplit, List.map_append] at hnodup
    exact (List.nodup_append.mp hnodup).1
  refine ⟨hash { Delta := d, Parents := MerkleClock.chainHeads hash [] pre }, ?_, ?_, ?_, ?_⟩
  · rw [hc1, MerkleClock.chain_append, List.map_append,
      List.getElem?_append_right (by simp [MerkleClock.chain_length])]
    simp [MerkleClock.chain_length, MerkleClock.chain]
  · rw [hh2, MerkleClock.chainHeads_append]
    rfl
  · rw [hn1]
    exact valueAtHeads_chain hash larger id pre post d fuel hnodup hprio hfuel
  · rw [hn2]
    exact valueAtHeads_chain hash larger id pre [] d fuel hnodup2 hprio hfuel

/-- Witness of C11: a document created with `Age` 21 and then updated to 22
and to 23; the CIDs of the first, the middle and the last commit yield 21, 22
and 23. -/
theorem valueAtHeads_commit_witness :
    (MerkleClock.publishAll exampleHash ClockState.empty
      [ageDelta 21 1, ageDelta 22 2, ageDelta 23 3]).1 =
        ["#\x15", "#\x15;#\x16", "#\x15;#\x16;#\x17"] ∧
    (∃ c, (MerkleClock.publishAll exampleHash ClockState.empty
          ([] ++ ageDelta 21 1 :: [ageDelta 22 2, ageDelta 23 3])).1[0]? = some c ∧
      valueAtHeads true "bae-52b9170d/Age"
        (MerkleClock.publishAll exampleHash ClockState.empty
          ([] ++ ageDelta 21 1 :: [ageDelta 22 2, ageDelta 23 3])).2.nodes 4 [c] =
        ([21], none)) ∧
    (∃ c, (MerkleClock.publishAll exampleHash ClockState.empty
          ([ageDelta 21 1] ++ ageDelta 22 2 :: [ageDelta 23 3])).1[1]? = some c ∧
      valueAtHeads true "bae-52b9170d/Age"
        (MerkleClock.publishAll exampleHash ClockState.empty
          ([ageDelta 21 1] ++ ageDelta 22 2 :: [ageDelta 23 3])).2.nodes 4 [c] =
        ([22], none)) ∧
    (∃ c, (MerkleClock.publishAll exampleHash ClockState.empty
          ([ageDelta 21 1, ageDelta 22 2] ++ ageDelta 23 3 :: [])).1[2]? = some c ∧
      valueAtHeads true "bae-52b9170d/Age"
        (MerkleClock.publishAll exampleHash ClockState.empty
          ([ageDelta 21 1, ageDelta 22 2] ++ ageDelta 23 3 :: [])).2.nodes 4 [c] =
        ([23], none)) :=
  ⟨by decide,
   (valueAtHeads_commit exampleHash true "bae-52b9170d/Age" [] [ageDelta 22 2, ageDelta 23 3]
      (ageDelta 21 1) 4 (by decide) (by decide) (by decide)).imp
      (fun _ h => ⟨h.1, h.2.2.1⟩),
   (valueAtHeads_commit exampleHash true "bae-52b9170d/Age" [ageDelta 21 1] [ageDelta 23 3]
      (ageDelta 22 2) 4 (by decide) (by decide) (by decide)).imp
      (fun _ h => ⟨h.1, h.2.2.1⟩),
   (valueAtHeads_commit exampleHash true "bae-52b9170d/Age" [ageDelta 21 1, ageDelta 22 2] []
      (ageDelta 23 3) 4 (by decide) (by decide) (by decide)).imp
      (fun _ h => ⟨h.1, h.2.2.1⟩)⟩

/-! ## Theorems: `astTypeToKind` and `fieldsFromAST` -/

theorem astTypeToKind.named_nonScalar (name : String)
    (h : name ∉ astTypeToKind.scalarNames) :
    astTypeToKind.named name = FieldKind.FOREIGN_OBJECT := by
  simp only [astTypeToKind.scalarNames, List.mem_cons, List.mem_singleton, List.not_mem_nil,
    or_false, not_or] at h
  obtain ⟨h1, h2, h3, h4, h5, h6, h7⟩ := h
  simp [astTypeToKind.named, h1, h2, h3, h4, h5, h6, h7]

theorem astTypeToKind.scalar_kind (t : ast.Type_) (h : t.IsScalarOrScalarArray) :
    ∃ kind, astTypeToKind t = Except.ok kind ∧ kind ≠ FieldKind.FOREIGN_OBJECT ∧
      kind ≠ FieldKind.FOREIGN_OBJECT_ARRAY := by
  rcases h with ⟨name, rfl, hn⟩ | ⟨name, ht, hn⟩
  · simp only [astTypeToKind.scalarNames, List.mem_cons, List.mem_singleton,
      List.not_mem_nil, or_false] at hn
    rcases hn with rfl | rfl | rfl | rfl | rfl | rfl | rfl <;>
      exact ⟨_, rfl, by decide, by decide⟩
  · simp only [astTypeToKind.scalarElementNames, List.mem_cons, List.mem_singleton,
      List.not_mem_nil, or_false] at hn
    rcases ht with rfl | rfl <;> rcases hn with rfl | rfl | rfl | rfl <;>
      exact ⟨_, rfl, by decide, by decide⟩

/-- C21 as amended (shape of the descriptions of `fieldsFromAST`): for a field
whose type is a named non-scalar type, `fieldsFromAST`, when it returns without
error, returns exactly two descriptions in this order: the field `<name>_id`
of kind DocKey with relation type INTERNAL_ID, then the field itself, of kind
FOREIGN_OBJECT, whose relation type is ONE, or ONE with Primary exactly when
the field has a `@primary` directive; for a scalar or scalar-array field it
always returns exactly one description, with empty schema, empty relation name
and relation type 0, and leaves the relation manager alone. -/
theorem fieldsFromAST_shape {ρ : Type} (lib : SchemaLib ρ) (rm : ρ)
    (field : ast.FieldDefinition) (def_ : ast.ObjectDefinition) :
    (field.Type_.IsNamedNonScalar →
      ∀ fds, (fieldsFromAST lib rm field def_).1 = Except.ok fds →
        ∃ schema relationName relationType,
          field.Type_ = ast.Type_.Named schema ∧
          getRelationshipName lib field def_.Name schema = Except.ok relationName ∧
          fds =
            [{ Name := field.Name ++ "_id", Kind := FieldKind.DocKey, Schema := "",
               RelationName := "", Typ := lib.defaultCRDTForFieldKind FieldKind.DocKey,
               RelationType := client.Relation_Type_INTERNAL_ID },
             { Name := field.Name, Kind := FieldKind.FOREIGN_OBJECT, Schema := schema,
               RelationName := relationName,
               Typ := lib.defaultCRDTForFieldKind FieldKind.FOREIGN_OBJECT,
               RelationType := relationType }] ∧
          relationType =
            (if findDirective field "primary" then
              client.Relation_Type_ONE ||| client.Relation_Type_Primary
             else client.Relation_Type_ONE) ∧
          relationType &&& client.Relation_Type_ONE = client.Relation_Type_ONE ∧
          (relationType &&& client.Relation_Type_Primary ≠ 0 ↔
            findDirective field "primary" = true)) ∧
    (field.Type_.IsScalarOrScalarArray →
      ∃ kind, astTypeToKind field.Type_ = Except.ok kind ∧
        fieldsFromAST lib rm field def_ =
          (Except.ok [{ Name := field.Name, Kind := kind, Schema := "", RelationName := "",
                        Typ := lib.defaultCRDTForFieldKind kind, RelationType := 0 }], rm)) := by
  constructor
  · rintro ⟨name, ht, hn⟩ fds hok
    have hk : astTypeToKind field.Type_ = Except.ok FieldKind.FOREIGN_OBJECT := by
      rw [ht]
      simp only [astTypeToKind, astTypeToKind.named_nonScalar name hn]
    have hrel : fieldsFromAST.related lib field FieldKind.FOREIGN_OBJECT =
        Except.ok (name,
          if findDirective field "primary" then
            client.Relation_Type_ONE ||| client.Relation_Type_Primary
          else client.Relation_Type_ONE,
          [{ Name := field.Name ++ "_id", Kind := FieldKind.DocKey, Schema := "",
             RelationName := "", Typ := lib.defaultCRDTForFieldKind FieldKind.DocKey,
             RelationType := client.Relation_Type_INTERNAL_ID }]) := by
      simp [fieldsFromAST.related, ht]
    unfold fieldsFromAST at hok
    simp only [hk, beq_self_eq_true, Bool.true_or, if_true, hrel] at hok
    cases hname : getRelationshipName lib field def_.Name name with
    | error err => simp [hname] at hok
    | ok relationName =>
      simp only [hname] at hok
      cases hreg : (lib.RegisterSingle rm relationName name field.Name
          (if findDirective field "primary" then
            client.Relation_Type_ONE ||| client.Relation_Type_Primary
           else client.Relation_Type_ONE)).1.2 with
      | some err => simp [hreg] at hok
      | none =>
        simp only [hreg, Except.ok.injEq] at hok
        refine ⟨name, relationName, _, ht, hname, ?_, rfl, ?_, ?_⟩
        · rw [← hok]
          rfl
        · by_cases hp : findDirective field "primary" = true
          · simp only [hp, if_true]
            decide
          · simp only [hp]
            decide
        · by_cases hp : findDirective field "primary" = true
          · simp only [hp, if_true, iff_true]
            decide
          · simp only [hp, iff_false]
            decide
  · intro hs
    obtain ⟨kind, hk, h1, h2⟩ := astTypeToKind.scalar_kind field.Type_ hs
    refine ⟨kind, hk, ?_⟩
    have hb : (kind == FieldKind.FOREIGN_OBJECT || kind == FieldKind.FOREIGN_OBJECT_ARRAY)
        = false := by
      simp [h1, h2]
    simp only [fieldsFromAST, hk, hb, Bool.false_eq_true, if_false]

/-- Witness of C21 as amended: `author: Author @primary` gives `author_id` and
`author` with relation type ONE and Primary; `ratings: [Float!]` gives one
plain description. -/
theorem fieldsFromAST_shape_witness :
    authorField.Type_.IsNamedNonScalar ∧
    (fieldsFromAST exampleSchemaLib () authorField userDefinition).1 =
      Except.ok
        [{ Name := "author_id", Kind := FieldKind.DocKey, Schema := "", RelationName := "",
           Typ := 1, RelationType := 64 },
         { Name := "author", Kind := FieldKind.FOREIGN_OBJECT, Schema := "Author",
           RelationName := "User_Author", Typ := 1, RelationType := 129 }] ∧
    (∃ schema relationName relationType,
      authorField.Type_ = ast.Type_.Named schema ∧
      getRelationshipName exampleSchemaLib authorField userDefinition.Name schema =
        Except.ok relationName ∧
      relationType &&& client.Relation_Type_ONE = client.Relation_Type_ONE ∧
      (relationType &&& client.Relation_Type_Primary ≠ 0 ↔
        findDirective authorField "primary" = true)) ∧
    ratingsField.Type_.IsScalarOrScalarArray ∧
    fieldsFromAST exampleSchemaLib () ratingsField userDefinition =
      (Except.ok [{ Name := "ratings", Kind := FieldKind.FLOAT_ARRAY, Schema := "",
                    RelationName := "", Typ := 1, RelationType := 0 }], ()) :=
  ⟨⟨"Author", rfl, by decide⟩, rfl,
   (((fieldsFromAST_shape exampleSchemaLib () authorField userDefinition).1
      ⟨"Author", rfl, by decide⟩ _ rfl).imp
      (fun _ h => h.imp (fun _ h => h.imp
        (fun _ h => ⟨h.1, h.2.1, h.2.2.2.2.1, h.2.2.2.2.2⟩)))),
   Or.inr ⟨"Float", Or.inr rfl, by decide⟩, rfl⟩

/-- C21 as stated fails: the type of `author: Author @relation(name: true)` is
a named non-scalar type, and `fieldsFromAST` returns no descriptions for it
but the unexpected-type error of `getRelationshipName`. -/
theorem fieldsFromAST_error_on_foreign_object :
    badRelationField.Type_.IsNamedNonScalar ∧
    (fieldsFromAST exampleSchemaLib () badRelationField userDefinition).1 =
      Except.error (Error.ErrUnexpectedType "string" "Relationship name" (GoAny.bool true)) ∧
    ¬ ∃ fds, (fieldsFromAST exampleSchemaLib () badRelationField userDefinition).1 =
      Except.ok fds := by
  refine ⟨⟨"Author", rfl, by decide⟩, rfl, ?_⟩
  rintro ⟨fds, h⟩
  have h2 : (fieldsFromAST exampleSchemaLib () badRelationField userDefinition).1 =
      Except.error (Error.ErrUnexpectedType "string" "Relationship name" (GoAny.bool true)) :=
    rfl
  rw [h2] at h
  cases h

/-- C22 (type assertions in `astTypeToKind`), at the failing inputs: on
`[[Int]]`, a list whose element type is itself a list, and on `[[Int]!]`, a
list of non-null lists, the type assertion `.(*ast.Named)` fails and
`astTypeToKind` panics instead of returning a kind or an error; in general it
panics exactly on the lists whose element is a list or is a non-null type
around anything but a named type, and `fieldsFromAST` passes the panic on. -/
theorem astTypeToKind_panics :
    astTypeToKind listOfListType =
      Except.error (Error.panic "interface conversion: ast.Type is not *ast.Named") ∧
    astTypeToKind listOfNonNullListType =
      Except.error (Error.panic "interface conversion: ast.Type is not *ast.Named") ∧
    (∀ t : ast.Type_, (∃ msg, astTypeToKind t = Except.error (Error.panic msg)) ↔
      ((∃ inner, t = ast.Type_.List (ast.Type_.List inner)) ∨
       (∃ inner, t = ast.Type_.List (ast.Type_.NonNull inner) ∧
          ∀ name, inner ≠ ast.Type_.Named name))) ∧
    (fieldsFromAST exampleSchemaLib ()
        { Name := "grid", Type_ := listOfListType, Directives := [] } userDefinition).1 =
      Except.error (Error.panic "interface conversion: ast.Type is not *ast.Named") := by
  refine ⟨rfl, rfl, ?_, rfl⟩
  intro t
  constructor
  · rintro ⟨msg, h⟩
    cases t with
    | Named name => simp [astTypeToKind] at h
    | NonNull inner => simp [astTypeToKind] at h
    | List inner =>
      cases inner with
      | Named name => simp [astTypeToKind] at h
      | List inner2 => exact Or.inl ⟨inner2, rfl⟩
      | NonNull element =>
        refine Or.inr ⟨element, rfl, ?_⟩
        intro name hname
        subst hname
        simp only [astTypeToKind, astTypeToKind.nonNullElement] at h
        split at h
        · cases h
        · split at h
          · cases h
          · split at h
            · cases h
            · split at h
              · cases h
              · cases h
  · rintro (⟨inner, rfl⟩ | ⟨inner, rfl, hne⟩)
    · exact ⟨_, rfl⟩
    · cases inner with
      | Named name => exact absurd rfl (hne name)
      | List x => exact ⟨_, rfl⟩
      | NonNull x => exact ⟨_, rfl⟩

end DefraDB
